import Mathlib

/-!
# Verification of the search_vulns TypeScript port (bun_version)

This file gives a shallow embedding, in Lean 4, of the parts of the
search_vulns Bun/TypeScript code base that the specification's claims are
about, together with theorems settling each claim.

Modelling conventions, used throughout:

* JavaScript strings are modelled as `List Char` (`JStr`).  Comparison
  operators on strings (`<`, `>`, `localeCompare` is not needed) compare
  UTF-16 code-unit sequences, which `jsStrLt` reproduces exactly.
* JavaScript objects used as string-keyed dictionaries
  (`Record<string, T>`) are modelled as insertion-ordered association
  lists (`RecMap`).  All keys occurring in this development are
  non-integer-like strings (CVE ids, CPE strings, queries), for which JS
  preserves insertion order.
* JavaScript `Set` of strings is modelled as an insertion-ordered
  duplicate-free list; a `Set` of freshly allocated tuples never
  deduplicates (reference equality) and is modelled as a plain list.
* IEEE-754 doubles produced by arithmetic in the scoring pipeline are
  modelled as exact fractions (`Frac`).  The transcendental calls
  `Math.exp(-0.25*i)` and `Math.sqrt` are modelled by `expQueryWeight`
  (powers of a 16-digit rational approximation of `exp(-0.25)`) and
  `jsSqrt` (a rational approximation of square root); every comparison
  against a threshold appearing in a proof below has a wide margin, so
  the approximations agree with the floating-point computation there.
* Fallible JavaScript code (statements that can throw) is modelled with
  `Except JsErr`.
-/

set_option maxHeartbeats 4000000

/-- JavaScript string, as its sequence of Unicode scalar values. -/
abbrev JStr := List Char

/-- Convert a Lean string literal to the `JStr` model. -/
def jstr (s : String) : JStr := s.toList

/-- JavaScript runtime errors thrown by the embedded code. -/
inductive JsErr where
  /-- `TypeError`, e.g. calling `.split` on a non-string value. -/
  | typeError
  /-- `throw new Error(msg)` with the given message. -/
  | jsError (msg : JStr)
deriving DecidableEq, Repr

/-- UTF-16 code units of one Unicode scalar value (surrogate pair above 0xFFFF). -/
def utf16Units (c : Char) : List Nat :=
  if c.val.toNat < 0x10000 then [c.val.toNat]
  else [0xD800 + (c.val.toNat - 0x10000) / 0x400, 0xDC00 + (c.val.toNat - 0x10000) % 0x400]

/-- Lexicographic strict order on code-unit lists. -/
def unitsLt : List Nat → List Nat → Bool
  | [], [] => false
  | [], _ :: _ => true
  | _ :: _, [] => false
  | a :: as, b :: bs => if a < b then true else if b < a then false else unitsLt as bs

/-- JavaScript `a < b` on strings: lexicographic on UTF-16 code units. -/
def jsStrLt (a b : JStr) : Bool :=
  unitsLt (a.flatMap utf16Units) (b.flatMap utf16Units)

/-- JavaScript `String.prototype.toLowerCase`, restricted to the ASCII range
(the only case-mapped characters reaching it in this development). -/
def jsToLower (s : JStr) : JStr := s.map Char.toLower

/-- Split a string at every character satisfying `p`
(the behaviour of `String.prototype.split` with a one-character-class regex). -/
def splitOnPred (p : Char → Bool) : JStr → List JStr
  | [] => [[]]
  | c :: cs =>
    let rest := splitOnPred p cs
    if p c then [] :: rest
    else match rest with
      | [] => [[c]]
      | r :: rs => (c :: r) :: rs

/-- JavaScript `s.split(sep)` for a one-character separator. -/
def jsSplitChar (sep : Char) (s : JStr) : List JStr := splitOnPred (· = sep) s

/-- JavaScript `Array.prototype.join(sep)`. -/
def jsJoin (sep : JStr) : List JStr → JStr
  | [] => []
  | [x] => x
  | x :: xs => x ++ sep ++ jsJoin sep xs

/-- `List.take` composed with `jsJoin`, the ubiquitous
`cpe.split(':').slice(0, 5).join(':') + ':'` idiom computing a CPE's
vendor-product part. -/
def cpeProductPart (cpe : JStr) : JStr :=
  jsJoin [':'] ((jsSplitChar ':' cpe).take 5) ++ [':']

/-- Exact fraction model of a JavaScript number.  Invariant maintained by all
operations below: the denominator is positive. -/
structure Frac where
  num : Int
  den : Int
deriving DecidableEq, Repr

/-- Embed an integer. -/
def Frac.ofInt (n : Int) : Frac := ⟨n, 1⟩

instance : OfNat Frac n := ⟨Frac.ofInt n⟩

/-- Fraction addition (no reduction; denominators stay positive). -/
def Frac.add (a b : Frac) : Frac := ⟨a.num * b.den + b.num * a.den, a.den * b.den⟩

/-- Fraction multiplication. -/
def Frac.mul (a b : Frac) : Frac := ⟨a.num * b.num, a.den * b.den⟩

/-- Fraction division; division by a zero numerator (JS would give
`Infinity`/`NaN`) is guarded against at every use site, following the code's
own `normalizationFactor === 0` checks, and mapped to `0` here. -/
def Frac.div (a b : Frac) : Frac :=
  if b.num = 0 then ⟨0, 1⟩
  else if b.num < 0 then ⟨-(a.num * b.den), a.den * -b.num⟩
  else ⟨a.num * b.den, a.den * b.num⟩

/-- Fraction negation. -/
def Frac.neg (a : Frac) : Frac := ⟨-a.num, a.den⟩

/-- Comparison: `a < b` (valid for positive denominators). -/
def Frac.blt (a b : Frac) : Bool := a.num * b.den < b.num * a.den

/-- Comparison: `a ≤ b`. -/
def Frac.ble (a b : Frac) : Bool := a.num * b.den ≤ b.num * a.den

/-- Value equality of fractions (cross multiplication). -/
def Frac.beq (a b : Frac) : Bool := a.num * b.den = b.num * a.den

/-- Floor of the square root of a natural number, by fuel-driven binary search
on the interval `[0, n]`; `natSqrtAux fuel lo hi n` assumes `lo² ≤ n < hi²`. -/
def natSqrtAux : Nat → Nat → Nat → Nat → Nat
  | 0, lo, _, _ => lo
  | fuel + 1, lo, hi, n =>
    if hi ≤ lo + 1 then lo
    else
      let mid := (lo + hi) / 2
      if mid * mid ≤ n then natSqrtAux fuel mid hi n
      else natSqrtAux fuel lo mid n

/-- Number of halvings needed to reach zero, fuel-driven (fuel 4096 covers
every magnitude arising in this development). -/
def bitLenSqrtAux : Nat → Nat → Nat
  | 0, _ => 0
  | _ + 1, 0 => 0
  | fuel + 1, n => bitLenSqrtAux fuel (n / 2) + 1

/-- Floor of the square root of a natural number: bisection with enough
fuel for the full binary search on `n`. -/
def natSqrt (n : Nat) : Nat := natSqrtAux (bitLenSqrtAux 4096 n + 2) 0 (n + 1) n

/-- Model of `Math.sqrt` on a non-negative fraction: exact to a relative
error below `10⁻¹²`, which is far below every comparison margin used in the
theorems of this development. -/
def jsSqrt (x : Frac) : Frac :=
  if x.num ≤ 0 then ⟨0, 1⟩
  else
    let scale : Int := 10 ^ 12
    ⟨Int.ofNat (natSqrt ((x.num * x.den * scale * scale).toNat)), x.den * scale⟩

/-!
## `src/utils/version.ts`

`parseVersion`, `compareVersions`, `isVersionInRange`, `cpeMatchesPrefix`
and `getCpeVersion`, translated statement by statement.
-/

/-- A parsed version segment: `parseVersion` yields JS numbers or lowercase
strings. -/
inductive Seg where
  | num (n : Nat)
  | str (s : JStr)
deriving DecidableEq, Repr

/-- Decimal digits of `n` (least significant first), fuel-driven. -/
def natDigitsAux : Nat → Nat → List Char
  | 0, _ => []
  | _ + 1, 0 => []
  | fuel + 1, n => Char.ofNat (48 + n % 10) :: natDigitsAux fuel (n / 10)

/-- Decimal representation of a natural number, as produced by JavaScript
`Number.prototype.toString` for exactly-representable integers below `10²¹`
(the only numbers `parseVersion` produces). -/
def natRepr (n : Nat) : JStr :=
  if n = 0 then ['0'] else (natDigitsAux 128 n).reverse

/-- Numeric value of a digit string. -/
def digitsVal (s : JStr) : Nat :=
  s.foldl (fun acc c => acc * 10 + (c.toNat - 48)) 0

/-- Number of binary digits of `n`, fuel-driven. -/
def bitLenAux : Nat → Nat → Nat
  | 0, _ => 0
  | _ + 1, 0 => 0
  | fuel + 1, n => bitLenAux fuel (n / 2) + 1

/-- Number of binary digits of `n` (for the range relevant here). -/
def bitLen (n : Nat) : Nat := bitLenAux 128 n

/-- Whether the integer `n` is exactly representable as an IEEE-754 double:
below `2⁵³`, or divisible by `2^(bits − 53)`. -/
def floatIntExact (n : Nat) : Bool :=
  n < 2 ^ 53 || decide (2 ^ (bitLen n - 53) ∣ n)

/-- The test `!isNaN(num) && num.toString() === part` after
`num = parseInt(part, 10)`: holds exactly when `part` is the canonical
decimal representation of an exactly-representable integer below `10²¹`
(larger or non-canonical strings fail the round-trip and stay strings). -/
def jsCanonInt (part : JStr) : Option Nat :=
  if part ≠ [] ∧ part.all Char.isDigit ∧ (part = ['0'] ∨ part.head? ≠ some '0') ∧
      digitsVal part < 10 ^ 21 ∧ floatIntExact (digitsVal part) then
    some (digitsVal part)
  else none

/-- `parseVersion(versionStr)` (src/utils/version.ts): empty or `*` input
yields the empty sequence, otherwise split on `.`, `-`, `_` and map each part
to a number when the `parseInt` round-trip succeeds, else to its lowercase
form. -/
def parseVersion (versionStr : JStr) : List Seg :=
  if versionStr = [] ∨ versionStr = ['*'] then []
  else
    (splitOnPred (fun c => c = '.' ∨ c = '-' ∨ c = '_') versionStr).map fun part =>
      match jsCanonInt part with
      | some n => Seg.num n
      | none => Seg.str (jsToLower part)

/-- `String(part)` applied to a segment. -/
def segToStr : Seg → JStr
  | .num n => natRepr n
  | .str s => s

/-- One iteration of the comparison loop of `compareVersions`: numeric
compare when both parts are numbers, else JS string comparison of their
string forms. -/
def cmpSeg (a b : Seg) : Int :=
  match a, b with
  | .num x, .num y => if x < y then -1 else if y < x then 1 else 0
  | _, _ =>
    let as := segToStr a
    let bs := segToStr b
    if jsStrLt as bs then -1 else if jsStrLt bs as then 1 else 0

/-- The tail of the `compareVersions` loop once the left sequence is
exhausted: remaining right segments are compared against the padding
number `0`. -/
def zerosVersus : List Seg → Int
  | [] => 0
  | b :: bs =>
    let c := cmpSeg (.num 0) b
    if c = 0 then zerosVersus bs else c

/-- The loop of `compareVersions` over already-parsed segment lists, padding
the shorter list with the number `0`. -/
def compareParsed : List Seg → List Seg → Int
  | [], bs => zerosVersus bs
  | a :: as, [] =>
    let c := cmpSeg a (.num 0)
    if c = 0 then compareParsed as [] else c
  | a :: as, b :: bs =>
    let c := cmpSeg a b
    if c = 0 then compareParsed as bs else c

/-- `compareVersions(a, b)` (src/utils/version.ts). -/
def compareVersions (a b : JStr) : Int :=
  compareParsed (parseVersion a) (parseVersion b)

/-- JS truthiness of an optional string (`null`, `undefined` and `''` are
falsy). -/
def optStrTruthy : Option JStr → Bool
  | none => false
  | some s => s ≠ []

/-- `isVersionInRange(version, startVersion, startInclusive, endVersion,
endInclusive)` (src/utils/version.ts). -/
def isVersionInRange (version : JStr) (startVersion : Option JStr) (startInclusive : Bool)
    (endVersion : Option JStr) (endInclusive : Bool) : Bool :=
  if version = [] ∨ version = ['*'] then false
  else
    let startOk :=
      if optStrTruthy startVersion ∧ startVersion ≠ some ['*'] then
        let c := compareVersions version (startVersion.getD [])
        if startInclusive then decide (0 ≤ c) else decide (0 < c)
      else true
    let endOk :=
      if optStrTruthy endVersion ∧ endVersion ≠ some ['*'] then
        let c := compareVersions version (endVersion.getD [])
        if endInclusive then decide (c ≤ 0) else decide (c < 0)
      else true
    startOk && endOk

/-- `cpeMatchesPrefix(queryCpe, vulnCpe)` (src/utils/version.ts): the first
five colon fields must agree, a `*` on the vulnerability side matching
anything. -/
def cpeMatchesPrefix (queryCpe vulnCpe : JStr) : Bool :=
  let q := jsSplitChar ':' queryCpe
  let v := jsSplitChar ':' vulnCpe
  (List.range (min 5 (min q.length v.length))).all fun i =>
    q.getD i [] = v.getD i [] ∨ v.getD i [] = jstr "*"

/-- `getCpeVersion(cpe)` (src/utils/version.ts). -/
def getCpeVersion (cpe : JStr) : JStr :=
  let parts := jsSplitChar ':' cpe
  if 5 < parts.length then parts.getD 5 [] else jstr "*"

/-!
### JS-value-level `parseVersion` (claim C1)

`parseVersion` is typed `string → …`, but the specification asserts its
behaviour on non-string inputs.  `JsVal` models the JavaScript values the
claim quantifies over; numeric inputs are modelled as integers (the claim's
example is `2024`).  Calling `.split` on a non-string receiver throws a
`TypeError`.
-/

/-- A JavaScript value passed to `parseVersion`. -/
inductive JsVal where
  | vNull
  | vUndef
  | vNum (n : Int)
  | vStr (s : JStr)
deriving DecidableEq, Repr

/-- JS truthiness of a `JsVal` (integers: `0` is falsy). -/
def JsVal.truthy : JsVal → Bool
  | .vNull => false
  | .vUndef => false
  | .vNum n => n ≠ 0
  | .vStr s => s ≠ []

/-- `parseVersion` evaluated at the JavaScript level on an arbitrary value:
falsy input or `'*'` returns `[]`; any other non-string input reaches
`versionStr.split(...)` and throws a `TypeError` because only strings have a
`split` method. -/
def parseVersionJS (v : JsVal) : Except JsErr (List Seg) :=
  if ¬ v.truthy ∨ v = .vStr ['*'] then .ok []
  else
    match v with
    | .vStr s => .ok (parseVersion s)
    | _ => .error .typeError

/-!
## JavaScript object / set models
-/

/-- An insertion-ordered association list modelling a JS
`Record<string, T>` object. -/
abbrev RecMap (α : Type) := List (JStr × α)

/-- Property read `m[k]`: first entry with the key. -/
def RecMap.lookup {α : Type} : RecMap α → JStr → Option α
  | [], _ => none
  | (k', v) :: rest, k => if k' = k then some v else RecMap.lookup rest k

/-- Property write `m[k] = v`: update the existing binding in place, else
append a new one. -/
def RecMap.set {α : Type} : RecMap α → JStr → α → RecMap α
  | [], k, v => [(k, v)]
  | (k', v') :: rest, k, v =>
    if k' = k then (k, v) :: rest else (k', v') :: RecMap.set rest k v

/-- `delete m[k]`. -/
def RecMap.del {α : Type} : RecMap α → JStr → RecMap α
  | [], _ => []
  | (k', v') :: rest, k => if k' = k then rest else (k', v') :: RecMap.del rest k

/-- `k in m`. -/
def RecMap.hasKey {α : Type} (m : RecMap α) (k : JStr) : Bool :=
  (RecMap.lookup m k).isSome

/-- `Object.keys(m)`. -/
def RecMap.keys {α : Type} (m : RecMap α) : List JStr := m.map (·.1)

/-- `Object.values(m)`. -/
def RecMap.values {α : Type} (m : RecMap α) : List α := m.map (·.2)

/-- `Set.prototype.add` on a set of strings: append unless present. -/
def pushNew {α : Type} [DecidableEq α] (l : List α) (a : α) : List α :=
  if a ∈ l then l else l ++ [a]

/-!
## `src/utils/equivalent_cpes.ts`

`getVersionSections`, `isCpeEqual`, the construction in
`loadEquivalentCpes` and the expansion `getEquivalentCpes`, translated
statement by statement.  The three resource files and the
`product_cpe_counts` table are parameters; the process-wide cache amounts to
memoising the pure function `loadEquivalentCpes` and does not change its
value.
-/

/-- Character class `[a-zA-Z.]` of the first alternative in
`getVersionSections`'s regex. -/
def isLetterDot (c : Char) : Bool := c.isAlpha || c = '.'

/-- Character class `[0-9.]` of the second alternative. -/
def isDigitDot (c : Char) : Bool := c.isDigit || c = '.'

/-- Scanner for the global regex `([a-zA-Z\.]+|[\d\.]+)`: at each position
the first alternative is tried first and each run is maximal; positions
matching neither class are skipped.  Fuel-driven; `fuel = length` always
suffices since every step consumes at least one character. -/
def versionSectionsGo : Nat → JStr → List JStr
  | 0, _ => []
  | _ + 1, [] => []
  | fuel + 1, c :: cs =>
    if isLetterDot c then
      (c :: cs.takeWhile isLetterDot) :: versionSectionsGo fuel (cs.dropWhile isLetterDot)
    else if c.isDigit then
      (c :: cs.takeWhile isDigitDot) :: versionSectionsGo fuel (cs.dropWhile isDigitDot)
    else versionSectionsGo fuel cs

/-- `getVersionSections(versionStr)` (src/utils/equivalent_cpes.ts). -/
def getVersionSections (versionStr : JStr) : List JStr :=
  if versionStr = [] ∨ versionStr = ['*'] ∨ versionStr = ['-'] then []
  else versionSectionsGo versionStr.length versionStr

/-- `isCpeEqual(cpe1, cpe2)` (src/utils/equivalent_cpes.ts): wildcard-aware
field-wise equality over the common field count. -/
def isCpeEqual (cpe1 cpe2 : JStr) : Bool :=
  let p1 := jsSplitChar ':' cpe1
  let p2 := jsSplitChar ':' cpe2
  (List.range (min p1.length p2.length)).all fun i =>
    p1.getD i [] = p2.getD i [] ∨ p1.getD i [] = jstr "*" ∨ p2.getD i [] = jstr "*"

/-- `Array.from(new Set(list))`: deduplicate keeping first occurrences. -/
def dedupKeepFirst (l : List JStr) : List JStr := l.foldl pushNew []

/-- The exact IEEE-754 double nearest to the literal `0.16`
(`FULL_DEPRECATION_THRESHOLD`), as the pair numerator / `2⁵⁵`. -/
def fullDeprecationThresholdNum : Int := 5764607523034235

/-- The comparison `Object.keys(deprecations).length >=
productCpeCount * FULL_DEPRECATION_THRESHOLD`, with the float product taken
exactly (final rounding of the product is below every margin arising from
integer operands here). -/
def atDeprecationThreshold (depCount : Nat) (productCpeCount : Int) : Bool :=
  (depCount : Int) * 2 ^ 55 ≥ productCpeCount * fullDeprecationThresholdNum

/-- The per-product processing of the deprecation source in
`loadEquivalentCpes`: at or above the 16% threshold, record prefix-level
bidirectional equivalences to every distinct replacement prefix; below it,
record full-CPE-level bidirectional pairs, skipping self-referential ones. -/
def processOneDeprecation (dep : RecMap (List JStr)) (productCpe : JStr)
    (deprecations : RecMap (List JStr)) (counts : RecMap Int) : RecMap (List JStr) :=
  let pfx := cpeProductPart productCpe
  match RecMap.lookup counts pfx with
  | none => dep
  | some c =>
    if c = 0 then dep
    else if atDeprecationThreshold deprecations.length c then
      let depPfxs := deprecations.foldl (fun acc kv =>
        kv.2.foldl (fun a d =>
          let dpfx := cpeProductPart d
          if pfx ≠ dpfx ∧ dpfx ∉ a then a ++ [dpfx] else a) acc) []
      let dep1 :=
        match RecMap.lookup dep pfx with
        | none => RecMap.set dep pfx depPfxs
        | some old => RecMap.set dep pfx (dedupKeepFirst (old ++ depPfxs))
      depPfxs.foldl (fun m d =>
        match RecMap.lookup m d with
        | none => RecMap.set m d [pfx]
        | some cur => if pfx ∈ cur then m else RecMap.set m d (cur ++ [pfx])) dep1
    else
      deprecations.foldl (fun m kv =>
        kv.2.foldl (fun m2 d =>
          if isCpeEqual kv.1 d then m2
          else
            let m3 :=
              match RecMap.lookup m2 kv.1 with
              | none => RecMap.set m2 kv.1 [d]
              | some cur => if d ∈ cur then m2 else RecMap.set m2 kv.1 (cur ++ [d])
            match RecMap.lookup m3 d with
            | none => RecMap.set m3 d [kv.1]
            | some cur => if kv.1 ∈ cur then m3 else RecMap.set m3 d (cur ++ [kv.1])) m) dep

/-- Processing of the whole deprecation source: group entries by product
prefix, then handle each product. -/
def processDeprecations (depSrc : RecMap (List JStr)) (counts : RecMap Int) :
    RecMap (List JStr) :=
  let grouped : RecMap (RecMap (List JStr)) := depSrc.foldl (fun acc kv =>
    let pfx := cpeProductPart kv.1
    match RecMap.lookup acc pfx with
    | none => RecMap.set acc pfx (RecMap.set [] kv.1 kv.2)
    | some sub => RecMap.set acc pfx (RecMap.set sub kv.1 kv.2)) []
  grouped.foldl (fun dep kv => processOneDeprecation dep kv.1 kv.2 counts) []

/-- The union loop of `loadEquivalentCpes`: merge the per-source dictionaries
into one adjacency map, concatenating lists on key collisions. -/
def unionDicts (dicts : List (RecMap (List JStr))) : RecMap (List JStr) :=
  dicts.foldl (fun acc d =>
    d.foldl (fun acc2 kv =>
      match RecMap.lookup acc2 kv.1 with
      | none => RecMap.set acc2 kv.1 kv.2
      | some old => RecMap.set acc2 kv.1 (old ++ kv.2)) acc) []

/-- One step of the inner loop of the bidirectional pass: record the reverse
direction from `other` back to `equivCpe`, copying the snapshot list with
self-references rewritten. -/
def biInner (equivCpe : JStr) (others : List JStr) (m2 : RecMap (List JStr))
    (other : JStr) : RecMap (List JStr) :=
  let otherRelevant := others.map (fun c => if c = other then equivCpe else c)
  match RecMap.lookup m2 other with
  | none => RecMap.set m2 other otherRelevant
  | some cur =>
    if equivCpe ∈ cur then m2 else RecMap.set m2 other (cur ++ otherRelevant)

/-- One step of the outer loop of the bidirectional pass: snapshot the
current neighbour list of `equivCpe` and run the inner loop over it. -/
def biOuter (m : RecMap (List JStr)) (equivCpe : JStr) : RecMap (List JStr) :=
  let others := (RecMap.lookup m equivCpe).getD []
  others.foldl (biInner equivCpe others) m

/-- The "ensure bidirectional linking" pass of `loadEquivalentCpes`: for the
keys present before the pass, re-scan the (current) neighbour list and record
the reverse direction, rewriting self-references to the node being processed
when copying the list. -/
def ensureBidirectional (m0 : RecMap (List JStr)) : RecMap (List JStr) :=
  (RecMap.keys m0).foldl biOuter m0

/-- The list of loaded per-source dictionaries inside `loadEquivalentCpes`
(`equivalentCpesDictsList`): the processed deprecation source when its file
loads, then the manual and Debian sources when their files load.  A `none`
source models a missing/unreadable file (the code logs and continues). -/
def sourceDicts (depSrc manSrc debianSrc : Option (RecMap (List JStr)))
    (counts : RecMap Int) : List (RecMap (List JStr)) :=
  (match depSrc with
   | none => []
   | some d => [processDeprecations d counts]) ++
  (match manSrc with
   | none => []
   | some d => [d]) ++
  (match debianSrc with
   | none => []
   | some d => [d])

/-- `loadEquivalentCpes` (src/utils/equivalent_cpes.ts): process the
optional deprecation source, append the manual and Debian sources when their
files load, union everything and make edges bidirectional. -/
def loadEquivalentCpes (depSrc manSrc debianSrc : Option (RecMap (List JStr)))
    (counts : RecMap Int) : RecMap (List JStr) :=
  ensureBidirectional (unionDicts (sourceDicts depSrc manSrc debianSrc counts))

/-- The body of the neighbour loop of `getAdditionalEquivCpes`,
parameterised by the recursive call `f`: an already-visited neighbour is
skipped; otherwise it is recorded as additional, recursed into, its nested
results are merged, and it is marked visited. -/
def dfsStepG (f : List JStr → JStr → List JStr × List JStr)
    (st : List JStr × List JStr) (other : JStr) : List JStr × List JStr :=
  if other ∈ st.1 then st
  else
    let add1 := pushNew st.2 other
    let res := f st.1 other
    (pushNew res.1 other, res.2.foldl pushNew add1)

/-- The recursive `getAdditionalEquivCpes` closure inside
`getEquivalentCpes`: depth-first traversal with the shared visited set
`raw`, returning the updated visited set together with the set of
additionally reached prefixes.  Fuel-driven: every recursive call happens on
a dictionary key not yet visited, so `g.length + 1` fuel (as passed by
`computeRawEquiv`) is never exhausted. -/
def dfsAdd (g : RecMap (List JStr)) : Nat → List JStr → JStr → List JStr × List JStr
  | 0, raw, _ => (raw, [])
  | fuel + 1, raw, node =>
    match RecMap.lookup g node with
    | none => (raw, [])
    | some neighbors =>
      if node ∈ raw then (raw, [])
      else
        neighbors.foldl (dfsStepG (dfsAdd g fuel)) (raw ++ [node], [])

/-- The loop of `getEquivalentCpes` that seeds the traversal from the query
prefix's direct equivalents and accumulates `rawEquivCpePrefixes`. -/
def computeRawEquiv (g : RecMap (List JStr)) (cpePfx : JStr) : List JStr :=
  ((RecMap.lookup g cpePfx).getD []).foldl (fun raw p =>
    if p ∈ raw then raw
    else
      let res := dfsAdd g (g.length + 1) raw p
      res.2.foldl pushNew res.1) []

/-- List write `l[i] = v` on a JS array: in range replaces, at the length
appends (the only out-of-range index arising in `getEquivalentCpes`). -/
def listSetExt {α : Type} : List α → Nat → α → List α
  | [], _, v => [v]
  | _ :: rest, 0, v => v :: rest
  | x :: rest, i + 1, v => x :: listSetExt rest i v

/-- `getEquivalentCpes(cpe)` (src/utils/equivalent_cpes.ts) against a loaded
equivalence map `g`: the original CPE, its version/sub-version transformation
variants, the prefix substitutions for every transitively reachable
equivalent prefix, and finally the direct full-CPE equivalence entries. -/
def getEquivalentCpes (cpe : JStr) (g : RecMap (List JStr)) : List JStr :=
  let cpeSplit := jsSplitChar ':' cpe
  let cpePfx := cpeProductPart cpe
  let cpeVersion := if 5 < cpeSplit.length then cpeSplit.getD 5 [] else jstr "*"
  let cpeSubversion := if 6 < cpeSplit.length then cpeSplit.getD 6 [] else jstr "*"
  let secs := getVersionSections cpeVersion
  let cpes1 : List JStr := [cpe]
  let cpes2 :=
    if 1 < secs.length ∧
        (cpeSubversion = jstr "*" ∨ cpeSubversion = [] ∨ cpeSubversion = jstr "-") then
      cpes1 ++ [jsJoin [':'] (listSetExt (listSetExt cpeSplit 5 (secs.dropLast).flatten) 6
        (secs.getLastD []))]
    else cpes1
  let cpes :=
    if ¬ (cpeSubversion = jstr "*" ∨ cpeSubversion = [] ∨ cpeSubversion = jstr "-") then
      cpes2 ++ [jsJoin [':'] (listSetExt (listSetExt cpeSplit 5
        (cpeVersion ++ ['-'] ++ cpeSubversion)) 6 (jstr "*"))]
    else cpes2
  let raw := computeRawEquiv g cpePfx
  let equivCpes := cpes ++ cpes.flatMap (fun curCpe =>
    let curCpeSplit := jsSplitChar ':' curCpe
    raw.filterMap (fun equivalentCpe =>
      if equivalentCpe ≠ cpePfx then
        some (cpeProductPart equivalentCpe ++ jsJoin [':'] (curCpeSplit.drop 5))
      else none))
  equivCpes ++ equivCpes.flatMap (fun curCpe => (RecMap.lookup g curCpe).getD [])

/-!
## Vulnerability data model

Modelled from the spec: the file `src/types/vulnerability.ts` (the
`Vulnerability` class, the `MatchReason` enumeration, `mergeWithVulnerability`,
`isPatched`) is not among the sources; its shape is reconstructed from
spec §3 (record fields, ordered `MatchReason` enumeration), §4.6 (merge
semantics) and the serialized API response shape.
-/

/-- Modelled from the spec: the ordered `MatchReason` enumeration of §3
(missing `src/types/vulnerability.ts`). -/
inductive MatchReason where
  | vulnId
  | versionInRange
  | productMatch
  | generalProductOk
  | generalProductUncertain
  | singleHigherVersion
deriving DecidableEq, Repr

/-- Modelled from the spec: the tie-break ordinal of §3, higher = stronger
evidence. -/
def MatchReason.ordinal : MatchReason → Nat
  | .vulnId => 5
  | .versionInRange => 4
  | .productMatch => 3
  | .generalProductOk => 2
  | .generalProductUncertain => 1
  | .singleHigherVersion => 0

/-- Modelled from the spec: the `Vulnerability` record of §3 / the API
response shape (missing `src/types/vulnerability.ts`).  The `misc` map
backs the `vuln.misc` property bag written by the EPSS enrichment. -/
structure Vulnerability where
  id : JStr
  matchReason : MatchReason
  matchSources : List JStr
  description : JStr
  published : JStr
  modified : JStr
  cvssVer : JStr
  cvss : JStr
  cvssVec : JStr
  cisaKnownExploited : Bool
  exploits : List JStr
  aliases : RecMap JStr
  epss : JStr
  reportedPatchedBy : List JStr
  misc : RecMap JStr
deriving DecidableEq, Repr

/-- Modelled from the spec: the `Vulnerability` constructor as used by
`searchVulnsBasic` — the alias map is seeded with the record's own id mapped
to its reference URL (the CLI prints `vuln.aliases[vuln.id]` as the
reference), and exploit/epss/patched-by data start empty. -/
def Vulnerability.make (id : JStr) (matchReason : MatchReason) (matchSources : List JStr)
    (description published modified cvssVer cvss cvssVec : JStr)
    (cisaKnownExploited : Bool) (href : JStr) : Vulnerability :=
  { id, matchReason, matchSources, description, published, modified, cvssVer, cvss,
    cvssVec, cisaKnownExploited, exploits := [], aliases := [(id, href)], epss := jstr "",
    reportedPatchedBy := [], misc := [] }

/-- Union of two alias maps, keeping the first binding of each alias id. -/
def unionAliases (a b : RecMap JStr) : RecMap JStr :=
  b.foldl (fun acc kv => if RecMap.hasKey acc kv.1 then acc else acc ++ [kv]) a

/-- Union of two string lists keeping first occurrences. -/
def unionStrs (a b : List JStr) : List JStr := b.foldl pushNew a

/-- Modelled from the spec (§4.6): `mergeWithVulnerability` — the incoming
record wins on any field where its `MatchReason` ordinal is strictly
greater; alias maps and match-source lists are unioned; exploit and
patched-by sets are unioned unconditionally. -/
def Vulnerability.merge (self other : Vulnerability) : Vulnerability :=
  if MatchReason.ordinal self.matchReason < MatchReason.ordinal other.matchReason then
    { other with
      matchSources := unionStrs self.matchSources other.matchSources,
      aliases := unionAliases self.aliases other.aliases,
      exploits := unionStrs self.exploits other.exploits,
      reportedPatchedBy := unionStrs self.reportedPatchedBy other.reportedPatchedBy }
  else
    { self with
      matchSources := unionStrs self.matchSources other.matchSources,
      aliases := unionAliases self.aliases other.aliases,
      exploits := unionStrs self.exploits other.exploits,
      reportedPatchedBy := unionStrs self.reportedPatchedBy other.reportedPatchedBy }

/-- Modelled from the spec: `isPatched()` — whether the record carries any
"reported patched by" marker. -/
def Vulnerability.isPatched (v : Vulnerability) : Bool :=
  v.reportedPatchedBy ≠ []

/-- `VersionStatus` (src/utils/eol.ts). -/
structure VersionStatus where
  status : JStr
  latest : JStr
  ref : JStr
deriving DecidableEq, Repr

/-- `SearchVulnsResult` (src/types/vulnerability.ts, shape visible from the
code and the API response): product ids per namespace, potential product ids
with scores, the vulnerability map, and the optional EOL status. -/
structure SearchVulnsResult where
  product_ids : RecMap (List JStr)
  pot_product_ids : RecMap (List (JStr × Frac))
  vulns : RecMap Vulnerability
  version_status : Option VersionStatus
deriving DecidableEq, Repr

/-!
## Database model

The SQLite databases are modelled as in-memory tables; the core issues
point and prefix queries only.  `LIKE` is implemented with SQLite's
semantics (ASCII case-insensitive, `%`/`_` wildcards, no ESCAPE).
-/

/-- One step of SQLite `LIKE` matching, fuel-driven
(`pattern.length + s.length + 1` fuel always suffices: every recursion
shrinks the combined length). -/
def likeMatchFuel : Nat → JStr → JStr → Bool
  | 0, _, _ => false
  | _ + 1, [], [] => true
  | _ + 1, [], _ :: _ => false
  | fuel + 1, p :: ps, s =>
    if p = '%' then
      likeMatchFuel fuel ps s ||
        (match s with
         | [] => false
         | _ :: s' => likeMatchFuel fuel ('%' :: ps) s')
    else
      match s with
      | [] => false
      | c :: s' =>
        if p = '_' then likeMatchFuel fuel ps s'
        else Char.toLower p = Char.toLower c && likeMatchFuel fuel ps s'

/-- SQLite `s LIKE pattern`. -/
def likeMatch (pat s : JStr) : Bool :=
  likeMatchFuel (pat.length + s.length + 1) pat s

/-- A row of the `nvd` table. -/
structure NvdRow where
  cveId : JStr
  description : JStr
  published : JStr
  lastModified : JStr
  cvssVersion : JStr
  baseScore : Option JStr
  vector : JStr
  cisaKnownExploited : Int
deriving DecidableEq, Repr

/-- A row of the `nvd_cpe` table. -/
structure NvdCpeRow where
  cveId : JStr
  cpe : JStr
  cpeVersionStart : Option JStr
  isStartIncluding : Option Int
  cpeVersionEnd : Option JStr
  isEndIncluding : Option Int
deriving DecidableEq, Repr

/-- A row of the `ghsa` table. -/
structure GhsaRow where
  ghsaId : JStr
  description : JStr
  published : JStr
  lastModified : JStr
  cvssVersion : JStr
  baseScore : Option JStr
  vector : JStr
deriving DecidableEq, Repr

/-- A row of the `eol_date_data` table (src/utils/eol.ts). -/
structure EolRow where
  eoldId : JStr
  versionStart : JStr
  versionLatest : JStr
  eolInfo : Option JStr
  releaseId : Int
  cpePfx : JStr
deriving DecidableEq, Repr

/-- A row of the `cve_epss` table (src/utils/epss.ts).  The `epss` and
`percentile` columns are nullable; `parseFloat` of the stored decimal text
is modelled by carrying the parsed values. -/
structure EpssRow where
  cveId : JStr
  epss : Option Frac
  percentile : Option Frac
deriving DecidableEq, Repr

/-- The vulnerability database.  `hasEolTable` and `hasEpssTable` model the
`sqlite_master` existence checks for `eol_date_data` and `cve_epss`. -/
structure VulnDb where
  nvd : List NvdRow
  nvdCpe : List NvdCpeRow
  ghsa : List GhsaRow
  nvdExploitsRefs : List (JStr × JStr)
  cveEdb : List (JStr × JStr)
  pocInGithub : List (JStr × JStr)
  eolDateData : List EolRow
  hasEolTable : Bool
  hasEpssTable : Bool
  cveEpss : List EpssRow
deriving DecidableEq, Repr

/-- Stable insertion of `x` after all elements strictly greater under
`gt` (used for the `ORDER BY ... DESC` model). -/
def insertDesc {α : Type} (gt : α → α → Bool) (x : α) : List α → List α
  | [] => [x]
  | y :: ys => if gt x y then x :: y :: ys else y :: insertDesc gt x ys

/-- Stable descending sort (model of SQLite `ORDER BY key DESC`). -/
def sortDesc {α : Type} (gt : α → α → Bool) (l : List α) : List α :=
  l.foldr (insertDesc gt) []

/-!
## `src/utils/eol.ts`
-/

/-- The `releaseEol` value computed in `addEOLStatus`: `false`, `true`, or a
`Date` (parsed epoch; `none` inside models an invalid date, whose
comparisons are all false). -/
inductive REol where
  | rfalse
  | rtrue
  | rdate (d : Option Int)
deriving DecidableEq, Repr

/-- `releaseEol && (releaseEol === true || now >= releaseEol)`: `Date`
objects are truthy even when invalid, and comparisons against an invalid
date are false. -/
def REol.active (r : REol) (now : Int) : Bool :=
  match r with
  | .rfalse => false
  | .rtrue => true
  | .rdate none => false
  | .rdate (some d) => d ≤ now

/-- The `releaseEol` computation of `addEOLStatus`: a non-`'true'`,
non-`'false'`, truthy `eol_info` is parsed as a date (`new Date` never
throws), `'true'` maps to `true`, anything else (including null/empty) to
`false`.  `dateParse` is the model of JavaScript date-string parsing. -/
def releaseEolOf (dateParse : JStr → Option Int) (eolInfo : Option JStr) : REol :=
  match eolInfo with
  | none => .rfalse
  | some s =>
    if s ≠ [] ∧ s ≠ jstr "true" ∧ s ≠ jstr "false" then .rdate (dateParse s)
    else if s = jstr "true" then .rtrue
    else .rfalse

/-- The call `compareVersions(queryVersion, releaseEnd)` in `addEOLStatus`
and `queryXeolEOL` passes already-parsed segment arrays back into
`compareVersions`; its `parseVersion` then evaluates `versionStr.split` on
an array receiver (arrays are truthy and not `'*'`) and throws a
`TypeError`, since arrays have no `split` method. -/
def compareVersionsOnArrays (_a _b : List Seg) : Except JsErr Int :=
  .error .typeError

/-- The per-release loop body of `addEOLStatus`, for one CPE's release list.
`latest` carries the `latest` variable; `isLast` is
`i === eolReleases.length - 1`.  With a concrete query version the first
iteration throws (see `compareVersionsOnArrays`); the remaining structure is
translated nonetheless. -/
def eolReleaseLoop (now : Int) (dateParse : JStr → Option Int)
    (queryVersion : Option (List Seg)) :
    List EolRow → JStr → Except JsErr (Option VersionStatus)
  | [], _ => .ok none
  | release :: rest, latest0 =>
    let eolRef := jstr "https://endoflife.date/" ++ release.eoldId
    let releaseStart := parseVersion release.versionStart
    let releaseEnd := parseVersion release.versionLatest
    let releaseEol := releaseEolOf dateParse release.eolInfo
    let latest := if latest0 = [] then release.versionLatest else latest0
    match queryVersion with
    | none =>
      if releaseEol.active now then .ok (some ⟨jstr "eol", latest, eolRef⟩)
      else .ok (some ⟨jstr "N/A", latest, eolRef⟩)
    | some qv =>
      match compareVersionsOnArrays qv releaseEnd with
      | .error e => .error e
      | .ok versionComparison =>
        if 0 ≤ versionComparison then
          if releaseEol.active now then .ok (some ⟨jstr "eol", latest, eolRef⟩)
          else .ok (some ⟨jstr "current", latest, eolRef⟩)
        else
          match compareVersionsOnArrays qv releaseStart with
          | .error e => .error e
          | .ok startComparison =>
            if (0 ≤ startComparison ∧ versionComparison < 0) ∨
                (rest = [] ∧ startComparison ≤ 0) then
              if releaseEol.active now then .ok (some ⟨jstr "eol", latest, eolRef⟩)
              else .ok (some ⟨jstr "outdated", latest, eolRef⟩)
            else eolReleaseLoop now dateParse queryVersion rest latest

/-- The per-CPE loop of `addEOLStatus`. -/
def eolCpeLoop (db : VulnDb) (now : Int) (dateParse : JStr → Option Int) :
    List JStr → Except JsErr (Option VersionStatus)
  | [] => .ok none
  | cpe :: rest =>
    let cpeSplit := jsSplitChar ':' cpe
    let cpePfx := jsJoin [':'] (cpeSplit.take 5) ++ [':']
    let queryVersionStr := cpeSplit.getD 5 []
    let queryVersion : Option (List Seg) :=
      if queryVersionStr ≠ [] ∧ queryVersionStr ≠ jstr "*" then
        some (parseVersion queryVersionStr)
      else none
    let eolReleases := sortDesc (fun a b => decide (b.releaseId < a.releaseId))
      (db.eolDateData.filter (fun row => row.cpePfx = cpePfx))
    if eolReleases = [] then eolCpeLoop db now dateParse rest
    else
      match eolReleaseLoop now dateParse queryVersion eolReleases [] with
      | .error e => .error e
      | .ok none => eolCpeLoop db now dateParse rest
      | .ok (some vs) => .ok (some vs)

/-- `addEOLStatus(results, vulnDb)` (src/utils/eol.ts), as a result
transformer: missing product ids cannot occur (the result always carries the
map), a null `vulnDb`, an already-present `version_status` or a missing
`eol_date_data` table return the result unchanged; otherwise the CPE loop
computes a status which is stored in `version_status` — the only field ever
assigned. -/
def addEOLStatus (r : SearchVulnsResult) (vulnDbOpt : Option VulnDb) (now : Int)
    (dateParse : JStr → Option Int) : Except JsErr SearchVulnsResult :=
  match vulnDbOpt with
  | none => .ok r
  | some db =>
    if r.version_status.isSome then .ok r
    else if ¬ db.hasEolTable then .ok r
    else
      let cpes := (RecMap.lookup r.product_ids (jstr "cpe")).getD []
      match eolCpeLoop db now dateParse cpes with
      | .error e => .error e
      | .ok none => .ok r
      | .ok (some vs) => .ok { r with version_status := some vs }

/-!
## `src/utils/xeol.ts`
-/

/-- A row of the xeol `products` table. -/
structure XeolProduct where
  pid : Int
  name : JStr
  permalink : JStr
deriving DecidableEq, Repr

/-- A row of the xeol `cycles` table (the unused selected columns `lts` and
`support` are omitted). -/
structure XeolCycle where
  productId : Int
  releaseCycle : JStr
  eol : Option JStr
  eolBool : Int
  latestRelease : Option JStr
  releaseDate : JStr
deriving DecidableEq, Repr

/-- The xeol database. -/
structure XeolDb where
  products : List XeolProduct
  cycles : List XeolCycle
deriving DecidableEq, Repr

/-- JavaScript whitespace class `\s` (the characters relevant here). -/
def isJsWs (c : Char) : Bool :=
  c = ' ' ∨ c = '\t' ∨ c = '\n' ∨ c = '\r' ∨ c = '\x0b' ∨ c = '\x0c'

/-- Replace each run of whitespace by `rep` (fuel-driven; `length` fuel
suffices since every step consumes at least one character). -/
def wsRunsGo (rep : Char) : Nat → JStr → JStr
  | 0, _ => []
  | _ + 1, [] => []
  | fuel + 1, c :: cs =>
    if isJsWs c then
      rep :: wsRunsGo rep fuel (cs.dropWhile isJsWs)
    else c :: wsRunsGo rep fuel cs

/-- Collapse runs of whitespace into single spaces (`replace(/\s+/g, ' ')`). -/
def collapseWs (s : JStr) : JStr := wsRunsGo ' ' s.length s

/-- JavaScript `trim` (leading and trailing whitespace). -/
def jsTrim (s : JStr) : JStr :=
  ((s.dropWhile isJsWs).reverse.dropWhile isJsWs).reverse

/-- `normalizeProductName(name)` (src/utils/xeol.ts): lowercase, replace
non-alphanumerics with spaces, collapse whitespace, trim. -/
def normalizeProductName (name : JStr) : JStr :=
  jsTrim (collapseWs ((jsToLower name).map
    (fun c => if c.isAlpha ∨ c.isDigit then c else ' ')))

/-- `extractCpeProductInfo(cpePrefix)` (src/utils/xeol.ts). -/
def extractCpeProductInfo (cpePfx : JStr) : Option (JStr × JStr) :=
  let parts := jsSplitChar ':' cpePfx
  if parts.length < 5 then none
  else some (parts.getD 3 [], parts.getD 4 [])

/-- The static `commonMappings` table of `findXeolProductForCpe`. -/
def xeolCommonMappings : RecMap JStr :=
  [(jstr "http_server", jstr "Apache HTTP Server"),
   (jstr "node.js", jstr "Node.js"),
   (jstr "nodejs", jstr "Node.js")]

/-- The exact-match query of the search-term loop in
`findXeolProductForCpe`: `name = ? OR LOWER(name) = ? OR
LOWER(REPLACE(name, ' ', '')) = ?` restricted to `pkg.xeol.io` permalinks. -/
def xeolTermQuery (db : XeolDb) (mappedTerm : JStr) : Option XeolProduct :=
  db.products.find? (fun p =>
    likeMatch (jstr "%pkg.xeol.io%") p.permalink &&
      (p.name = mappedTerm ∨ jsToLower p.name = jsToLower mappedTerm ∨
        jsToLower (p.name.filter (· ≠ ' ')) =
          (normalizeProductName mappedTerm).filter (fun c => ¬ isJsWs c)))

/-- The search-term loop of `findXeolProductForCpe`. -/
def xeolTermLoop (db : XeolDb) : List JStr → Option XeolProduct
  | [] => none
  | term :: rest =>
    let mappedTerm := (RecMap.lookup xeolCommonMappings (jsToLower term)).getD term
    match xeolTermQuery db mappedTerm with
    | some p => some p
    | none => xeolTermLoop db rest

/-- `findXeolProductForCpe(xeolDb, cpePrefix)` (src/utils/xeol.ts) with the
module-level cache threaded explicitly: returns the updated cache and the
found product name (`none` both for a cached null and for no match). -/
def findXeolProductForCpe (db : XeolDb) (cache : RecMap (Option JStr)) (cpePfx : JStr) :
    RecMap (Option JStr) × Option JStr :=
  match RecMap.lookup cache cpePfx with
  | some cached => (cache, cached)
  | none =>
    match extractCpeProductInfo cpePfx with
    | none => (RecMap.set cache cpePfx none, none)
    | some (vendor, product) =>
      let cpe23Name := jstr "cpe:2.3:a:" ++ vendor ++ [':'] ++ product
      let cpe22Name := jstr "cpe:/a:" ++ vendor ++ [':'] ++ product
      match db.products.find? (fun p =>
          likeMatch (jstr "%pkg.xeol.io%") p.permalink &&
            (p.name = cpe23Name ∨ p.name = cpe22Name)) with
      | some p => (RecMap.set cache cpePfx (some p.name), some p.name)
      | none =>
        let searchTerms :=
          [product, product.map (fun c => if c = '_' then ' ' else c),
           product.map (fun c => if c = '_' then '-' else c)] ++
          (if vendor ≠ [] ∧ vendor ≠ product then
            [vendor ++ [' '] ++ product, vendor ++ ['-'] ++ product,
             vendor ++ ['_'] ++ product]
          else [])
        match xeolTermLoop db searchTerms with
        | some p => (RecMap.set cache cpePfx (some p.name), some p.name)
        | none =>
          let normalizedProduct := normalizeProductName product
          let noSpace := normalizedProduct.filter (fun c => ¬ isJsWs c)
          match db.products.find? (fun p =>
              likeMatch (jstr "%pkg.xeol.io%") p.permalink &&
                (likeMatch (jstr "%" ++ noSpace ++ jstr "%")
                    (jsToLower (p.name.filter (· ≠ ' '))) ∨
                 likeMatch (jstr "%" ++ noSpace ++ jstr "%")
                    (jsToLower (p.name.filter (· ≠ '-'))) ∨
                 likeMatch (jstr "%" ++ normalizedProduct ++ jstr "%")
                    (jsToLower p.name))) with
          | some p => (RecMap.set cache cpePfx (some p.name), some p.name)
          | none => (RecMap.set cache cpePfx none, none)

/-- Replace runs of whitespace by a single hyphen
(`replace(/\s+/g, '-')`). -/
def wsRunsToHyphen (s : JStr) : JStr := wsRunsGo '-' s.length s

/-- `generateReferenceUrl(productName)` (src/utils/xeol.ts). -/
def generateReferenceUrl (productName : JStr) : JStr :=
  let fallback :=
    if '/' ∈ productName then
      let parts := jsSplitChar '/' productName
      jstr "https://endoflife.date/" ++ parts.getLastD []
    else
      jstr "https://endoflife.date/" ++ wsRunsToHyphen (jsToLower productName)
  if (jstr "cpe:2.3:").isPrefixOf productName then
    let parts := jsSplitChar ':' productName
    if 5 ≤ parts.length then
      jstr "https://endoflife.date/" ++
        (parts.getD 4 []).map (fun c => if c = '_' then '-' else c)
    else fallback
  else if (jstr "cpe:/").isPrefixOf productName then
    let parts := jsSplitChar ':' productName
    if 4 ≤ parts.length then
      jstr "https://endoflife.date/" ++
        (parts.getD 3 []).map (fun c => if c = '_' then '-' else c)
    else fallback
  else fallback

/-- `cycle.eol_bool === 1 || (cycle.eol && new Date(cycle.eol) <= now)`. -/
def xeolCycleEol (now : Int) (dateParse : JStr → Option Int) (c : XeolCycle) : Bool :=
  decide (c.eolBool = 1) ||
    (match c.eol with
     | none => false
     | some s =>
       decide (s ≠ []) &&
         (match dateParse s with
          | none => false
          | some d => decide (d ≤ now)))

/-- The per-cycle loop of `queryXeolEOL` for a concrete query version.  Its
first iteration with a non-empty parsed cycle version reaches
`compareVersions` on arrays and throws (caught by the function's outer
`try`); the subsequent structure is translated nonetheless.  The guards
`if (!queryVersion)` and `if (!cycleVersion)` test arrays, which are always
truthy, so they never fire and are omitted. -/
def xeolCycleLoop (now : Int) (dateParse : JStr → Option Int) (qv : List Seg)
    (latest : JStr) (refUrl : JStr) :
    List XeolCycle → Except JsErr (Option VersionStatus)
  | [] => .ok none
  | cycle :: rest =>
    let cycleVersion := parseVersion cycle.releaseCycle
    let latestInCycle :=
      match cycle.latestRelease with
      | some s => if s ≠ [] then parseVersion s else cycleVersion
      | none => cycleVersion
    let isEol := xeolCycleEol now dateParse cycle
    match compareVersionsOnArrays qv cycleVersion with
    | .error e => .error e
    | .ok cmp =>
      if 0 ≤ cmp then
        match compareVersionsOnArrays qv (parseVersion latest) with
        | .error e => .error e
        | .ok cmpLatest =>
          if 0 < cmpLatest then .ok none
          else
            match compareVersionsOnArrays qv latestInCycle with
            | .error e => .error e
            | .ok cmpCycle =>
              if 0 ≤ cmpCycle then
                .ok (some ⟨if isEol then jstr "eol" else jstr "current", latest, refUrl⟩)
              else
                .ok (some ⟨if isEol then jstr "eol" else jstr "outdated", latest, refUrl⟩)
      else if rest = [] then
        .ok (some ⟨jstr "eol", latest, refUrl⟩)
      else xeolCycleLoop now dateParse qv latest refUrl rest

/-- `queryXeolEOL(xeolDb, productName, version)` (src/utils/xeol.ts).  The
whole body is wrapped in `try { … } catch { return null }`, so the
`TypeError` thrown on the array-version comparison surfaces as `none`. -/
def queryXeolEOL (db : XeolDb) (productName : JStr) (version : JStr)
    (now : Int) (dateParse : JStr → Option Int) : Option VersionStatus :=
  let inner : Except JsErr (Option VersionStatus) :=
    match db.products.find? (fun p =>
        p.name = productName && likeMatch (jstr "%pkg.xeol.io%") p.permalink) with
    | none => .ok none
    | some product =>
      let cycles := sortDesc (fun a b => jsStrLt b.releaseDate a.releaseDate)
        (db.cycles.filter (fun c => c.productId = product.pid))
      if hc : cycles = [] then .ok none
      else
        let latest := cycles.foldl (fun latest cycle =>
          let candidate :=
            match cycle.latestRelease with
            | some s => if s ≠ [] then s else cycle.releaseCycle
            | none => cycle.releaseCycle
          if candidate ≠ [] ∧ (latest = [] ∨ jsStrLt latest candidate) then candidate
          else latest) []
        if latest = [] then .ok none
        else if version = [] ∨ version = jstr "*" then
          let latestCycle := cycles.head (by exact hc)
          let isEol := xeolCycleEol now dateParse latestCycle
          .ok (some ⟨if isEol then jstr "eol" else jstr "N/A", latest,
            generateReferenceUrl product.name⟩)
        else
          let qv := parseVersion version
          xeolCycleLoop now dateParse qv latest (generateReferenceUrl product.name) cycles
  match inner with
  | .error _ => none
  | .ok v => v

/-- The per-CPE loop of `addXeolEOLStatus`, threading the cache. -/
def xeolCpeLoop (db : XeolDb) (now : Int) (dateParse : JStr → Option Int) :
    RecMap (Option JStr) → List JStr → RecMap (Option JStr) × Option VersionStatus
  | cache, [] => (cache, none)
  | cache, cpe :: rest =>
    let cpeSplit := jsSplitChar ':' cpe
    let cpePfx := jsJoin [':'] (cpeSplit.take 5) ++ [':']
    let queryVersionStr := cpeSplit.getD 5 []
    match findXeolProductForCpe db cache cpePfx with
    | (cache', none) => xeolCpeLoop db now dateParse cache' rest
    | (cache', some productName) =>
      match queryXeolEOL db productName queryVersionStr now dateParse with
      | some vs => (cache', some vs)
      | none => xeolCpeLoop db now dateParse cache' rest

/-- `addXeolEOLStatus(results, xeolDb)` (src/utils/xeol.ts), as a result
transformer with the module cache threaded: a null database or an
already-present `version_status` leaves the result unchanged; otherwise the
CPE loop may set `version_status` — the only field ever assigned. -/
def addXeolEOLStatus (r : SearchVulnsResult) (xeolDbOpt : Option XeolDb)
    (cache : RecMap (Option JStr)) (now : Int) (dateParse : JStr → Option Int) :
    RecMap (Option JStr) × SearchVulnsResult :=
  match xeolDbOpt with
  | none => (cache, r)
  | some db =>
    if r.version_status.isSome then (cache, r)
    else
      let cpes := (RecMap.lookup r.product_ids (jstr "cpe")).getD []
      match xeolCpeLoop db now dateParse cache cpes with
      | (cache', none) => (cache', r)
      | (cache', some vs) => (cache', { r with version_status := some vs })

/-!
## `src/utils/cpe_search.ts` — regular-expression machinery

The module's regexes are embedded as dedicated matchers with JavaScript's
leftmost-then-greedy backtracking semantics.
-/

/-- JavaScript word character `\w` = `[A-Za-z0-9_]`. -/
def isWordChar (c : Char) : Bool := c.isAlpha || c.isDigit || c = '_'

/-- The class `[\w+\.]` of `TEXT_TO_VECTOR_RE`. -/
def isVecChar (c : Char) : Bool := isWordChar c || c = '+' || c = '.'

/-- `query.match(TEXT_TO_VECTOR_RE)` (global): the maximal runs of
`[\w+.]` characters, in order.  Fuel-driven; `length` fuel suffices. -/
def textToVectorGo : Nat → JStr → List JStr
  | 0, _ => []
  | _ + 1, [] => []
  | fuel + 1, c :: cs =>
    if isVecChar c then
      (c :: cs.takeWhile isVecChar) :: textToVectorGo fuel (cs.dropWhile isVecChar)
    else textToVectorGo fuel cs

/-- Tokenisation by `TEXT_TO_VECTOR_RE`. -/
def textToVector (s : JStr) : List JStr := textToVectorGo s.length s

/-- One `(:[^:]+)` group of `MATCH_CPE_23_RE`: a colon followed by a
non-empty colon-free run; returns the rest. -/
def cpe23Group (r : JStr) : Option JStr :=
  match r with
  | ':' :: rest =>
    let t := rest.takeWhile (· ≠ ':')
    if t = [] then none else some (rest.drop t.length)
  | _ => none

/-- Whether the suffix starts with `cpe:2.3:[aoh]` followed by at least two
`(:[^:]+)` groups (matching two groups suffices for the searcher to match,
since `{2,10}` only needs two in an unanchored search). -/
def cpe23At (s : JStr) : Bool :=
  if (jstr "cpe:2.3:").isPrefixOf s then
    match s.drop 8 with
    | c :: r =>
      (c = 'a' || c = 'o' || c = 'h') &&
        (match cpe23Group r with
         | some r2 => (cpe23Group r2).isSome
         | none => false)
    | [] => false
  else false

/-- `MATCH_CPE_23_RE.test(s)`: unanchored search for
`cpe:2\.3:[aoh](:[^:]+){2,10}`. -/
def testCpe23 : JStr → Bool
  | [] => false
  | s@(_ :: rest) => cpe23At s || testCpe23 rest

/-- Whether the whole string matches the structured-CPE 2.3 grammar
`cpe:2\.3:[aoh](:[^:]+){2,10}` from start to end: split on colons gives
`cpe`, `2.3`, one of `a`/`o`/`h`, and between 2 and 10 further non-empty
fields. -/
def cpeFullMatch23 (s : JStr) : Bool :=
  let parts := jsSplitChar ':' s
  5 ≤ parts.length ∧ parts.length ≤ 13 ∧
    parts.getD 0 [] = jstr "cpe" ∧ parts.getD 1 [] = jstr "2.3" ∧
    (parts.getD 2 [] = jstr "a" ∨ parts.getD 2 [] = jstr "o" ∨ parts.getD 2 [] = jstr "h") ∧
    (parts.drop 3).all (· ≠ [])

/-- The class `[\da-zA-Z.]` of `VERSION_MATCH_CPE_CREATION_RE`'s version
characters. -/
def isVerChar (c : Char) : Bool := c.isDigit || c.isAlpha || c = '.'

/-- The separator class `[+\-._~ ]` of `VERSION_MATCH_CPE_CREATION_RE`. -/
def isVerSep (c : Char) : Bool :=
  c = '+' || c = '-' || c = '.' || c = '_' || c = '~' || c = ' '

/-- The trailing context `[^\w\n]*$`: the remainder must consist entirely of
non-word, non-newline characters. -/
def tailOk (r : JStr) : Bool := r.all (fun c => ¬ isWordChar c ∧ c ≠ '\n')

/-- Greedy backtracking over the run length of `[\da-zA-Z.]{0,6}` (try `k`
characters first, down to `0`). -/
def cRunTry (rest : JStr) (cont : JStr → Option JStr) : Nat → Option JStr
  | 0 => cont rest
  | k + 1 =>
    match cont (rest.drop (k + 1)) with
    | some x => some x
    | none => cRunTry rest cont k

/-- Greedy backtracking over the run length of `[\da-zA-Z.]+` (try `k`
characters first, down to `1`). -/
def dRunTry (rest : JStr) (cont : JStr → Option JStr) : Nat → Option JStr
  | 0 => none
  | k + 1 =>
    match cont (rest.drop (k + 1)) with
    | some x => some x
    | none => dRunTry rest cont k

/-- The `([+\-._~ ][\da-zA-Z.]+){0,4}` part of
`VERSION_MATCH_CPE_CREATION_RE`, greedy: prefer consuming another group. -/
def vcGroups : Nat → JStr → (JStr → Option JStr) → Option JStr
  | 0, r, cont => cont r
  | g + 1, r, cont =>
    let more :=
      match r with
      | c :: rest =>
        if isVerSep c then
          let maxD := (rest.takeWhile isVerChar).length
          if maxD = 0 then none
          else dRunTry rest (fun r2 => vcGroups g r2 cont) maxD
        else none
      | [] => none
    match more with
    | some x => some x
    | none => cont r

/-- Attempt `(\d[\da-zA-Z.]{0,6})([+\-._~ ][\da-zA-Z.]+){0,4}[^\w\n]*$` at
this position; returns the rest after group 1 on success. -/
def vcMatchAt (s : JStr) : Option JStr :=
  match s with
  | c :: rest =>
    if c.isDigit then
      let maxC := min 6 (rest.takeWhile isVerChar).length
      cRunTry rest (fun r1 => vcGroups 4 r1 (fun r2 => if tailOk r2 then some r2 else none))
        maxC
    else none
  | [] => none

/-- Leftmost search for `VERSION_MATCH_CPE_CREATION_RE`; returns group 1
(the version string without the trailing junk).  The leading `\b` requires
the previous character to be a non-word character (the group starts with a
digit). -/
def findVersionCreationGo : Bool → JStr → Option JStr
  | _, [] => none
  | prevWord, s@(c :: rest) =>
    match (if prevWord then none else
      match vcMatchAt s with
      | some r => some (s.take (s.length - r.length))
      | none => none) with
    | some g1 => some g1
    | none => findVersionCreationGo (isWordChar c) rest

/-- `query.match(VERSION_MATCH_CPE_CREATION_RE)?.[1]`. -/
def findVersionCreationMatch (s : JStr) : Option JStr :=
  findVersionCreationGo false s

/-- `getPossibleVersionsInQuery(query)` (src/utils/cpe_search.ts): the whole
trimmed version string followed by its `[+\-_~ ]`-separated fragments, with
the duplicated head removed. -/
def getPossibleVersionsInQuery (query : JStr) : List JStr :=
  match findVersionCreationMatch query with
  | none => []
  | some g1 =>
    let fullVersionStr := jsTrim g1
    let versionParts := fullVersionStr ::
      splitOnPred (fun c => c = '+' || c = '-' || c = '_' || c = '~' || c = ' ')
        fullVersionStr
    if 1 < versionParts.length ∧ versionParts.getD 0 [] = versionParts.getD 1 [] then
      versionParts.drop 1
    else versionParts

/-- `\b` between the previous character and the rest. -/
def zeBoundary (prevWord : Bool) (r : JStr) : Bool :=
  match r with
  | [] => prevWord
  | c :: _ => prevWord ≠ isWordChar c

/-- Greedy backtracking for one `[\d]+\.?` group of `VERSION_MATCH_ZE_RE`:
longest digit run first, preferring to consume the optional dot; the
continuation receives whether the last consumed character is a word
character. -/
def zeDigitTry (rest : JStr) (cont : Bool → JStr → Option JStr) : Nat → Option JStr
  | 0 => none
  | k + 1 =>
    let r1 := rest.drop (k + 1)
    let withDot :=
      match r1 with
      | '.' :: r2 => cont false r2
      | _ => none
    match withDot with
    | some x => some x
    | none =>
      match cont true r1 with
      | some x => some x
      | none => zeDigitTry rest cont k

/-- Up to `g` further `([\d]+\.?)` groups (greedy), then the trailing
`\b`. -/
def zeGroupsCont : Nat → Bool → JStr → Option JStr
  | 0, prevWord, r => if zeBoundary prevWord r then some r else none
  | g + 1, prevWord, r =>
    let more :=
      let maxD := (r.takeWhile Char.isDigit).length
      if maxD = 0 then none
      else zeDigitTry r (fun pw r2 => zeGroupsCont g pw r2) maxD
    match more with
    | some x => some x
    | none => if zeBoundary prevWord r then some r else none

/-- Attempt `([\d]+\.?){1,4}\b` at this position; returns the rest. -/
def zeMatchAt (s : JStr) : Option JStr :=
  let maxD := (s.takeWhile Char.isDigit).length
  if maxD = 0 then none
  else zeDigitTry s (fun pw r2 => zeGroupsCont 3 pw r2) maxD

/-- Leftmost search for `VERSION_MATCH_ZE_RE = /\b([\d]+\.?){1,4}\b/`;
returns `match[0]`. -/
def findZeMatchGo : Bool → JStr → Option JStr
  | _, [] => none
  | prevWord, s@(c :: rest) =>
    match (if prevWord then none else
      match zeMatchAt s with
      | some r => some (s.take (s.length - r.length))
      | none => none) with
    | some m => some m
    | none => findZeMatchGo (isWordChar c) rest

/-- `query.match(VERSION_MATCH_ZE_RE)?.[0]`. -/
def findZeMatch (s : JStr) : Option JStr := findZeMatchGo false s

/-- `(?<=\d)(?=[^\d.])` (`VERSION_SPLIT_DIFF_CHARSETS_RE`): the index of the
first position preceded by a digit and followed by a non-digit non-dot
character. -/
def findSplitIdxGo : Nat → JStr → Option Nat
  | _, [] => none
  | _, [_] => none
  | i, a :: b :: rest =>
    if a.isDigit ∧ ¬ b.isDigit ∧ b ≠ '.' then some (i + 1)
    else findSplitIdxGo (i + 1) (b :: rest)

/-- Search for `VERSION_SPLIT_DIFF_CHARSETS_RE`; returns `match.index`. -/
def findSplitIdx (s : JStr) : Option Nat := findSplitIdxGo 0 s

/-- `String.prototype.replace` with a plain-string pattern: replace the
first occurrence only. -/
def jsReplaceFirst : JStr → JStr → JStr → JStr
  | [], _, _ => []
  | s@(c :: rest), target, repl =>
    if target.isPrefixOf s then repl ++ s.drop target.length
    else c :: jsReplaceFirst rest target repl

/-- `String.prototype.replace` with a global literal regex: non-overlapping
left-to-right replacement of every occurrence.  Fuel-driven (`length` fuel
suffices for the non-empty targets used here). -/
def jsReplaceAllGo : Nat → JStr → JStr → JStr → JStr
  | 0, _, _, _ => []
  | _ + 1, [], _, _ => []
  | fuel + 1, s@(c :: rest), target, repl =>
    if target ≠ [] ∧ target.isPrefixOf s then
      repl ++ jsReplaceAllGo fuel (s.drop target.length) target repl
    else c :: jsReplaceAllGo fuel rest target repl

/-- Global literal replacement. -/
def jsReplaceAll (s target repl : JStr) : JStr := jsReplaceAllGo s.length s target repl

/-- Auxiliary scan for `jsIncludes`: does `sub` occur at some suffix? -/
def jsIncludesGo (sub : JStr) : JStr → Bool
  | [] => sub.isPrefixOf []
  | s@(_ :: rest) => sub.isPrefixOf s || jsIncludesGo sub rest

/-- `s.includes(sub)`. -/
def jsIncludes (s sub : JStr) : Bool := jsIncludesGo sub s

/-!
## `src/utils/cpe_search.ts` — query rewriting
-/

/-- The `POPULAR_QUERY_CORRECTIONS` table, in declaration order. -/
def popularQueryCorrections : List (JStr × JStr) :=
  [(jstr "flask", jstr "palletsprojects"),
   (jstr "keycloak", jstr "redhat red hat"),
   (jstr "rabbitmq", jstr "vmware"),
   (jstr "bootstrap", jstr "getbootstrap"),
   (jstr "kotlin", jstr "jetbrains"),
   (jstr "spring boot", jstr "vmware"),
   (jstr "debian", jstr "linux"),
   (jstr "ansible", jstr "redhat"),
   (jstr "twig", jstr "symfony"),
   (jstr "proxmox ve", jstr "virtual environment"),
   (jstr "nextjs", jstr "vercel"),
   (jstr "next.js", jstr "vercel"),
   (jstr "ubuntu", jstr "linux"),
   (jstr "symfony", jstr "sensiolabs"),
   (jstr "electron", jstr "electronjs"),
   (jstr "microsoft exchange", jstr "server")]

/-- The `QUERY_ABBREVIATIONS` table, in declaration order. -/
def queryAbbreviations : List (JStr × List JStr × JStr) :=
  [(jstr "adc", [jstr "citrix"], jstr "application delivery controller"),
   (jstr "omsa", [jstr "dell"], jstr "openmanage server administrator"),
   (jstr "cdk", [jstr "amazon", jstr "aws"], jstr "aws cdk cloud development kit"),
   (jstr "srm", [jstr "vmware"], jstr "site recovery manager"),
   (jstr "paloaltonetworks", [], jstr "palo alto networks"),
   (jstr "palo alto networks", [], jstr "paloaltonetworks"),
   (jstr "trend micro", [], jstr "trendmicro"),
   (jstr "ds", [jstr "trend", jstr "micro"], jstr "deep security"),
   (jstr "ms", [], jstr "microsoft"),
   (jstr "dsa", [jstr "trend", jstr "micro"], jstr "deep security agent"),
   (jstr "dsm", [jstr "trend", jstr "micro"], jstr "deep security manager"),
   (jstr "asa", [jstr "cisco"], jstr "adaptive security appliance")]

/-- The three character classes of the class-transition splitting loop
(`curCharClass`): letters, digits, and the ASCII punctuation string. -/
inductive CharClass where
  | letters
  | digits
  | syms
deriving DecidableEq, Repr

/-- Membership in the current `curCharClass` string. -/
def CharClass.contains : CharClass → Char → Bool
  | .letters, c => ('a' ≤ c ∧ c ≤ 'z') ∨ ('A' ≤ c ∧ c ≤ 'Z')
  | .digits, c => '0' ≤ c ∧ c ≤ '9'
  | .syms, c =>
    (33 ≤ c.toNat ∧ c.toNat ≤ 47) ∨ (58 ≤ c.toNat ∧ c.toNat ≤ 64) ∨
      (91 ≤ c.toNat ∧ c.toNat ≤ 96) ∨ (123 ≤ c.toNat ∧ c.toNat ≤ 126)

/-- The class a character (re)sets `curCharClass` to when a split is
inserted. -/
def charClassOf (c : Char) : CharClass :=
  if c.isAlpha then .letters
  else if c.isDigit then .digits
  else .syms

/-- State of the class-transition splitting loop. -/
structure SplitState where
  potAlt : JStr
  curClass : CharClass
  didSplit : Bool
  seenFirstBreak : Bool
  splits : Nat
deriving Repr

/-- One character step of the class-transition splitting loop. -/
def classSplitStep (maxsplit : Nat) (st : SplitState) (c : Char) : SplitState :=
  if c = ' ' ∨ c = '.' ∨ c = '-' ∨ c = '+' then
    { st with potAlt := st.potAlt ++ [c], didSplit := false, seenFirstBreak := true }
  else if st.seenFirstBreak ∧ st.splits < maxsplit ∧ ¬ st.curClass.contains c ∧
      ¬ st.didSplit then
    { potAlt := st.potAlt ++ [' ', c], curClass := charClassOf c, didSplit := true,
      seenFirstBreak := st.seenFirstBreak, splits := st.splits + 1 }
  else { st with potAlt := st.potAlt ++ [c] }

/-- The class-transition splitting pass over the whole query, followed by
the trailing-separator trim of each space-separated part. -/
def classSplitQuery (query : JStr) : JStr :=
  let maxsplit := (jsSplitChar ' ' query).length + 1
  let st := query.foldl (classSplitStep maxsplit)
    ⟨[], .letters, false, false, 0⟩
  let parts := (jsSplitChar ' ' st.potAlt).map (fun part =>
    if part ≠ [] ∧ (part.getLast? = some '.' ∨ part.getLast? = some '-' ∨
        part.getLast? = some '+') then
      part.dropLast
    else part)
  jsJoin [' '] parts

/-- The js-library-name loop of `getAlternativeQueries`: for each word
position, generate the split and fused `.js` variants.  Fuel-driven with
fuel `queryWords.length`. -/
def jsLibVariantsGo (queryWords : List JStr) : Nat → Nat → List JStr
  | 0, _ => []
  | fuel + 1, i =>
    if i < queryWords.length then
      let word := jsTrim (queryWords.getD i [])
      let nq12 : List JStr × List JStr :=
        if word = jstr "js" ∧ 0 < i then
          ((queryWords.take (i - 1)) ++ [queryWords.getD (i - 1) [] ++ jstr "js"],
           (queryWords.take (i - 1)) ++ [queryWords.getD (i - 1) [] ++ jstr ".js"])
        else if (jstr ".js").isSuffixOf word ∨ (jstr "js").isSuffixOf word then
          let base :=
            if 0 < i then (queryWords.take i, queryWords.take i)
            else (([] : List JStr), ([] : List JStr))
          if (jstr ".js").isSuffixOf word then
            (base.1 ++ [word.take (word.length - 3), jstr "js"],
             base.2 ++ [word.take (word.length - 3) ++ jstr "js"])
          else
            (base.1 ++ [word.take (word.length - 2), jstr "js"],
             base.2 ++ [word.take (word.length - 2) ++ jstr ".js"])
        else ([], [])
      let here :=
        if nq12.1 ≠ [] then
          let nq1 := if i < queryWords.length - 1 then nq12.1 ++ queryWords.drop (i + 1)
            else nq12.1
          let nq2 := if i < queryWords.length - 1 then nq12.2 ++ queryWords.drop (i + 1)
            else nq12.2
          [jsJoin [' '] nq1, jsJoin [' '] nq2]
        else []
      here ++ jsLibVariantsGo queryWords fuel (i + 1)
    else []

/-- The alternative queries generated for one (lowercased) query, in the
source's generation order. -/
def altQueriesFor (query : JStr) : List JStr :=
  let alts0 : List JStr :=
    if jsIncludes query (jstr "httpd") then
      [jsReplaceAll query (jstr "httpd") (jstr "http")]
    else []
  let abbrStep := queryAbbreviations.foldl (fun (st : List JStr × JStr) entry =>
    let (abbreviation, requiredKeywords, replacement) := entry
    if requiredKeywords = [] ∨ requiredKeywords.any (fun kw => jsIncludes query kw) then
      if abbreviation.isPrefixOf query ∨ abbreviation.isSuffixOf query ∨
          jsIncludes query ([' '] ++ abbreviation ++ [' ']) then
        (st.1 ++ [jsReplaceAll query abbreviation ([' '] ++ replacement ++ [' '])],
         jsReplaceAll st.2 abbreviation ([' '] ++ replacement ++ [' ']))
      else st
    else st) (alts0, query)
  let alts1 := abbrStep.1
  let alts2 := if abbrStep.2 ≠ query then alts1 ++ [abbrStep.2] else alts1
  let alts3 :=
    if jsIncludes query (jstr "cisco") ∧
        ((jstr "cm ").isPrefixOf query ∨ (jstr " cm").isSuffixOf query ∨
          jsIncludes query (jstr " cm ")) then
      let altQuery := jsReplaceAll query (jstr "cm") (jstr "communications manager")
      let altQuery2 :=
        if jsIncludes query (jstr "sm") then
          jsReplaceAll altQuery (jstr "sm") (jstr "session management")
        else altQuery
      alts2 ++ [altQuery2]
    else alts2
  let alts4 := popularQueryCorrections.foldl (fun acc entry =>
    let (product, helperQuery) := entry
    if jsIncludes query product ∧
        ¬ (jsSplitChar ' ' helperQuery).any (fun word => jsIncludes query word) then
      acc ++ [helperQuery ++ [' '] ++ query]
    else acc) alts3
  let queryWords := jsSplitChar ' ' query
  let alts5 :=
    if jsIncludes query (jstr "js ") ∨ jsIncludes query (jstr " js") ∨
        (jstr "js").isSuffixOf query then
      let altQueries := jsLibVariantsGo queryWords queryWords.length 0
      if altQueries ≠ [] then alts4 ++ altQueries else alts4
    else alts4
  let versionParts := getPossibleVersionsInQuery query
  let alts6 :=
    if 1 < versionParts.length then
      let queryNoVersion := jsReplaceFirst query (versionParts.getD 0 []) []
      alts5 ++ [queryNoVersion ++ jsJoin [' '] (versionParts.drop 1)]
    else alts5
  let potAltQuery := classSplitQuery query
  let alts7 :=
    if potAltQuery ≠ jsTrim query then
      let enriched := (jsSplitChar ' ' query).foldl (fun pa word =>
        if ¬ jsIncludes pa word then pa ++ [' '] ++ word else pa) potAltQuery
      alts6 ++ [potAltQuery, enriched]
    else alts6
  let alts8 :=
    if 2 < queryWords.length ∧
        (queryWords.getD (queryWords.length - 1) []).length < 7 then
      alts7 ++
        [query ++ [' '] ++ queryWords.getD (queryWords.length - 2) [] ++
          queryWords.getD (queryWords.length - 1) [],
         jsJoin [' '] (queryWords.take (queryWords.length - 2)) ++ [' '] ++
          queryWords.getD (queryWords.length - 2) [] ++
          queryWords.getD (queryWords.length - 1) []]
    else alts7
  match findZeMatch query with
  | some m =>
    alts8 ++ [jsReplaceFirst query m (m ++ jstr ".0"),
      jsReplaceFirst query m (m ++ jstr ".0.0")]
  | none => alts8

/-- `getAlternativeQueries(initQueries)` (src/utils/cpe_search.ts). -/
def getAlternativeQueries (initQueries : List JStr) : RecMap (List JStr) :=
  initQueries.foldl (fun acc query => RecMap.set acc query (altQueriesFor query)) []

/-!
## `src/utils/cpe_search.ts` — `_searchCPEs` and `search_cpes`

TF-IDF scoring is carried out over exact fractions.  `Math.exp(-0.25·i)`
(`QUERY_TERM_WEIGHT_EXP_FACTOR = -0.25`) is modelled as the `i`-th power of
the 16-significant-digit rational value of `e^(-1/4)`; `Math.sqrt` is
`jsSqrt`.  Every comparison appearing in the theorems below has a margin
far exceeding these approximations' error.
-/

/-- `e^(-1/4)` to 16 significant digits: the score base for query-term
position weights. -/
def expQueryBase : Frac := ⟨7788007830714049, 10 ^ 16⟩

/-- `a^n` on fractions. -/
def Frac.pow (a : Frac) : Nat → Frac
  | 0 => Frac.ofInt 1
  | n + 1 => (Frac.pow a n).mul a

/-- `parseInt(s, 10)`: skip leading whitespace, optional sign, then a
digit run; `none` models `NaN`. -/
def parseIntJs (s : JStr) : Option Int :=
  let t := s.dropWhile isJsWs
  let core : JStr × Bool :=
    match t with
    | '-' :: rest => (rest, true)
    | '+' :: rest => (rest, false)
    | _ => (t, false)
  let ds := core.1.takeWhile Char.isDigit
  if ds = [] then none
  else if core.2 then some (-(digitsVal ds : Int)) else some (digitsVal ds : Int)

/-- `for (let i = start; i <= end; i++) push(i)`. -/
def intRangeIncl (a b : Int) : List Int :=
  if a ≤ b then (List.range (b - a + 1).toNat).map (fun k => a + k) else []

/-- A row of the `cpe_entries` table of the product database.  The
`term_frequencies` JSON object is held parsed, in its stored key order. -/
structure CpeEntry where
  entryId : Int
  cpe : JStr
  termFrequencies : RecMap Frac
  absTermFrequency : Frac
deriving DecidableEq, Repr

/-- The product database (cpe_search's tables). -/
structure ProductDb where
  termsToEntries : List (JStr × JStr)
  cpeEntries : List CpeEntry
  productCpeCounts : RecMap Int
deriving DecidableEq, Repr

/-- Pre-query data of `_searchCPEs`: the query's weighted TF vector and its
Euclidean norm. -/
structure QueryInfo where
  tf : RecMap Frac
  abs : Frac
deriving DecidableEq, Repr

/-- Word weights: first-occurrence index `i` maps to `exp(-0.25·i)`. -/
def wordWeightsOf (wordsQuery : List JStr) : RecMap Frac :=
  wordsQuery.enum.foldl (fun acc iw =>
    if RecMap.hasKey acc iw.2 then acc
    else RecMap.set acc iw.2 (Frac.pow expQueryBase iw.1)) []

/-- Occurrence counts of the query's words, in first-occurrence order. -/
def tfCounts (wordsQuery : List JStr) : RecMap Nat :=
  wordsQuery.foldl (fun acc w =>
    RecMap.set acc w ((RecMap.lookup acc w).getD 0 + 1)) []

/-- The weighted TF vector
`queryTf[term] = wordWeightsQuery[term] * (tf / queryTfLen)`. -/
def queryTfOf (wordsQuery : List JStr) : RecMap Frac :=
  let weights := wordWeightsOf wordsQuery
  let counts := tfCounts wordsQuery
  let len := counts.length
  counts.map (fun kv =>
    (kv.1, ((RecMap.lookup weights kv.1).getD (Frac.ofInt 0)).mul
      (Frac.div (Frac.ofInt kv.2) (Frac.ofInt len))))

/-- `Math.sqrt(Σ tf²)`. -/
def queryAbsOf (tf : RecMap Frac) : Frac :=
  jsSqrt (tf.foldl (fun s kv => s.add (kv.2.mul kv.2)) (Frac.ofInt 0))

/-- First phase of `_searchCPEs`: walk the expanded query list, skipping
queries whose token list was already included, and record per-query infos
plus the ordered set of all query words.  Token-list equality stands for
the source's comparison of the comma-joined token strings (tokens match
`[\w+.]+` and cannot contain a comma). -/
def buildQueryInfos (queries : List JStr) :
    RecMap (List JStr) × RecMap QueryInfo × List JStr :=
  queries.foldl (fun acc query =>
    let (includedWordSets, queryInfos, allQueryWords) := acc
    let wordsQuery := textToVector query
    if includedWordSets.any (fun kv => kv.2 = wordsQuery) then acc
    else
      let queryTf := queryTfOf wordsQuery
      (RecMap.set includedWordSets query wordsQuery,
       RecMap.set queryInfos query ⟨queryTf, queryAbsOf queryTf⟩,
       queryTf.foldl (fun ws kv => pushNew ws kv.1) allQueryWords)) ([], [], [])

/-- Entry ids contributed by one query term: the first token is pushed
as-is, later tokens are either single ids or `start-end` ranges.  A `NaN`
token contributes nothing to the retrieval (a `NaN` id never matches an
integer `entry_id`). -/
def entryIdsForTerm (db : ProductDb) (word : JStr) : List Int :=
  match db.termsToEntries.find? (fun r => r.1 = word) with
  | none => []
  | some r =>
    if r.2 = [] then []
    else
      let toks := jsSplitChar ',' r.2
      (parseIntJs (toks.getD 0 [])).toList ++
        (toks.drop 1).flatMap (fun eid =>
          if jsIncludes eid ['-'] then
            let bounds := jsSplitChar '-' eid
            match parseIntJs (bounds.getD 0 []), parseIntJs (bounds.getD 1 []) with
            | some a, some b => intRangeIncl a b
            | _, _ => []
          else (parseIntJs eid).toList)

/-- The batched fetch loop of `_searchCPEs`: slices of at most 1000 ids are
taken from the END of the id list, walking backwards; each `SELECT ...
WHERE entry_id IN (batch)` is modelled as the table filtered in stored
order.  Fuel-driven; `ids.length + 1` fuel suffices. -/
def fetchBatchesGo (db : ProductDb) (ids : List Int) : Nat → Nat → List CpeEntry
  | _, 0 => []
  | remaining, fuel + 1 =>
    if remaining = 0 then []
    else
      let cnt := min remaining 1000
      let batch := ((ids.drop (remaining - cnt)).take cnt)
      let rows := db.cpeEntries.filter (fun e => batch.contains e.entryId)
      rows ++ fetchBatchesGo db ids (remaining - 1000) fuel

/-- All CPE rows fetched for the given entry ids. -/
def fetchBatches (db : ProductDb) (ids : List Int) : List CpeEntry :=
  fetchBatchesGo db ids ids.length (ids.length + 1)

/-- `` `${cpeBase}-${10 - (cpe.split(':').length - nonWildcards)}` ``:
the class key under which the best match per CPE base and wildcard count is
kept. -/
def cpeClassOf (cpe : JStr) : JStr :=
  let parts := jsSplitChar ':' cpe
  let cpeBase := jsJoin [':'] (parts.take 5) ++ [':']
  let nonWildcards := (parts.filter (fun f =>
    ¬ (f = jstr "*" ∨ f = jstr "-" ∨ f = []))).length
  let n : Int := 10 - ((parts.length : Int) - nonWildcards)
  cpeBase ++ ['-'] ++ (if n < 0 then '-' :: natRepr n.natAbs else natRepr n.toNat)

/-- Scoring of one CPE row against one query: cosine similarity of the
weighted TF vectors over exact fractions. -/
def scoreOneQuery (threshold : Frac) (e : CpeEntry) (qi : QueryInfo)
    (inner : RecMap (JStr × Frac)) : RecMap (JStr × Frac) :=
  let intersecting := e.termFrequencies.filter (fun kv => RecMap.hasKey qi.tf kv.1)
  let innerProduct := intersecting.foldl (fun s kv =>
    s.add (kv.2.mul ((RecMap.lookup qi.tf kv.1).getD (Frac.ofInt 0)))) (Frac.ofInt 0)
  let normalizationFactor := e.absTermFrequency.mul qi.abs
  if Frac.beq normalizationFactor (Frac.ofInt 0) then inner
  else
    let simScore := Frac.div innerProduct normalizationFactor
    if Frac.blt (Frac.ofInt 0) threshold ∧ Frac.blt simScore threshold then inner
    else
      let cpeClass := cpeClassOf e.cpe
      match RecMap.lookup inner cpeClass with
      | none => RecMap.set inner cpeClass (e.cpe, simScore)
      | some old =>
        if Frac.blt old.2 simScore then RecMap.set inner cpeClass (e.cpe, simScore)
        else inner

/-- The similarity-scoring loop over all fetched CPE rows, with the
`processedCpes` per-CPE dedup. -/
def scoreAll (queriesFinal : List JStr) (queryInfos : RecMap QueryInfo)
    (threshold : Frac) (mostSimilar0 : RecMap (RecMap (JStr × Frac)))
    (entries : List CpeEntry) : RecMap (RecMap (JStr × Frac)) :=
  (entries.foldl (fun acc e =>
    let (processed, mostSimilar) := acc
    if e.cpe ∈ processed then acc
    else
      (e.cpe :: processed,
       queriesFinal.foldl (fun ms query =>
        match RecMap.lookup queryInfos query with
        | none => ms
        | some qi =>
          RecMap.set ms query (scoreOneQuery threshold e qi
            ((RecMap.lookup ms query).getD []))) mostSimilar))
    (([] : List JStr), mostSimilar0)).2

/-- The sort comparator `(a, b) => b[1] - a[1] || a[0].localeCompare(b[0])`:
descending score, ties broken by ascending code-unit string order (the
default locale's comparison coincides with code-unit order on the ASCII CPE
strings involved). -/
def entryBefore (a b : JStr × Frac) : Bool :=
  Frac.blt b.2 a.2 || (Frac.beq a.2 b.2 && jsStrLt a.1 b.1)

/-- Stable insertion: `x` goes before the first element it strictly
precedes. -/
def insertStable {α : Type} (before : α → α → Bool) (x : α) : List α → List α
  | [] => [x]
  | y :: ys => if before x y then x :: y :: ys else y :: insertStable before x ys

/-- `Array.prototype.sort` with a strict-precedence comparator (stable, as
required since ES2019). -/
def jsSortBy {α : Type} (before : α → α → Bool) (l : List α) : List α :=
  l.foldl (fun acc x => insertStable before x acc) []

/-- Re-key a value list with `"0"`, `"1"`, ... (the
`Object.fromEntries(....map((e, idx) => [idx.toString(), e]))` step; the
integer-like keys then enumerate in the same ascending order). -/
def rekeyed (l : List (JStr × Frac)) : RecMap (JStr × Frac) :=
  l.enum.map (fun ie => (natRepr ie.1, ie.2))

/-- The per-query unification step: distinct class winners sorted by
descending score. -/
def unifyMostSimilar (queriesFinal : List JStr)
    (m : RecMap (RecMap (JStr × Frac))) : RecMap (RecMap (JStr × Frac)) :=
  queriesFinal.foldl (fun acc query =>
    match RecMap.lookup acc query with
    | some inner =>
      if inner.length ≠ 0 then
        RecMap.set acc query (rekeyed (jsSortBy entryBefore (RecMap.values inner)))
      else acc
    | none => acc) m

/-- The per-query count limitation (`count !== -1` guard handled by the
caller of this fold). -/
def limitMostSimilar (queriesFinal : List JStr) (count : Int)
    (m : RecMap (RecMap (JStr × Frac))) : RecMap (RecMap (JStr × Frac)) :=
  queriesFinal.foldl (fun acc query =>
    match RecMap.lookup acc query with
    | some inner => RecMap.set acc query (rekeyed ((RecMap.values inner).take count.toNat))
    | none => acc) m

/-- The intermediate-results step: drop queries with no results or whose
single result carries the sentinel score `-1`, and filter sentinel entries
elsewhere. -/
def intermediateResultsOf (queriesFinal : List JStr)
    (m : RecMap (RecMap (JStr × Frac))) : RecMap (List (JStr × Frac)) :=
  queriesFinal.foldl (fun acc query =>
    let results := RecMap.values ((RecMap.lookup m query).getD [])
    if results.length = 0 ∨
        (results.length = 1 ∧ Frac.beq (results.getD 0 ([], Frac.ofInt 0)).2
          (Frac.ofInt (-1))) then acc
    else RecMap.set acc query
      (results.filter (fun r => ¬ Frac.beq r.2 (Frac.ofInt (-1))))) []

/-- The final unification across a query's alternative queries.  The
reference-identity `Set` deduplicates only repeated visits of the same
alternative query (tuples from different intermediate lists are distinct
objects), so the fold skips alternative queries already visited. -/
def unifyWithAlts (intermediate : RecMap (List (JStr × Frac)))
    (query : JStr) (alts : List JStr) : List (JStr × Frac) :=
  (alts.foldl (fun acc altQuery =>
    if altQuery ≠ query ∧ altQuery ∉ acc.2 ∧
        (RecMap.lookup intermediate altQuery).isSome then
      (acc.1 ++ (RecMap.lookup intermediate altQuery).getD [], altQuery :: acc.2)
    else acc)
    ((RecMap.lookup intermediate query).getD [], ([] : List JStr))).1

/-- `_searchCPEs(queriesRaw, dbCursor, count, threshold, config)`
(src/utils/cpe_search.ts). -/
def underSearchCPEs (queriesRaw : List JStr) (db : ProductDb) (count : Int)
    (threshold : Frac) : RecMap (List (JStr × Frac)) :=
  let queries0 := queriesRaw.map jsToLower
  let altQueriesMapping := getAlternativeQueries queries0
  let queries := queries0 ++ (RecMap.values altQueriesMapping).flatten
  let built := buildQueryInfos queries
  let includedWordSets := built.1
  let queryInfos := built.2.1
  let allQueryWords := built.2.2
  let queriesFinal := RecMap.keys includedWordSets
  let allCpeEntryIds := allQueryWords.flatMap (entryIdsForTerm db)
  let allCpeInfos := fetchBatches db allCpeEntryIds
  let mostSimilar0 : RecMap (RecMap (JStr × Frac)) := queriesFinal.map (fun q => (q, []))
  let scored := scoreAll queriesFinal queryInfos threshold mostSimilar0 allCpeInfos
  let unified := unifyMostSimilar queriesFinal scored
  let limited := if count ≠ -1 then limitMostSimilar queriesFinal count unified else unified
  let intermediate := intermediateResultsOf queriesFinal limited
  let results := queriesRaw.foldl (fun acc queryRaw =>
    let query := jsToLower queryRaw
    let altsEmpty : Bool :=
      match RecMap.lookup altQueriesMapping query with
      | none => true
      | some l => l.isEmpty
    if ¬ RecMap.hasKey intermediate query ∧ altsEmpty then acc
    else if altsEmpty then
      RecMap.set acc queryRaw ((RecMap.lookup intermediate query).getD [])
    else
      RecMap.set acc queryRaw (jsSortBy entryBefore
        (unifyWithAlts intermediate query
          ((RecMap.lookup altQueriesMapping query).getD [])))) []
  if count ≠ -1 then
    queriesRaw.foldl (fun acc query =>
      match RecMap.lookup acc query with
      | some l => RecMap.set acc query (l.take count.toNat)
      | none => RecMap.set acc query []) results
  else results

/-- Membership in `CPE_CREATION_DEL_SYMBOLS_RE`'s character class (the
deleted symbols, written by code point). -/
def isDelSymbol (c : Char) : Bool :=
  c.toNat ∈ [93, 34, 124, 123, 62, 41, 47, 96, 60, 35, 125, 44, 91, 58, 40, 61, 59,
    94, 39, 37]

/-- `Array.prototype.splice(idx, 0, x)`: insert at an index (clamped to the
end). -/
def listInsertAt {α : Type} : List α → Nat → α → List α
  | l, 0, x => x :: l
  | [], _ + 1, x => [x]
  | y :: ys, n + 1, x => y :: listInsertAt ys n x

/-- `createCpesFromBaseCpeAndQuery(cpe, query)` (src/utils/cpe_search.ts). -/
def createCpesFromBaseCpeAndQuery (cpe query : JStr) : List JStr :=
  let versionParts := getPossibleVersionsInQuery query
  let newCpes1 :=
    if 2 < versionParts.length then
      (List.range (versionParts.length - 1)).map (fun j =>
        let i := j + 1
        let cpeParts := jsSplitChar ':' cpe
        jsJoin [':'] (cpeParts.take 5 ++ (versionParts.drop 1).take i ++
          cpeParts.drop (5 + i)))
    else []
  let newCpes2 :=
    if versionParts.length = 1 then
      match findSplitIdx (versionParts.getD 0 []) with
      | some splitIdx =>
        let v0 := versionParts.getD 0 []
        let verPart1 := v0.take splitIdx
        let verPart2 := (v0.drop splitIdx).dropWhile (fun c => ¬ (c.isAlpha ∨ c.isDigit))
        if verPart2 ≠ [] then
          [jsJoin [':'] (listSetExt (listSetExt (jsSplitChar ':' cpe) 5 verPart1) 6
            verPart2)]
        else []
      | none => []
    else []
  let versionPartInCpe := (List.range (versionParts.length - 2)).any (fun i =>
    ((jsSplitChar ':' cpe).drop (6 + i)).contains (versionParts.getD (i + 2) []))
  let newCpes3 :=
    if 0 < versionParts.length ∧ ¬ versionPartInCpe then
      [jsJoin [':'] (listSetExt (jsSplitChar ':' cpe) 5
        ((versionParts.getD 0 []).map (fun c => if c = ' ' then '_' else c)))]
    else []
  newCpes1 ++ newCpes2 ++ newCpes3

/-- `isVersionlessQuery(query)`: no `VERSION_MATCH_CPE_CREATION_RE` match. -/
def isVersionlessQuery (query : JStr) : Bool :=
  (findVersionCreationMatch query).isNone

/-- `createBaseCpeIfVersionlessQuery(cpe, query)`: the first five CPE fields
with eight `*` fields appended, when the query carries no version. -/
def createBaseCpeIfVersionlessQuery (cpe query : JStr) : Option JStr :=
  if isVersionlessQuery query then
    some (jsJoin [':'] ((jsSplitChar ':' cpe).take 5 ++ List.replicate 8 (jstr "*")))
  else none

/-- The two-index walk of `cpeMatchesQuery`: advance through the CPE check
string, consuming the version's digit characters in order (non-digit
version characters are skipped); the version matches when it is fully
consumed. -/
def vWalk : JStr → JStr → Bool
  | [], _ => true
  | _ :: _, [] => false
  | pv, c :: cs =>
    match pv.dropWhile (fun x => ¬ x.isDigit) with
    | [] => true
    | q :: qs => vWalk (if q = c then qs else q :: qs) cs

/-- `cpeMatchesQuery(cpe, query)` (src/utils/cpe_search.ts). -/
def cpeMatchesQuery (cpe query : JStr) : Bool :=
  let checkStr := cpe.drop 8
  let versionsInQuery := getPossibleVersionsInQuery query
  let badMatch1 : Bool := query.any Char.isDigit && ¬ checkStr.any Char.isDigit
  let badMatch2 : Bool :=
    if badMatch1 then true
    else
      let cpeHasMatchingVersion := versionsInQuery.any (fun pv =>
        pv.contains '.' && vWalk pv checkStr)
      decide (0 < versionsInQuery.length) && ¬ cpeHasMatchingVersion
  let badMatch3 : Bool :=
    if badMatch2 then true
    else
      let nonVersionTerms := ((jsSplitChar ' ' query).filter
        (fun t => ¬ versionsInQuery.contains t)).map jsToLower
      ¬ nonVersionTerms.any (fun term => jsIncludes cpe term)
  ¬ badMatch3

/-- `CPE_SEARCH_THRESHOLD_ALT = 0.25`. -/
def cpeSearchThresholdAlt : Frac := ⟨1, 4⟩

/-- The default `CPE_SEARCH_THRESHOLD` fallback `0.68`. -/
def cpeSearchDefaultThreshold : Frac := ⟨17, 25⟩

/-- The result shape of `search_cpes`. -/
structure CpeSearchResult where
  cpes : List (JStr × Frac)
  pot_cpes : List (JStr × Frac)
deriving DecidableEq, Repr

/-- `search_cpes(query, db_cursor, count, threshold, config)`
(src/utils/cpe_search.ts).  `count`/`threshold` are the explicit arguments
(`null` = absent); `cfgCount`/`cfgThreshold` the config fallbacks. -/
def search_cpes (query : JStr) (db : ProductDb) (count : Option Int)
    (threshold : Option Frac) (cfgCount : Option Int) (cfgThreshold : Option Frac) :
    CpeSearchResult :=
  if query = [] then ⟨[], []⟩
  else
    let finalCount : Int :=
      match count with
      | some c => c
      | none =>
        match cfgCount with
        | some n => if n ≠ 0 then n else 10
        | none => 10
    let finalThreshold : Frac :=
      match threshold with
      | some t => t
      | none =>
        match cfgThreshold with
        | some t => if ¬ Frac.beq t (Frac.ofInt 0) then t else cpeSearchDefaultThreshold
        | none => cpeSearchDefaultThreshold
    let trimmedQuery := jsTrim query
    if testCpe23 trimmedQuery then ⟨[], []⟩
    else
      let searchResults := underSearchCPEs [trimmedQuery] db finalCount
        cpeSearchThresholdAlt
      let cpes0 := (RecMap.lookup searchResults trimmedQuery).getD []
      if cpes0 = [] then ⟨[], []⟩
      else
        let cpeCreationQuery := jsReplaceAll
          (trimmedQuery.map (fun c => if isDelSymbol c then ' ' else c))
          (jstr "  ") (jstr " ")
        let potCpes1 := cpes0.foldl (fun pot entry =>
          let newCpes := createCpesFromBaseCpeAndQuery entry.1 cpeCreationQuery
          let pot2 := newCpes.foldl (fun pot newCpe =>
            if cpes0.any (fun e => isCpeEqual newCpe e.1) then pot
            else if pot.any (fun o => isCpeEqual newCpe o.1) then pot
            else pot ++ [(newCpe, Frac.neg entry.2)]) pot
          if pot2.any (fun o => isCpeEqual entry.1 o.1) then pot2
          else pot2 ++ [(entry.1, entry.2)]) []
        let inserts := potCpes1.enum.foldl (fun acc ie =>
          match createBaseCpeIfVersionlessQuery ie.2.1 cpeCreationQuery with
          | some baseCpe =>
            if ¬ potCpes1.any (fun o => isCpeEqual baseCpe o.1) ∧
                ¬ acc.any (fun p => isCpeEqual baseCpe p.1.1) then
              acc ++ [((baseCpe, Frac.neg ie.2.2), ie.1)]
            else acc
          | none => acc) ([] : List ((JStr × Frac) × Nat))
        let potCpes := inserts.foldl (fun pot p => listInsertAt pot p.2 p.1) potCpes1
        let cpes := cpes0.filter (fun e => cpeMatchesQuery e.1 cpeCreationQuery)
        if cpes0.length ≠ cpes.length then
          if cpes ≠ [] ∧ Frac.blt finalThreshold (cpes.getD 0 ([], Frac.ofInt 0)).2 then
            ⟨cpes, potCpes⟩
          else
            let newPotCpes := potCpes.filter (fun p =>
              let words := ((jsSplitChar ':' p.1).drop 3).take 2
              words.any (fun word => jsIncludes (jsToLower trimmedQuery) (jsToLower word)))
            ⟨[], newPotCpes⟩
        else
          let top := cpes.getD 0 ([], Frac.ofInt 0)
          let cpeVersion := (jsSplitChar ':' top.1).getD 5 []
          let versionlessEarly :=
            if cpeVersion ≠ [] ∧ cpeVersion ≠ jstr "*" ∧ cpeVersion ≠ jstr "-" then
              (createBaseCpeIfVersionlessQuery top.1 trimmedQuery).isSome
            else false
          if versionlessEarly then
            let potCpesVersionless := potCpes.filter (fun p =>
              let v := (jsSplitChar ':' p.1).getD 5 []
              v = [] ∨ v = jstr "*" ∨ v = jstr "-")
            ⟨[], potCpesVersionless⟩
          else if cpes ≠ [] ∧ Frac.blt top.2 finalThreshold then ⟨[], potCpes⟩
          else ⟨cpes, potCpes⟩

/-!
## `src/utils/database.ts` and `src/core.ts`
-/

/-- One database section of the configuration (`TYPE`, `NAME`). -/
structure DbCfg where
  dbType : Option JStr
  name : Option JStr
deriving DecidableEq, Repr

/-- The configuration slice used by `searchVulns` / `search_cpes`. -/
structure ConfigM where
  vulnDatabase : DbCfg
  productDatabase : DbCfg
  cpeSearchCount : Option Int
  cpeSearchThreshold : Option Frac
deriving DecidableEq, Repr

/-- `getDatabaseConnection(dbConfig)` (src/utils/database.ts): a non-sqlite
`TYPE` and a missing/empty `NAME` throw; a successful `new Database` open is
modelled as succeeding (path resolution and I/O are outside the model). -/
def getDatabaseConnection (cfg : DbCfg) : Except JsErr Unit :=
  let dbType :=
    match cfg.dbType with
    | some t => if t ≠ [] then t else jstr "sqlite"
    | none => jstr "sqlite"
  if dbType ≠ jstr "sqlite" then
    .error (.jsError (jstr "Database type is not supported. Only SQLite is supported."))
  else if ¬ optStrTruthy cfg.name then
    .error (.jsError (jstr "Database NAME is required for SQLite"))
  else .ok ()

/-- `x?.toString() || d` on an optional string column. -/
def optStrOr (o : Option JStr) (d : JStr) : JStr :=
  match o with
  | some s => if s ≠ [] then s else d
  | none => d

/-- ASCII upper-casing (`String.prototype.toUpperCase` on the ASCII ids
involved). -/
def jsToUpper (s : JStr) : JStr := s.map Char.toUpper

/-- Attempt `/CVE-\d{4}-\d+/i` at this position; returns `match[0]` in
original case (prefix case-insensitive, exactly four digits, a hyphen, then
a maximal non-empty digit run). -/
def cveMatchAt (s : JStr) : Option JStr :=
  if jsToLower (s.take 4) = jstr "cve-" then
    let r := s.drop 4
    if (r.take 4).length = 4 ∧ (r.take 4).all Char.isDigit then
      match r.drop 4 with
      | '-' :: rest =>
        let ds := rest.takeWhile Char.isDigit
        if ds ≠ [] then some (s.take (9 + ds.length)) else none
      | _ => none
    else none
  else none

/-- Leftmost search for `/CVE-\d{4}-\d+/i`. -/
def findCveMatch : JStr → Option JStr
  | [] => none
  | s@(_ :: rest) =>
    match cveMatchAt s with
    | some m => some m
    | none => findCveMatch rest

/-- Attempt `/GHSA-[a-z0-9-]+/i` at this position; returns `match[0]` in
original case. -/
def ghsaMatchAt (s : JStr) : Option JStr :=
  if jsToLower (s.take 5) = jstr "ghsa-" then
    let run := (s.drop 5).takeWhile (fun c => c.isAlpha || c.isDigit || c = '-')
    if run ≠ [] then some (s.take (5 + run.length)) else none
  else none

/-- Leftmost search for `/GHSA-[a-z0-9-]+/i`. -/
def findGhsaMatch : JStr → Option JStr
  | [] => none
  | s@(_ :: rest) =>
    match ghsaMatchAt s with
    | some m => some m
    | none => findGhsaMatch rest

/-- The match-classification block of `searchVulnsBasic` for one joined
`nvd_cpe` row: the query version against the row's version range or its own
CPE version.  `none` models `matches === false`. -/
def classifyNvdCpeRow (queryVersion : JStr) (nc : NvdCpeRow) : Option MatchReason :=
  let vulnCpeVersion := getCpeVersion nc.cpe
  let hasVersionRange := optStrTruthy nc.cpeVersionStart ∨ optStrTruthy nc.cpeVersionEnd
  if queryVersion ≠ [] ∧ queryVersion ≠ jstr "*" then
    if hasVersionRange then
      if isVersionInRange queryVersion nc.cpeVersionStart (nc.isStartIncluding = some 1)
          nc.cpeVersionEnd (nc.isEndIncluding = some 1) then
        some .versionInRange
      else none
    else if vulnCpeVersion = jstr "*" then some .generalProductUncertain
    else if vulnCpeVersion = queryVersion then some .productMatch
    else none
  else if vulnCpeVersion = jstr "*" then some .generalProductOk
  else none

/-- The `SELECT DISTINCT ... FROM nvd JOIN nvd_cpe ... WHERE nc.cpe LIKE ?`
of `searchVulnsBasic`: matching `nvd_cpe` rows in stored order, each joined
with its `nvd` rows, value-distinct. -/
def nvdJoinRows (db : VulnDb) (cpePfx : JStr) : List (NvdRow × NvdCpeRow) :=
  ((db.nvdCpe.filter (fun nc => likeMatch (cpePfx ++ ['%']) nc.cpe)).flatMap
    (fun nc => (db.nvd.filter (fun n => n.cveId = nc.cveId)).map (fun n => (n, nc))))
    |>.foldl pushNew []

/-- Processing of one joined row in `searchVulnsBasic`'s CPE loop: prefix
check, classification, construction, and merge-or-insert. -/
def processNvdCpeRow (queryCpe queryVersion : JStr) (vulns : RecMap Vulnerability)
    (row : NvdRow × NvdCpeRow) : RecMap Vulnerability :=
  if ¬ cpeMatchesPrefix queryCpe row.2.cpe then vulns
  else
    match classifyNvdCpeRow queryVersion row.2 with
    | none => vulns
    | some reason =>
      let n := row.1
      let vuln := Vulnerability.make n.cveId reason [jstr "nvd"] n.description
        n.published n.lastModified n.cvssVersion (optStrOr n.baseScore (jstr "-1.0"))
        n.vector (n.cisaKnownExploited = 1)
        (jstr "https://nvd.nist.gov/vuln/detail/" ++ n.cveId)
      match RecMap.lookup vulns vuln.id with
      | some existing => RecMap.set vulns vuln.id (existing.merge vuln)
      | none => RecMap.set vulns vuln.id vuln

/-- `searchVulnsBasic(query, productIds, vulnDb, config, extraParams)`
(src/core.ts): the per-CPE NVD range search followed by the comma-split
CVE/GHSA id lookups (which overwrite rather than merge). -/
def searchVulnsBasic (query : JStr) (productIds : RecMap (List JStr))
    (db : VulnDb) : RecMap Vulnerability :=
  let cpes := (RecMap.lookup productIds (jstr "cpe")).getD []
  let vulns0 := cpes.foldl (fun vulns cpe =>
    let cpePfx := jsJoin [':'] ((jsSplitChar ':' cpe).take 5) ++ [':']
    let queryVersion := getCpeVersion cpe
    (nvdJoinRows db cpePfx).foldl (processNvdCpeRow cpe queryVersion) vulns) []
  let queries := (jsSplitChar ',' query).map jsTrim
  queries.foldl (fun vulns singleQuery =>
    let v1 :=
      match findCveMatch singleQuery with
      | none => vulns
      | some cveId =>
        let upper := jsToUpper cveId
        match db.nvd.find? (fun n => n.cveId = upper) with
        | none => vulns
        | some row =>
          let vuln := Vulnerability.make (optStrOr (some row.cveId) upper) .vulnId
            [jstr "nvd"] row.description row.published row.lastModified
            row.cvssVersion (optStrOr row.baseScore (jstr "-1.0")) row.vector
            (row.cisaKnownExploited = 1)
            (jstr "https://nvd.nist.gov/vuln/detail/" ++ upper)
          RecMap.set vulns vuln.id vuln
    match findGhsaMatch singleQuery with
    | none => v1
    | some ghsaId =>
      match db.ghsa.find? (fun g => g.ghsaId = ghsaId) with
      | none => v1
      | some row =>
        let vuln := Vulnerability.make (optStrOr (some row.ghsaId) ghsaId) .vulnId
          [jstr "ghsa"] row.description row.published row.lastModified
          row.cvssVersion (optStrOr row.baseScore (jstr "-1.0")) row.vector false
          (jstr "https://github.com/advisories/" ++ jsToUpper ghsaId)
        RecMap.set v1 vuln.id vuln) vulns0

/-- The three exploit-source lookups of `addExploitInfo` for one CVE id,
extending the record's exploit set. -/
def exploitsForCve (db : VulnDb) (exploits : List JStr) (cveId : JStr) : List JStr :=
  let e1 := (db.nvdExploitsRefs.filter (fun r => r.1 = cveId)).foldl
    (fun acc r => pushNew acc r.2) exploits
  let e2 :=
    match db.cveEdb.find? (fun r => r.1 = cveId) with
    | some r =>
      if r.2 ≠ [] then
        ((jsSplitChar ',' r.2).map jsTrim).foldl
          (fun acc eid => pushNew acc (jstr "https://www.exploit-db.com/exploits/" ++ eid))
          e1
      else e1
    | none => e1
  (db.pocInGithub.filter (fun r => r.1 = cveId)).foldl
    (fun acc r => if r.2 ≠ [] then pushNew acc r.2 else acc) e2

/-- `addExploitInfo(vulns, vulnDb)` (src/core.ts): for each record, collect
the CVE ids among its key and alias keys (in insertion order) and add the
exploit references found for them. -/
def addExploitInfo (vulns : RecMap Vulnerability) (db : VulnDb) :
    RecMap Vulnerability :=
  vulns.map (fun kv =>
    let cveIds0 : List JStr := if (jstr "CVE-").isPrefixOf kv.1 then [kv.1] else []
    let cveIds := kv.2.aliases.foldl
      (fun acc a => if (jstr "CVE-").isPrefixOf a.1 then pushNew acc a.1 else acc) cveIds0
    (kv.1, { kv.2 with exploits := cveIds.foldl (exploitsForCve db) kv.2.exploits }))

/-- Decimal representation of `n` left-padded with zeros to width `w`. -/
def natReprPad (w n : Nat) : JStr :=
  let s := natRepr n
  List.replicate (w - s.length) '0' ++ s

/-- `Number.prototype.toFixed(d)` on the exact fractional value: round to
`d` decimal digits, ties toward the larger candidate (as the specification
of `toFixed` demands; the sub-ULP deviations of binary doubles are below
every margin relevant here). -/
def toFixedFrac (d : Nat) (x : Frac) : JStr :=
  let scaled := x.mul (Frac.ofInt (10 ^ d))
  let n : Int := Int.fdiv (2 * scaled.num + scaled.den) (2 * scaled.den)
  let sign : JStr := if n < 0 then ['-'] else []
  let m := n.natAbs
  if d = 0 then sign ++ natRepr m
  else sign ++ natRepr (m / 10 ^ d) ++ ['.'] ++ natReprPad d (m % 10 ^ d)

/-- `addEPSSScores(vulns, vulnDb)` (src/utils/epss.ts, bundled inside
src/bun_version/src/utils/config.ts): skip unless the `cve_epss` table
exists; for each record collect the CVE ids among its key and alias keys,
take the row with the strictly highest non-null `epss` value (its
percentile, `-1` when null, rides along), and when one was found store the
score as `(maxEpss*100).toFixed(2) + '%'` — recording the percentile, when
present, as `(maxPercentile*100).toFixed(1) + '%'` under `epss_percentile`
in the record's `misc` map. -/
def addEPSSScores (vulns : RecMap Vulnerability) (db : VulnDb) :
    RecMap Vulnerability :=
  if ¬ db.hasEpssTable then vulns
  else
    vulns.map (fun kv =>
      let vulnCveIds0 : List JStr :=
        if (jstr "CVE-").isPrefixOf kv.1 then [kv.1] else []
      let vulnCveIds := kv.2.aliases.foldl
        (fun acc a => if (jstr "CVE-").isPrefixOf a.1 then pushNew acc a.1 else acc)
        vulnCveIds0
      let mm := vulnCveIds.foldl (fun (mm : Frac × Frac) cveId =>
        match db.cveEpss.find? (fun r => r.cveId = cveId) with
        | some row =>
          match row.epss with
          | some epssValue =>
            let percentileValue :=
              match row.percentile with
              | some p => p
              | none => Frac.ofInt (-1)
            if Frac.blt mm.1 epssValue then (epssValue, percentileValue) else mm
          | none => mm
        | none => mm) (Frac.ofInt (-1), Frac.ofInt (-1))
      if ¬ Frac.beq mm.1 (Frac.ofInt (-1)) then
        let v1 := { kv.2 with
          epss := toFixedFrac 2 (mm.1.mul (Frac.ofInt 100)) ++ ['%'] }
        if ¬ Frac.beq mm.2 (Frac.ofInt (-1)) then
          (kv.1, { v1 with misc := (RecMap.set v1.misc (jstr "epss_percentile")
            (toFixedFrac 1 (mm.2.mul (Frac.ofInt 100)) ++ ['%'])) })
        else (kv.1, v1)
      else kv)

/-- The post-search filter loop of `searchVulns`: drop
`GENERAL_PRODUCT_UNCERTAIN` records when requested, and
`SINGLE_HIGHER_VERSION` records unless requested. -/
def filterVulnsByOptions (ignoreGeneralProductVulns includeSingleVersionVulns : Bool)
    (vulns : RecMap Vulnerability) : RecMap Vulnerability :=
  vulns.filter (fun kv =>
    ¬ (ignoreGeneralProductVulns ∧ kv.2.matchReason = .generalProductUncertain) ∧
      ¬ (¬ includeSingleVersionVulns ∧ kv.2.matchReason = .singleHigherVersion))

/-- The patched-record filter of `searchVulns`. -/
def filterPatched (includePatched : Bool) (vulns : RecMap Vulnerability) :
    RecMap Vulnerability :=
  if includePatched then vulns else vulns.filter (fun kv => ¬ kv.2.isPatched)

/-- The process-wide state `searchVulns` runs against: the two databases'
contents, the module-level equivalence-graph cache with the three JSON
sources backing a fresh load, and the clock / date parser used by the EOL
enrichment. -/
structure SysState where
  vulnDbData : VulnDb
  productDbData : ProductDb
  equivCache : Option (RecMap (List JStr))
  depSrc : Option (RecMap (List JStr))
  manSrc : Option (RecMap (List JStr))
  debianSrc : Option (RecMap (List JStr))
  now : Int
  dateParse : JStr → Option Int

/-- The equivalence graph `getEquivalentCpes` runs against: the module
cache when loaded, otherwise a fresh `loadEquivalentCpes`. -/
def SysState.equivGraph (st : SysState) : RecMap (List JStr) :=
  match st.equivCache with
  | some g => g
  | none => loadEquivalentCpes st.depSrc st.manSrc st.debianSrc
      st.productDbData.productCpeCounts

/-- The connection ledger of one `searchVulns` call: which of the two
databases the call opened itself and which it closed before returning. -/
structure ConnLedger where
  openedVuln : Bool
  closedVuln : Bool
  openedProduct : Bool
  closedProduct : Bool
deriving DecidableEq, Repr

/-- The body of `searchVulns` between the connection opening and the EOL
enrichment (src/core.ts): query trimming, the product-id / potential-id
determination, the basic search with its enrichments and filters, and the
result record assembly.  `hasVulnDb` states whether a vulnerability
database connection (supplied or self-opened) is available. -/
def searchVulnsCore (query : JStr) (knownProductIds : Option (RecMap (List JStr)))
    (isProductIdQuery ignoreGeneralProductVulns includeSingleVersionVulns
      includePatched : Bool)
    (config : ConfigM) (skipVulnSearch hasVulnDb : Bool) (st : SysState) :
    SearchVulnsResult :=
      let queryProcessed := jsTrim query
      let productIds0 : RecMap (List JStr) :=
        match knownProductIds with
        | some m => m
        | none => [(jstr "cpe", [])]
      let (productIds, potProductIds) :=
        match knownProductIds with
        | some _ => (productIds0, ([] : RecMap (List (JStr × Frac))))
        | none =>
          if ¬ testCpe23 queryProcessed then
            let cpeSearchResult := search_cpes queryProcessed st.productDbData
              (some (match config.cpeSearchCount with
                | some n => if n ≠ 0 then n else 10
                | none => 10))
              (some (match config.cpeSearchThreshold with
                | some t => if ¬ Frac.beq t (Frac.ofInt 0) then t
                  else cpeSearchDefaultThreshold
                | none => cpeSearchDefaultThreshold))
              config.cpeSearchCount config.cpeSearchThreshold
            let pids :=
              if cpeSearchResult.cpes ≠ [] then
                let baseCpe := (cpeSearchResult.cpes.getD 0 ([], Frac.ofInt 0)).1
                RecMap.set productIds0 (jstr "cpe")
                  (if isProductIdQuery then [baseCpe]
                   else getEquivalentCpes baseCpe st.equivGraph)
              else productIds0
            let pot :=
              if cpeSearchResult.pot_cpes ≠ [] then
                RecMap.set ([] : RecMap (List (JStr × Frac))) (jstr "cpe")
                  cpeSearchResult.pot_cpes
              else []
            (pids, pot)
          else
            let cpeParts := jsSplitChar ':' queryProcessed
            let cpe :=
              if cpeParts.length < 13 then
                queryProcessed ++ (List.replicate (13 - cpeParts.length) (jstr ":*")).flatten
              else queryProcessed
            (RecMap.set productIds0 (jstr "cpe")
              (if isProductIdQuery then [cpe] else getEquivalentCpes cpe st.equivGraph),
             ([] : RecMap (List (JStr × Frac))))
      let vulns :=
        if ¬ skipVulnSearch ∧ hasVulnDb then
          filterVulnsByOptions ignoreGeneralProductVulns includeSingleVersionVulns
            (addEPSSScores
              (addExploitInfo (searchVulnsBasic queryProcessed productIds st.vulnDbData)
                st.vulnDbData)
              st.vulnDbData)
        else []
      let vulnsFinal := filterPatched includePatched vulns
      { product_ids := productIds, pot_product_ids := potProductIds,
        vulns := vulnsFinal, version_status := none }

/-- `searchVulns(query, knownProductIds, vulnDbConnection,
productDbConnection, isProductIdQuery, ignoreGeneralProductVulns,
includeSingleVersionVulns, includePatched, config, skipVulnSearch)`
(src/core.ts).  `vulnDbConn` / `productDbConn` state whether the caller
supplied the respective connection (a handle carries no data beyond the
state's tables).  The returned ledger records the call's open/close
effects; a thrown error propagates with the connections opened so far left
unclosed. -/
def searchVulns (query : JStr) (knownProductIds : Option (RecMap (List JStr)))
    (vulnDbConn productDbConn : Bool)
    (isProductIdQuery ignoreGeneralProductVulns includeSingleVersionVulns
      includePatched : Bool)
    (config : ConfigM) (skipVulnSearch : Bool) (st : SysState) :
    Except JsErr SearchVulnsResult × ConnLedger :=
  let openVuln := ¬ skipVulnSearch ∧ ¬ vulnDbConn
  match (if openVuln then getDatabaseConnection config.vulnDatabase else .ok ()) with
  | .error e => (.error e, ⟨false, false, false, false⟩)
  | .ok _ =>
    let openedVuln := openVuln
    match (if ¬ productDbConn then getDatabaseConnection config.productDatabase
      else .ok ()) with
    | .error e => (.error e, ⟨openedVuln, false, false, false⟩)
    | .ok _ =>
      let openedProduct := ¬ productDbConn
      let hasVulnDb := vulnDbConn ∨ openedVuln
      let result := searchVulnsCore query knownProductIds isProductIdQuery
        ignoreGeneralProductVulns includeSingleVersionVulns includePatched config
        skipVulnSearch hasVulnDb st
      match addEOLStatus result (if hasVulnDb then some st.vulnDbData else none)
        st.now st.dateParse with
      | .error e => (.error e, ⟨openedVuln, false, openedProduct, false⟩)
      | .ok result2 =>
        (.ok result2, ⟨openedVuln, openedVuln, openedProduct, openedProduct⟩)

/-!
## Proof-support definitions
-/

/-- Invariant of the DFS visited set: every visited node outside the pending
set `X` has all its dictionary neighbours visited. -/
def ExploredInv (g : RecMap (List JStr)) (X : List JStr) (raw : List JStr) : Prop :=
  ∀ n ∈ raw, n ∉ X → ∀ l, RecMap.lookup g n = some l → ∀ x ∈ l, x ∈ raw

/-- Number of dictionary entries whose key is not yet visited (the measure
showing the DFS fuel is never exhausted). -/
def keysNotIn (g : RecMap (List JStr)) (raw : List JStr) : Nat :=
  (g.filter (fun e => !decide (e.1 ∈ raw))).length

/-- Prepend a string to the head of a non-empty list (empty list: singleton);
describes how `splitOnPred` recombines across an append. -/
def prependToHead (x : JStr) : List JStr → List JStr
  | [] => [x]
  | y :: ys => (x ++ y) :: ys

/-- Adjacency lists only ever grow during the bidirectional pass: every
membership fact about an entry of `m` persists in `m'`. -/
def entriesGrow (m m' : RecMap (List JStr)) : Prop :=
  ∀ k x, x ∈ (RecMap.lookup m k).getD [] → x ∈ (RecMap.lookup m' k).getD []

/-!
## Theorems: claims C1, C2, C8
-/

theorem unitsLt_asymm : ∀ a b : List Nat, unitsLt a b = true → unitsLt b a = false := by
  intro a
  induction a with
  | nil =>
    intro b h
    cases b with
    | nil => simp [unitsLt] at h
    | cons y ys => simp [unitsLt]
  | cons x xs ih =>
    intro b h
    cases b with
    | nil => simp [unitsLt] at h
    | cons y ys =>
      simp only [unitsLt] at h ⊢
      rcases Nat.lt_trichotomy x y with hlt | heq | hgt
      · rw [if_neg (Nat.lt_asymm hlt), if_pos hlt]
      · subst heq
        rw [if_neg (Nat.lt_irrefl x), if_neg (Nat.lt_irrefl x)] at h ⊢
        exact ih ys h
      · rw [if_neg (Nat.lt_asymm hgt), if_pos hgt] at h
        exact absurd h (by simp)

theorem unitsLt_irrefl : ∀ a : List Nat, unitsLt a a = false := by
  intro a
  induction a with
  | nil => rfl
  | cons x xs ih => simp [unitsLt, ih]

theorem jsStrLt_asymm (x y : JStr) (h : jsStrLt x y = true) : jsStrLt y x = false :=
  unitsLt_asymm _ _ h

theorem jsStrLt_irrefl (x : JStr) : jsStrLt x x = false :=
  unitsLt_irrefl _

theorem strCaseCmp_antisymm (x y : JStr) :
    (if jsStrLt x y = true then (-1 : Int) else if jsStrLt y x = true then 1 else 0) =
      -(if jsStrLt y x = true then (-1 : Int) else if jsStrLt x y = true then 1 else 0) := by
  by_cases h1 : jsStrLt x y = true
  · simp [h1, jsStrLt_asymm x y h1]
  · by_cases h2 : jsStrLt y x = true
    · simp [h1, h2]
    · simp [h1, h2]

theorem cmpSeg_self (a : Seg) : cmpSeg a a = 0 := by
  cases a with
  | num n => simp [cmpSeg]
  | str s => simp [cmpSeg, jsStrLt_irrefl]

theorem cmpSeg_antisymm (a b : Seg) : cmpSeg a b = -cmpSeg b a := by
  cases a with
  | num x =>
    cases b with
    | num y =>
      simp only [cmpSeg]
      rcases Nat.lt_trichotomy x y with h | h | h
      · simp [h, Nat.lt_asymm h, Nat.not_lt_of_lt h]
      · subst h; simp
      · simp [h, Nat.lt_asymm h, Nat.not_lt_of_lt h]
    | str t => simpa only [cmpSeg] using strCaseCmp_antisymm _ _
  | str s =>
    cases b with
    | num y => simpa only [cmpSeg] using strCaseCmp_antisymm _ _
    | str t => simpa only [cmpSeg] using strCaseCmp_antisymm _ _

theorem compareParsed_self (l : List Seg) : compareParsed l l = 0 := by
  induction l with
  | nil => rfl
  | cons a as ih => simp [compareParsed, cmpSeg_self, ih]

theorem compareParsed_nil_antisymm : ∀ b : List Seg, zerosVersus b = -compareParsed b [] := by
  intro b
  induction b with
  | nil => rfl
  | cons y ys ih =>
    simp only [zerosVersus, compareParsed]
    rw [cmpSeg_antisymm (Seg.num 0) y]
    rcases eq_or_ne (cmpSeg y (Seg.num 0)) 0 with h | h
    · simpa [h] using ih
    · rw [if_neg (show ¬(-cmpSeg y (Seg.num 0) = 0) by omega), if_neg h]

theorem compareParsed_antisymm : ∀ a b : List Seg, compareParsed a b = -compareParsed b a := by
  intro a
  induction a with
  | nil =>
    intro b
    simpa only [compareParsed] using compareParsed_nil_antisymm b
  | cons x xs ih =>
    intro b
    cases b with
    | nil =>
      simp only [compareParsed, zerosVersus]
      have hanti := cmpSeg_antisymm x (Seg.num 0)
      rcases eq_or_ne (cmpSeg (Seg.num 0) x) 0 with h | h
      · have h2 : cmpSeg x (Seg.num 0) = 0 := by omega
        have h3 := compareParsed_nil_antisymm xs
        simp only [h, h2, if_pos]
        simp only [compareParsed] at h3 ⊢
        omega
      · have h2 : ¬ cmpSeg x (Seg.num 0) = 0 := by omega
        rw [if_neg h2, if_neg h]
        omega
    | cons y ys =>
      simp only [compareParsed]
      rw [cmpSeg_antisymm x y]
      rcases eq_or_ne (cmpSeg y x) 0 with h | h
      · simpa [h] using ih ys
      · rw [if_neg (show ¬(-cmpSeg y x = 0) by omega), if_neg h]

/-- C8: `compareVersions` is reflexive (`compare(a,a) = 0`) and antisymmetric
(`compare(a,b) = -compare(b,a)`), for all version strings, including the
mixed numeric/string fallback and the zero-padding of unequal-length
segment sequences. -/
theorem compareVersions_refl_antisymm :
    (∀ a : JStr, compareVersions a a = 0) ∧
    (∀ a b : JStr, compareVersions a b = -compareVersions b a) := by
  constructor
  · intro a
    exact compareParsed_self _
  · intro a b
    exact compareParsed_antisymm _ _

/-- C2 (counterexample): with version `''` and bounds `''`, `''` the claimed
equivalence fails: `compareVersions('','') = 0` satisfies both inclusive
bound conditions, yet `isVersionInRange('', '', true, '', true)` is `false`
(empty versions fail closed). -/
theorem isVersionInRange_iff_counterexample :
    ¬ (isVersionInRange (jstr "") (some (jstr "")) true (some (jstr "")) true = true ↔
        (0 ≤ compareVersions (jstr "") (jstr "") ∧ compareVersions (jstr "") (jstr "") ≤ 0)) := by
  decide

/-- C2 (amended): for every version string `v` and bound strings `s`, `e`
that are non-empty and not the wildcard `*`, `isVersionInRange(v,s,si,e,ei)`
holds iff `compareVersions(v,s)` satisfies the start condition (`≥ 0` when
inclusive, `> 0` when exclusive) and `compareVersions(v,e)` satisfies the
end condition (`≤ 0` when inclusive, `< 0` when exclusive), for every
combination of the two inclusivity flags. -/
theorem isVersionInRange_iff (v s e : JStr) (si ei : Bool)
    (hv : v ≠ [] ∧ v ≠ ['*']) (hs : s ≠ [] ∧ s ≠ ['*']) (he : e ≠ [] ∧ e ≠ ['*']) :
    isVersionInRange v (some s) si (some e) ei = true ↔
      ((if si then 0 ≤ compareVersions v s else 0 < compareVersions v s) ∧
       (if ei then compareVersions v e ≤ 0 else compareVersions v e < 0)) := by
  have hvs : ¬ (v = [] ∨ v = ['*']) := by
    rintro (h | h) <;> simp_all
  have hstr : optStrTruthy (some s) = true := by
    simp [optStrTruthy, hs.1]
  have hetr : optStrTruthy (some e) = true := by
    simp [optStrTruthy, he.1]
  have hsne : (some s : Option JStr) ≠ some ['*'] := by
    intro h; exact hs.2 (Option.some.inj h)
  have hene : (some e : Option JStr) ≠ some ['*'] := by
    intro h; exact he.2 (Option.some.inj h)
  simp only [isVersionInRange, hvs, if_false, hstr, hsne, hetr, hene, ne_eq,
    not_false_eq_true, and_self, if_true, Option.getD_some, true_and]
  cases si <;> cases ei <;>
    simp [Bool.and_eq_true, decide_eq_true_eq]

/-- C2 (witness for the amended theorem): the range check `1.5 ∈ [1.2, 2.0]`
with both bounds inclusive agrees with the comparator conditions. -/
theorem isVersionInRange_iff_witness :
    isVersionInRange (jstr "1.5") (some (jstr "1.2")) true (some (jstr "2.0")) true = true ↔
      ((if true then 0 ≤ compareVersions (jstr "1.5") (jstr "1.2")
        else 0 < compareVersions (jstr "1.5") (jstr "1.2")) ∧
       (if true then compareVersions (jstr "1.5") (jstr "2.0") ≤ 0
        else compareVersions (jstr "1.5") (jstr "2.0") < 0)) :=
  isVersionInRange_iff (jstr "1.5") (jstr "1.2") (jstr "2.0") true true
    (by decide) (by decide) (by decide)

/-- C1: the code violates the claim.  `parseVersion` on the falsy/wildcard
inputs `null`, `undefined`, `''`, `'*'` does return the empty sequence, and
`parseVersion("2024")` parses to the single numeric segment `2024` — but the
numeric input `2024` reaches `versionStr.split(...)`, which throws a
`TypeError` because numbers have no `split` method, contradicting the
claim's "does not throw" and the required equality with
`parseVersion("2024")`. -/
theorem parseVersionJS_number_throws :
    parseVersionJS (.vNum 2024) = .error .typeError ∧
    parseVersionJS (.vStr (jstr "2024")) = .ok [Seg.num 2024] ∧
    parseVersionJS .vNull = .ok [] ∧
    parseVersionJS .vUndef = .ok [] ∧
    parseVersionJS (.vStr (jstr "")) = .ok [] ∧
    parseVersionJS (.vStr (jstr "*")) = .ok [] := by
  refine ⟨rfl, ?_, rfl, rfl, rfl, rfl⟩
  rfl

/-!
## Generic lemmas: `pushNew`, `RecMap`
-/

theorem mem_pushNew {α : Type} [DecidableEq α] {l : List α} {a x : α} :
    x ∈ pushNew l a ↔ x ∈ l ∨ x = a := by
  unfold pushNew
  by_cases h : a ∈ l
  · rw [if_pos h]
    exact ⟨Or.inl, fun hx => hx.elim id (fun he => he ▸ h)⟩
  · rw [if_neg h]
    simp [List.mem_append]

theorem mem_foldl_pushNew {α : Type} [DecidableEq α] :
    ∀ (l b : List α) (x : α), x ∈ l.foldl pushNew b ↔ x ∈ b ∨ x ∈ l := by
  intro l
  induction l with
  | nil => simp
  | cons a as ih =>
    intro b x
    simp only [List.foldl_cons]
    rw [ih, mem_pushNew, List.mem_cons]
    tauto

theorem foldl_pushNew_of_subset {α : Type} [DecidableEq α] :
    ∀ (l b : List α), (∀ x ∈ l, x ∈ b) → l.foldl pushNew b = b := by
  intro l
  induction l with
  | nil => intro b _; rfl
  | cons a as ih =>
    intro b h
    simp only [List.foldl_cons]
    rw [show pushNew b a = b from if_pos (h a (List.mem_cons_self a as))]
    exact ih b fun x hx => h x (List.mem_cons_of_mem a hx)

theorem RecMap.lookup_set_self {α : Type} :
    ∀ (m : RecMap α) (k : JStr) (v : α), RecMap.lookup (RecMap.set m k v) k = some v := by
  intro m
  induction m with
  | nil => intro k v; simp [RecMap.set, RecMap.lookup]
  | cons e rest ih =>
    intro k v
    by_cases h : e.1 = k
    · simp [RecMap.set, h, RecMap.lookup]
    · simp only [RecMap.set, h, if_false, RecMap.lookup]
      exact ih k v

theorem RecMap.lookup_set_ne {α : Type} :
    ∀ (m : RecMap α) (k : JStr) (v : α) (k' : JStr), k ≠ k' →
      RecMap.lookup (RecMap.set m k v) k' = RecMap.lookup m k' := by
  intro m
  induction m with
  | nil =>
    intro k v k' h
    simp only [RecMap.set, RecMap.lookup, if_neg h]
  | cons e rest ih =>
    intro k v k' h
    by_cases he : e.1 = k
    · simp only [RecMap.set, he, if_true, RecMap.lookup]
      rw [if_neg h, if_neg (he ▸ h)]
    · simp only [RecMap.set, he, if_false, RecMap.lookup]
      by_cases he' : e.1 = k'
      · rw [if_pos he', if_pos he']
      · rw [if_neg he', if_neg he']
        exact ih k v k' h

theorem RecMap.mem_keys_of_lookup {α : Type} :
    ∀ (m : RecMap α) (k : JStr) (v : α), RecMap.lookup m k = some v → k ∈ RecMap.keys m := by
  intro m
  induction m with
  | nil => intro k v h; exact Option.noConfusion h
  | cons e rest ih =>
    intro k v h
    simp only [RecMap.lookup] at h
    by_cases he : e.1 = k
    · subst he
      simp only [RecMap.keys, List.map_cons]
      exact List.mem_cons_self _ _
    · rw [if_neg he] at h
      exact List.mem_cons_of_mem _ (ih k v h)

/-!
## Theorems: claim C7 (bidirectional pass)
-/

theorem entriesGrow_refl (m : RecMap (List JStr)) : entriesGrow m m :=
  fun _ _ h => h

theorem entriesGrow_trans {m1 m2 m3 : RecMap (List JStr)}
    (h1 : entriesGrow m1 m2) (h2 : entriesGrow m2 m3) : entriesGrow m1 m3 :=
  fun k x hx => h2 k x (h1 k x hx)

theorem biInner_grow (e : JStr) (os : List JStr) (m : RecMap (List JStr)) (o : JStr) :
    entriesGrow m (biInner e os m o) := by
  intro k x hx
  simp only [biInner]
  cases hl : RecMap.lookup m o with
  | none =>
    dsimp only
    by_cases hk : o = k
    · subst hk
      rw [hl] at hx
      simp at hx
    · rw [RecMap.lookup_set_ne _ _ _ _ hk]
      exact hx
  | some cur =>
    dsimp only
    by_cases he : e ∈ cur
    · rw [if_pos he]
      exact hx
    · rw [if_neg he]
      by_cases hk : o = k
      · subst hk
        rw [RecMap.lookup_set_self]
        rw [hl] at hx
        simp only [Option.getD_some] at hx ⊢
        exact List.mem_append_left _ hx
      · rw [RecMap.lookup_set_ne _ _ _ _ hk]
        exact hx

theorem foldl_biInner_grow (e : JStr) (os : List JStr) :
    ∀ (os' : List JStr) (m : RecMap (List JStr)),
      entriesGrow m (os'.foldl (biInner e os) m) := by
  intro os'
  induction os' with
  | nil => intro m; exact entriesGrow_refl m
  | cons o rest ih =>
    intro m
    simp only [List.foldl_cons]
    exact entriesGrow_trans (biInner_grow e os m o) (ih _)

theorem biOuter_grow (m : RecMap (List JStr)) (e : JStr) : entriesGrow m (biOuter m e) :=
  foldl_biInner_grow e _ _ m

theorem foldl_biOuter_grow :
    ∀ (ks : List JStr) (m : RecMap (List JStr)), entriesGrow m (ks.foldl biOuter m) := by
  intro ks
  induction ks with
  | nil => intro m; exact entriesGrow_refl m
  | cons k rest ih =>
    intro m
    simp only [List.foldl_cons]
    exact entriesGrow_trans (biOuter_grow m k) (ih _)

theorem biInner_sets_reverse (e : JStr) (os : List JStr) (m : RecMap (List JStr))
    (o : JStr) (ho : o ∈ os) :
    e ∈ (RecMap.lookup (biInner e os m o) o).getD [] := by
  simp only [biInner]
  have hrel : e ∈ os.map (fun c => if c = o then e else c) :=
    List.mem_map.mpr ⟨o, ho, by simp⟩
  cases hl : RecMap.lookup m o with
  | none =>
    dsimp only
    rw [RecMap.lookup_set_self]
    exact hrel
  | some cur =>
    dsimp only
    by_cases he : e ∈ cur
    · rw [if_pos he, hl]
      exact he
    · rw [if_neg he, RecMap.lookup_set_self]
      exact List.mem_append_right _ hrel

theorem foldl_biInner_reverse (e : JStr) (os : List JStr) :
    ∀ (os' : List JStr) (m : RecMap (List JStr)) (o : JStr), o ∈ os' → o ∈ os →
      e ∈ (RecMap.lookup (os'.foldl (biInner e os) m) o).getD [] := by
  intro os'
  induction os' with
  | nil => intro m o h; exact absurd h (List.not_mem_nil o)
  | cons a rest ih =>
    intro m o hmem hos
    simp only [List.foldl_cons]
    rcases List.mem_cons.mp hmem with rfl | hrest
    · exact foldl_biInner_grow e os rest _ o e (biInner_sets_reverse e os m o hos)
    · exact ih _ o hrest hos

theorem biOuter_reverse (m : RecMap (List JStr)) (A B : JStr)
    (h : B ∈ (RecMap.lookup m A).getD []) :
    A ∈ (RecMap.lookup (biOuter m A) B).getD [] :=
  foldl_biInner_reverse A _ _ m B h h

theorem ensureBidirectional_symm_pre (m0 : RecMap (List JStr)) (A B : JStr)
    (h : B ∈ (RecMap.lookup m0 A).getD []) :
    A ∈ (RecMap.lookup (ensureBidirectional m0) B).getD [] ∧
    B ∈ (RecMap.lookup (ensureBidirectional m0) A).getD [] := by
  constructor
  · obtain ⟨la, hla, _⟩ : ∃ la, RecMap.lookup m0 A = some la ∧ B ∈ la := by
      cases hl : RecMap.lookup m0 A with
      | none => rw [hl] at h; simp at h
      | some la => rw [hl] at h; exact ⟨la, rfl, h⟩
    have hkeys : A ∈ RecMap.keys m0 := RecMap.mem_keys_of_lookup m0 A la hla
    obtain ⟨ks1, ks2, hks⟩ := List.append_of_mem hkeys
    unfold ensureBidirectional
    rw [hks, List.foldl_append, List.foldl_cons]
    have h1 : B ∈ (RecMap.lookup (ks1.foldl biOuter m0) A).getD [] :=
      foldl_biOuter_grow ks1 m0 A B h
    have h2 : A ∈ (RecMap.lookup (biOuter (ks1.foldl biOuter m0) A) B).getD [] :=
      biOuter_reverse _ A B h1
    exact foldl_biOuter_grow ks2 _ B A h2
  · exact foldl_biOuter_grow _ m0 A B h

/-- C7 (counterexample): with only the manually curated source
`{P1: [P3, P2], P3: [P1]}` loaded, after graph construction the adjacency
list of `P2` contains `P3` (copied wholesale while reversing `P1 → P2`) but
the adjacency list of `P3` does not contain `P2` — the edge relation is not
symmetric. -/
theorem loadEquivalentCpes_symmetry_counterexample :
    jstr "cpe:2.3:a:v3:p3:" ∈
      (RecMap.lookup
        (loadEquivalentCpes none
          (some [(jstr "cpe:2.3:a:v1:p1:", [jstr "cpe:2.3:a:v3:p3:", jstr "cpe:2.3:a:v2:p2:"]),
                 (jstr "cpe:2.3:a:v3:p3:", [jstr "cpe:2.3:a:v1:p1:"])])
          none [])
        (jstr "cpe:2.3:a:v2:p2:")).getD [] ∧
    jstr "cpe:2.3:a:v2:p2:" ∉
      (RecMap.lookup
        (loadEquivalentCpes none
          (some [(jstr "cpe:2.3:a:v1:p1:", [jstr "cpe:2.3:a:v3:p3:", jstr "cpe:2.3:a:v2:p2:"]),
                 (jstr "cpe:2.3:a:v3:p3:", [jstr "cpe:2.3:a:v1:p1:"])])
          none [])
        (jstr "cpe:2.3:a:v3:p3:")).getD [] := by
  decide

/-- C7 (amended): after `loadEquivalentCpes` completes construction, every
edge that was recorded in the union of the three sources (the adjacency map
before the bidirectional pass) is symmetric: if B appears in the pre-pass
adjacency list of A, then afterwards A appears in the adjacency list of B
and B still appears in the adjacency list of A, regardless of which source
contributed the edge.  (Edges first introduced by the pass itself, which
copies whole neighbour lists, need not be symmetric.) -/
theorem loadEquivalentCpes_source_edges_symmetric
    (depSrc manSrc debianSrc : Option (RecMap (List JStr))) (counts : RecMap Int)
    (A B : JStr)
    (h : B ∈ (RecMap.lookup (unionDicts (sourceDicts depSrc manSrc debianSrc counts))
          A).getD []) :
    A ∈ (RecMap.lookup (loadEquivalentCpes depSrc manSrc debianSrc counts) B).getD [] ∧
    B ∈ (RecMap.lookup (loadEquivalentCpes depSrc manSrc debianSrc counts) A).getD [] :=
  ensureBidirectional_symm_pre _ A B h

/-- C7 (witness): a concrete manual-source edge `P1 → P2` is symmetric after
construction. -/
theorem loadEquivalentCpes_source_edges_symmetric_witness :
    jstr "cpe:2.3:a:v1:p1:" ∈
      (RecMap.lookup
        (loadEquivalentCpes none (some [(jstr "cpe:2.3:a:v1:p1:", [jstr "cpe:2.3:a:v2:p2:"])])
          none [])
        (jstr "cpe:2.3:a:v2:p2:")).getD [] ∧
    jstr "cpe:2.3:a:v2:p2:" ∈
      (RecMap.lookup
        (loadEquivalentCpes none (some [(jstr "cpe:2.3:a:v1:p1:", [jstr "cpe:2.3:a:v2:p2:"])])
          none [])
        (jstr "cpe:2.3:a:v1:p1:")).getD [] :=
  loadEquivalentCpes_source_edges_symmetric none
    (some [(jstr "cpe:2.3:a:v1:p1:", [jstr "cpe:2.3:a:v2:p2:"])]) none []
    (jstr "cpe:2.3:a:v1:p1:") (jstr "cpe:2.3:a:v2:p2:") (by decide)

/-!
## Theorems: claim C6 (transitive, reflexive expansion)
-/

theorem keysNotIn_le (g : RecMap (List JStr)) {r1 r2 : List JStr}
    (h : ∀ x ∈ r1, x ∈ r2) : keysNotIn g r2 ≤ keysNotIn g r1 := by
  unfold keysNotIn
  induction g with
  | nil => simp
  | cons e es ih =>
    simp only [List.filter_cons]
    by_cases h1 : e.1 ∈ r1
    · have h2 : e.1 ∈ r2 := h e.1 h1
      simpa [h1, h2] using ih
    · by_cases h2 : e.1 ∈ r2
      · simp [h1, h2]
        have hh := ih
        omega
      · simp [h1, h2]
        have hh := ih
        omega

theorem keysNotIn_lt (g : RecMap (List JStr)) {r1 r2 : List JStr} {node : JStr}
    {l : List JStr} (hlk : RecMap.lookup g node = some l) (h1 : node ∉ r1)
    (h2 : node ∈ r2) (hsub : ∀ x ∈ r1, x ∈ r2) : keysNotIn g r2 < keysNotIn g r1 := by
  induction g with
  | nil => exact Option.noConfusion hlk
  | cons e es ih =>
    simp only [RecMap.lookup] at hlk
    by_cases he : e.1 = node
    · have hle : keysNotIn es r2 ≤ keysNotIn es r1 := keysNotIn_le es hsub
      unfold keysNotIn at hle ⊢
      simp only [List.filter_cons]
      rw [he]
      simp [h1, h2]
      omega
    · rw [if_neg he] at hlk
      have hlt := ih hlk
      unfold keysNotIn at hlt ⊢
      simp only [List.filter_cons]
      by_cases hm2 : e.1 ∈ r2
      · by_cases hm1 : e.1 ∈ r1
        · simpa [hm1, hm2] using hlt
        · simp [hm1, hm2]
          omega
      · have hm1 : e.1 ∉ r1 := fun hx => hm2 (hsub e.1 hx)
        simp [hm1, hm2]
        omega

theorem keysNotIn_le_length (g : RecMap (List JStr)) (r : List JStr) :
    keysNotIn g r ≤ g.length :=
  List.length_filter_le _ _

theorem dfsAdd_spec (g : RecMap (List JStr)) :
    ∀ (fuel : Nat) (raw : List JStr) (node : JStr) (X : List JStr),
    ExploredInv g X raw → keysNotIn g raw < fuel →
    (∀ x ∈ raw, x ∈ (dfsAdd g fuel raw node).1) ∧
    (∀ l, RecMap.lookup g node = some l → node ∈ (dfsAdd g fuel raw node).1) ∧
    (∀ x ∈ (dfsAdd g fuel raw node).2, x ∈ (dfsAdd g fuel raw node).1) ∧
    ExploredInv g X (dfsAdd g fuel raw node).1 ∧
    (∀ l, RecMap.lookup g node = some l → node ∉ X →
      ∀ x ∈ l, x ∈ (dfsAdd g fuel raw node).1) ∧
    keysNotIn g (dfsAdd g fuel raw node).1 ≤ keysNotIn g raw := by
  intro fuel
  induction fuel with
  | zero =>
    intro raw node X _ hfuel
    omega
  | succ fuel ih =>
    intro raw node X hInv hfuel
    cases hlk : RecMap.lookup g node with
    | none =>
      simp only [dfsAdd, hlk]
      exact ⟨fun x hx => hx, fun l hl => Option.noConfusion hl,
        fun x hx => absurd hx (List.not_mem_nil x), hInv,
        fun l hl => Option.noConfusion hl, le_refl _⟩
    | some neighbors =>
      by_cases hm : node ∈ raw
      · simp only [dfsAdd, hlk, if_pos hm]
        refine ⟨fun x hx => hx, fun _ _ => hm, fun x hx => absurd hx (List.not_mem_nil x),
          hInv, ?_, le_refl _⟩
        intro l hl hX x hx
        obtain rfl : neighbors = l := Option.some.inj hl
        exact hInv node hm hX neighbors hlk x hx
      · simp only [dfsAdd, hlk, if_neg hm]
        have hInv1 : ExploredInv g (node :: X) (raw ++ [node]) := by
          intro n hn hnX l hl x hx
          have hne : n ≠ node := fun he => hnX (he ▸ List.mem_cons_self _ _)
          have hnr : n ∈ raw := by
            rcases List.mem_append.mp hn with h | h
            · exact h
            · exact absurd (List.mem_singleton.mp h) hne
          have hnX' : n ∉ X := fun hx2 => hnX (List.mem_cons_of_mem _ hx2)
          exact List.mem_append_left _ (hInv n hnr hnX' l hl x hx)
        have hsub1 : ∀ x ∈ raw, x ∈ raw ++ [node] := fun x hx => List.mem_append_left _ hx
        have hk1 : keysNotIn g (raw ++ [node]) < keysNotIn g raw :=
          keysNotIn_lt g hlk hm (List.mem_append_right _ (List.mem_singleton.mpr rfl)) hsub1
        have hkf : keysNotIn g (raw ++ [node]) < fuel := by omega
        -- inner fold specification
        have fold_spec : ∀ (ns : List JStr) (r add : List JStr),
            ExploredInv g (node :: X) r → (∀ x ∈ add, x ∈ r) → keysNotIn g r < fuel →
            (∀ x ∈ r, x ∈ (ns.foldl (dfsStepG (dfsAdd g fuel)) (r, add)).1) ∧
            (∀ x ∈ (ns.foldl (dfsStepG (dfsAdd g fuel)) (r, add)).2,
              x ∈ (ns.foldl (dfsStepG (dfsAdd g fuel)) (r, add)).1) ∧
            ExploredInv g (node :: X) (ns.foldl (dfsStepG (dfsAdd g fuel)) (r, add)).1 ∧
            (∀ x ∈ ns, x ∈ (ns.foldl (dfsStepG (dfsAdd g fuel)) (r, add)).1) ∧
            keysNotIn g (ns.foldl (dfsStepG (dfsAdd g fuel)) (r, add)).1 ≤ keysNotIn g r := by
          intro ns
          induction ns with
          | nil =>
            intro r add hInvR hadd hkR
            exact ⟨fun x hx => hx, hadd, hInvR,
              fun x hx => absurd hx (List.not_mem_nil x), le_refl _⟩
          | cons other rest ihn =>
            intro r add hInvR hadd hkR
            simp only [List.foldl_cons]
            by_cases ho : other ∈ r
            · rw [show dfsStepG (dfsAdd g fuel) (r, add) other = (r, add) from
                if_pos ho]
              obtain ⟨m1, m2, m3, m4, m5⟩ := ihn r add hInvR hadd hkR
              refine ⟨m1, m2, m3, ?_, m5⟩
              intro x hx
              rcases List.mem_cons.mp hx with rfl | hx'
              · exact m1 x ho
              · exact m4 x hx'
            · rw [show dfsStepG (dfsAdd g fuel) (r, add) other =
                  (pushNew (dfsAdd g fuel r other).1 other,
                   (dfsAdd g fuel r other).2.foldl pushNew (pushNew add other)) from by
                simp only [dfsStepG, if_neg ho]]
              obtain ⟨d1, d2, d3, d4, d5, d6⟩ := ih r other (node :: X) hInvR hkR
              set res := dfsAdd g fuel r other with hres
              have hr2mono : ∀ x ∈ r, x ∈ pushNew res.1 other :=
                fun x hx => mem_pushNew.mpr (Or.inl (d1 x hx))
              have hoin : other ∈ pushNew res.1 other := mem_pushNew.mpr (Or.inr rfl)
              have hInv2 : ExploredInv g (node :: X) (pushNew res.1 other) := by
                cases hlo : RecMap.lookup g other with
                | none =>
                  intro n hn hnX l hl x hx
                  have hn' : n ∈ res.1 := by
                    rcases mem_pushNew.mp hn with h | rfl
                    · exact h
                    · exact absurd (hlo ▸ hl) (by simp)
                  exact mem_pushNew.mpr (Or.inl (d4 n hn' hnX l hl x hx))
                | some lo =>
                  have : other ∈ res.1 := d2 lo hlo
                  rw [show pushNew res.1 other = res.1 from if_pos this]
                  exact d4
              have hadd2 : ∀ x ∈ res.2.foldl pushNew (pushNew add other),
                  x ∈ pushNew res.1 other := by
                intro x hx
                rcases (mem_foldl_pushNew _ _ _).mp hx with hx' | hx'
                · rcases mem_pushNew.mp hx' with hx'' | rfl
                  · exact hr2mono x (hadd x hx'')
                  · exact hoin
                · exact mem_pushNew.mpr (Or.inl (d3 x hx'))
              have hk2 : keysNotIn g (pushNew res.1 other) < fuel := by
                have k1 : keysNotIn g (pushNew res.1 other) ≤ keysNotIn g res.1 :=
                  keysNotIn_le g (fun x hx => mem_pushNew.mpr (Or.inl hx))
                omega
              obtain ⟨m1, m2, m3, m4, m5⟩ :=
                ihn (pushNew res.1 other) (res.2.foldl pushNew (pushNew add other))
                  hInv2 hadd2 hk2
              refine ⟨fun x hx => m1 x (hr2mono x hx), m2, m3, ?_, ?_⟩
              · intro x hx
                rcases List.mem_cons.mp hx with rfl | hx'
                · exact m1 x hoin
                · exact m4 x hx'
              · have k1 : keysNotIn g (pushNew res.1 other) ≤ keysNotIn g res.1 :=
                  keysNotIn_le g (fun x hx => mem_pushNew.mpr (Or.inl hx))
                omega
        obtain ⟨f1, f2, f3, f4, f5⟩ :=
          fold_spec neighbors (raw ++ [node]) [] hInv1
            (fun x hx => absurd hx (List.not_mem_nil x)) hkf
        set st := neighbors.foldl (dfsStepG (dfsAdd g fuel)) (raw ++ [node], []) with hst
        have hnodein : node ∈ st.1 :=
          f1 node (List.mem_append_right _ (List.mem_singleton.mpr rfl))
        refine ⟨fun x hx => f1 x (List.mem_append_left _ hx),
          fun _ _ => hnodein, f2, ?_, ?_, ?_⟩
        · intro n hn hnX l hl x hx
          by_cases hne : n = node
          · rw [hne, hlk] at hl
            obtain rfl : neighbors = l := Option.some.inj hl
            exact f4 x hx
          · exact f3 n hn (by
              intro hmem
              rcases List.mem_cons.mp hmem with h | h
              · exact hne h
              · exact hnX h) l hl x hx
        · intro l hl _ x hx
          obtain rfl : neighbors = l := Option.some.inj hl
          exact f4 x hx
        · omega

theorem computeRawEquiv_spec (g : RecMap (List JStr)) (apfx : JStr) :
    ∀ B ∈ (RecMap.lookup g apfx).getD [], ∀ lb, RecMap.lookup g B = some lb →
      ∀ x ∈ lb, x ∈ computeRawEquiv g apfx := by
  have main : ∀ (ns : List JStr) (raw : List JStr), ExploredInv g [] raw →
      (∀ x ∈ raw, x ∈ ns.foldl (fun raw p =>
          if p ∈ raw then raw
          else
            let res := dfsAdd g (g.length + 1) raw p
            res.2.foldl pushNew res.1) raw) ∧
      (∀ p ∈ ns, ∀ l, RecMap.lookup g p = some l → ∀ x ∈ l,
        x ∈ ns.foldl (fun raw p =>
          if p ∈ raw then raw
          else
            let res := dfsAdd g (g.length + 1) raw p
            res.2.foldl pushNew res.1) raw) ∧
      ExploredInv g [] (ns.foldl (fun raw p =>
          if p ∈ raw then raw
          else
            let res := dfsAdd g (g.length + 1) raw p
            res.2.foldl pushNew res.1) raw) := by
    intro ns
    induction ns with
    | nil =>
      intro raw hInv
      exact ⟨fun x hx => hx, fun p hp => absurd hp (List.not_mem_nil p), hInv⟩
    | cons p rest ihn =>
      intro raw hInv
      simp only [List.foldl_cons]
      by_cases hp : p ∈ raw
      · rw [if_pos hp]
        obtain ⟨m1, m2, m3⟩ := ihn raw hInv
        refine ⟨m1, ?_, m3⟩
        intro q hq l hl x hx
        rcases List.mem_cons.mp hq with rfl | hq'
        · exact m1 x (hInv q hp (List.not_mem_nil q) l hl x hx)
        · exact m2 q hq' l hl x hx
      · rw [if_neg hp]
        have hkk : keysNotIn g raw < g.length + 1 := by
          have := keysNotIn_le_length g raw
          omega
        obtain ⟨d1, d2, d3, d4, d5, d6⟩ := dfsAdd_spec g (g.length + 1) raw p [] hInv hkk
        have hcollapse : (dfsAdd g (g.length + 1) raw p).2.foldl pushNew
            (dfsAdd g (g.length + 1) raw p).1 = (dfsAdd g (g.length + 1) raw p).1 :=
          foldl_pushNew_of_subset _ _ d3
        simp only [hcollapse]
        obtain ⟨m1, m2, m3⟩ := ihn (dfsAdd g (g.length + 1) raw p).1 d4
        refine ⟨fun x hx => m1 x (d1 x hx), ?_, m3⟩
        intro q hq l hl x hx
        rcases List.mem_cons.mp hq with rfl | hq'
        · exact m1 x (d5 l hl (List.not_mem_nil q) x hx)
        · exact m2 q hq' l hl x hx
  intro B hB lb hlb x hx
  unfold computeRawEquiv
  exact (main ((RecMap.lookup g apfx).getD []) [] (by
    intro n hn
    exact absurd hn (List.not_mem_nil n))).2.1 B hB lb hlb x hx

theorem splitOnPred_ne_nil (p : Char → Bool) : ∀ s : JStr, splitOnPred p s ≠ [] := by
  intro s
  cases s with
  | nil => simp [splitOnPred]
  | cons c cs =>
    simp only [splitOnPred]
    by_cases hc : p c
    · simp [hc]
    · simp only [hc, if_false, Bool.false_eq_true]
      cases splitOnPred p cs <;> simp

theorem splitOnPred_parts_clean (p : Char → Bool) :
    ∀ (s part : JStr), part ∈ splitOnPred p s → ∀ ch ∈ part, p ch = false := by
  intro s
  induction s with
  | nil =>
    intro part hp ch hch
    simp only [splitOnPred, List.mem_singleton] at hp
    subst hp
    exact absurd hch (List.not_mem_nil ch)
  | cons c cs ih =>
    intro part hp ch hch
    simp only [splitOnPred] at hp
    by_cases hc : p c
    · rw [if_pos hc] at hp
      rcases List.mem_cons.mp hp with rfl | hp'
      · exact absurd hch (List.not_mem_nil ch)
      · exact ih part hp' ch hch
    · rw [if_neg hc] at hp
      cases hrest : splitOnPred p cs with
      | nil => exact absurd hrest (splitOnPred_ne_nil p cs)
      | cons r rs =>
        rw [hrest] at hp
        rcases List.mem_cons.mp hp with rfl | hp'
        · rcases List.mem_cons.mp hch with rfl | hch'
          · exact Bool.eq_false_iff.mpr hc
          · exact ih r (hrest ▸ List.mem_cons_self r rs) ch hch'
        · exact ih part (hrest ▸ List.mem_cons_of_mem r hp') ch hch

theorem jsJoin_cons_cons (sep : JStr) (c : Char) (r : JStr) (rs : List JStr) :
    jsJoin sep ((c :: r) :: rs) = c :: jsJoin sep (r :: rs) := by
  cases rs with
  | nil => rfl
  | cons x xs => rfl

theorem jsJoin_splitOnPred (sep : Char) :
    ∀ s : JStr, jsJoin [sep] (splitOnPred (fun c => c = sep) s) = s := by
  intro s
  induction s with
  | nil => rfl
  | cons c cs ih =>
    simp only [splitOnPred]
    by_cases hc : (c = sep : Bool)
    · rw [if_pos hc]
      have hc' : c = sep := by simpa using hc
      cases hrest : splitOnPred (fun c => c = sep) cs with
      | nil => exact absurd hrest (splitOnPred_ne_nil _ cs)
      | cons r rs =>
        rw [hrest] at ih
        show jsJoin [sep] ([] :: r :: rs) = c :: cs
        show [] ++ [sep] ++ jsJoin [sep] (r :: rs) = c :: cs
        rw [ih, hc']
        rfl
    · rw [if_neg hc]
      cases hrest : splitOnPred (fun c => c = sep) cs with
      | nil => exact absurd hrest (splitOnPred_ne_nil _ cs)
      | cons r rs =>
        rw [hrest] at ih
        show jsJoin [sep] ((c :: r) :: rs) = c :: cs
        rw [jsJoin_cons_cons, ih]

theorem splitOnPred_append_sep (p : Char → Bool) (c0 : Char) (hc : p c0 = true) :
    ∀ (f t : JStr), (∀ ch ∈ f, p ch = false) →
      splitOnPred p (f ++ c0 :: t) = f :: splitOnPred p t := by
  intro f
  induction f with
  | nil =>
    intro t _
    simp [splitOnPred, hc]
  | cons a f' ih =>
    intro t hcl
    have ha : p a = false := hcl a (List.mem_cons_self a f')
    simp only [List.cons_append, splitOnPred, List.append_eq]
    rw [if_neg (by simp [ha])]
    rw [ih t (fun ch hch => hcl ch (List.mem_cons_of_mem a hch))]

theorem cpeProductPart_of_canonical (C t : JStr) (f1 f2 f3 f4 f5 : JStr)
    (hsplit : jsSplitChar ':' C = [f1, f2, f3, f4, f5, []]) :
    cpeProductPart (C ++ t) = C ∧ cpeProductPart C = C := by
  have hclean : ∀ f ∈ [f1, f2, f3, f4, f5], ∀ ch ∈ f, decide (ch = ':') = false := by
    intro f hf ch hch
    refine splitOnPred_parts_clean (fun c => decide (c = ':')) C f ?_ ch hch
    show f ∈ jsSplitChar ':' C
    rw [hsplit]
    simp only [List.mem_cons] at hf ⊢
    tauto
  have hC : C = f1 ++ ':' :: (f2 ++ ':' :: (f3 ++ ':' :: (f4 ++ ':' :: (f5 ++ ':' :: [])))) := by
    have hjs := jsJoin_splitOnPred ':' C
    rw [show splitOnPred (fun c => decide (c = ':')) C = jsSplitChar ':' C from rfl,
      hsplit] at hjs
    rw [← hjs]
    simp [jsJoin, List.append_assoc]
  have hsplitCt : jsSplitChar ':' (C ++ t) =
      [f1, f2, f3, f4, f5] ++ jsSplitChar ':' t := by
    rw [hC]
    show splitOnPred (fun c => decide (c = ':')) _ = _
    simp only [List.append_assoc, List.cons_append, List.nil_append]
    rw [splitOnPred_append_sep _ ':' (by simp) f1 _ (fun ch hch => hclean f1 (by simp) ch hch)]
    rw [splitOnPred_append_sep _ ':' (by simp) f2 _ (fun ch hch => hclean f2 (by simp) ch hch)]
    rw [splitOnPred_append_sep _ ':' (by simp) f3 _ (fun ch hch => hclean f3 (by simp) ch hch)]
    rw [splitOnPred_append_sep _ ':' (by simp) f4 _ (fun ch hch => hclean f4 (by simp) ch hch)]
    rw [splitOnPred_append_sep _ ':' (by simp) f5 _ (fun ch hch => hclean f5 (by simp) ch hch)]
    try rfl
  constructor
  · unfold cpeProductPart
    rw [hsplitCt]
    rw [show ([f1, f2, f3, f4, f5] ++ jsSplitChar ':' t).take 5 =
        [f1, f2, f3, f4, f5] from by simp]
    rw [hC]
    simp [jsJoin, List.append_assoc]
  · unfold cpeProductPart
    rw [hsplit]
    rw [show ([f1, f2, f3, f4, f5, ([] : JStr)]).take 5 = [f1, f2, f3, f4, f5] from by simp]
    rw [hC]
    simp [jsJoin, List.append_assoc]

theorem gen_mem_getEquivalentCpes (cpe : JStr) (g : RecMap (List JStr)) (E : JStr)
    (hE : E ∈ computeRawEquiv g (cpeProductPart cpe)) (hne : E ≠ cpeProductPart cpe) :
    cpeProductPart E ++ jsJoin [':'] ((jsSplitChar ':' cpe).drop 5) ∈
      getEquivalentCpes cpe g := by
  simp only [getEquivalentCpes]
  apply List.mem_append_left
  apply List.mem_append_right
  apply List.mem_flatMap.mpr
  refine ⟨cpe, ?_, ?_⟩
  · split_ifs <;> simp
  · apply List.mem_filterMap.mpr
    refine ⟨E, hE, ?_⟩
    rw [if_pos hne]

/-- C6: the expansion returned by `getEquivalentCpes` always contains the
original input CPE itself (reflexivity); and whenever prefix-level
equivalences A↔B and B↔C are loaded (B in A's adjacency list and C in B's),
the expansion of a CPE whose product prefix is A contains at least one CPE
whose product prefix is C — transitive reachability, not one-hop.  (`C`'s
canonical prefix shape is expressed by its colon split being five fields
plus a trailing empty field.) -/
theorem getEquivalentCpes_reflexive_transitive :
    (∀ (cpe : JStr) (g : RecMap (List JStr)), cpe ∈ getEquivalentCpes cpe g) ∧
    (∀ (g : RecMap (List JStr)) (cpe A B C : JStr) (la lb : List JStr)
      (f1 f2 f3 f4 f5 : JStr),
      cpeProductPart cpe = A →
      RecMap.lookup g A = some la → B ∈ la →
      RecMap.lookup g B = some lb → C ∈ lb →
      jsSplitChar ':' C = [f1, f2, f3, f4, f5, []] →
      ∃ e ∈ getEquivalentCpes cpe g, cpeProductPart e = C) := by
  constructor
  · intro cpe g
    simp only [getEquivalentCpes]
    apply List.mem_append_left
    apply List.mem_append_left
    split_ifs <;> simp
  · intro g cpe A B C la lb f1 f2 f3 f4 f5 hA hla hB hlb hC hsplit
    by_cases hCA : C = A
    · refine ⟨cpe, ?_, ?_⟩
      · simp only [getEquivalentCpes]
        apply List.mem_append_left
        apply List.mem_append_left
        split_ifs <;> simp
      · rw [hA, hCA]
    · have hBin : B ∈ (RecMap.lookup g A).getD [] := by
        rw [hla]
        exact hB
      have hCraw : C ∈ computeRawEquiv g A := computeRawEquiv_spec g A B hBin lb hlb C hC
      have hCraw' : C ∈ computeRawEquiv g (cpeProductPart cpe) := by
        rw [hA]
        exact hCraw
      have hne : C ≠ cpeProductPart cpe := by
        rw [hA]
        exact hCA
      refine ⟨cpeProductPart C ++ jsJoin [':'] ((jsSplitChar ':' cpe).drop 5),
        gen_mem_getEquivalentCpes cpe g C hCraw' hne, ?_⟩
      obtain ⟨hCt, hCC⟩ := cpeProductPart_of_canonical C
        (jsJoin [':'] ((jsSplitChar ':' cpe).drop 5)) f1 f2 f3 f4 f5 hsplit
      rw [hCC]
      exact cpeProductPart_of_canonical C _ f1 f2 f3 f4 f5 hsplit |>.1

/-- C6 (witness): in the loaded graph `{A:[B], B:[A,C], C:[B]}` the expansion
of `cpe:2.3:a:va:pa:6.0:...` contains itself and a CPE under prefix
`cpe:2.3:a:vc:pc:`, reached transitively through B. -/
theorem getEquivalentCpes_reflexive_transitive_witness :
    (jstr "cpe:2.3:a:va:pa:6.0:*:*:*:*:*:*:*" ∈
      getEquivalentCpes (jstr "cpe:2.3:a:va:pa:6.0:*:*:*:*:*:*:*")
        [(jstr "cpe:2.3:a:va:pa:", [jstr "cpe:2.3:a:vb:pb:"]),
         (jstr "cpe:2.3:a:vb:pb:", [jstr "cpe:2.3:a:va:pa:", jstr "cpe:2.3:a:vc:pc:"]),
         (jstr "cpe:2.3:a:vc:pc:", [jstr "cpe:2.3:a:vb:pb:"])]) ∧
    (∃ e ∈ getEquivalentCpes (jstr "cpe:2.3:a:va:pa:6.0:*:*:*:*:*:*:*")
        [(jstr "cpe:2.3:a:va:pa:", [jstr "cpe:2.3:a:vb:pb:"]),
         (jstr "cpe:2.3:a:vb:pb:", [jstr "cpe:2.3:a:va:pa:", jstr "cpe:2.3:a:vc:pc:"]),
         (jstr "cpe:2.3:a:vc:pc:", [jstr "cpe:2.3:a:vb:pb:"])],
      cpeProductPart e = jstr "cpe:2.3:a:vc:pc:") := by
  constructor
  · exact getEquivalentCpes_reflexive_transitive.1 _ _
  · exact getEquivalentCpes_reflexive_transitive.2 _ _
      (jstr "cpe:2.3:a:va:pa:") (jstr "cpe:2.3:a:vb:pb:") (jstr "cpe:2.3:a:vc:pc:")
      [jstr "cpe:2.3:a:vb:pb:"] [jstr "cpe:2.3:a:va:pa:", jstr "cpe:2.3:a:vc:pc:"]
      (jstr "cpe") (jstr "2.3") (jstr "a") (jstr "vc") (jstr "pc")
      (by decide) (by decide) (by decide) (by decide) (by decide) (by decide)

/-- Shape of `addEOLStatus`'s outcomes: the result unchanged, the result
with only `version_status` newly set, or a propagated error. -/
theorem addEOLStatus_shape (r : SearchVulnsResult) (db : Option VulnDb) (now : Int)
    (dp : JStr → Option Int) :
    addEOLStatus r db now dp = .ok r ∨
    (∃ vs, addEOLStatus r db now dp = .ok { r with version_status := some vs }) ∨
    (∃ e, addEOLStatus r db now dp = .error e) := by
  cases db with
  | none => exact .inl rfl
  | some vdb =>
    simp only [addEOLStatus]
    split_ifs with h1 h2
    · exact .inl rfl
    · split
      · exact .inr (.inr ⟨_, rfl⟩)
      · exact .inl rfl
      · exact .inr (.inl ⟨_, rfl⟩)
    · exact .inl rfl

/-- Shape of `addXeolEOLStatus`'s returned result: unchanged, or with only
`version_status` newly set. -/
theorem addXeolEOLStatus_shape (r : SearchVulnsResult) (db : Option XeolDb)
    (cache : RecMap (Option JStr)) (now : Int) (dp : JStr → Option Int) :
    (addXeolEOLStatus r db cache now dp).2 = r ∨
    ∃ vs, (addXeolEOLStatus r db cache now dp).2 =
      { r with version_status := some vs } := by
  cases db with
  | none => exact .inl rfl
  | some xdb =>
    simp only [addXeolEOLStatus]
    split_ifs with h1
    · exact .inl rfl
    · split
      · exact .inl rfl
      · exact .inr ⟨_, rfl⟩

/-- C10: when the incoming result already carries a `version_status`, both
`addEOLStatus` and `addXeolEOLStatus` return it entirely unchanged (an
earlier EOL source is never overwritten), and in every case
`version_status` is the only field of the result either function may
change. -/
theorem eol_enrichers_frame :
    (∀ (r : SearchVulnsResult) (db : Option VulnDb) (now : Int)
        (dp : JStr → Option Int), r.version_status.isSome →
        addEOLStatus r db now dp = .ok r) ∧
    (∀ (r r' : SearchVulnsResult) (db : Option VulnDb) (now : Int)
        (dp : JStr → Option Int), addEOLStatus r db now dp = .ok r' →
        r'.product_ids = r.product_ids ∧ r'.pot_product_ids = r.pot_product_ids ∧
          r'.vulns = r.vulns) ∧
    (∀ (r : SearchVulnsResult) (db : Option XeolDb) (cache : RecMap (Option JStr))
        (now : Int) (dp : JStr → Option Int), r.version_status.isSome →
        (addXeolEOLStatus r db cache now dp).2 = r) ∧
    (∀ (r : SearchVulnsResult) (db : Option XeolDb) (cache : RecMap (Option JStr))
        (now : Int) (dp : JStr → Option Int),
        (addXeolEOLStatus r db cache now dp).2.product_ids = r.product_ids ∧
        (addXeolEOLStatus r db cache now dp).2.pot_product_ids = r.pot_product_ids ∧
        (addXeolEOLStatus r db cache now dp).2.vulns = r.vulns) := by
  refine ⟨?_, ?_, ?_, ?_⟩
  · intro r db now dp h
    cases db with
    | none => rfl
    | some vdb => simp only [addEOLStatus, h, if_true]
  · intro r r' db now dp h
    rcases addEOLStatus_shape r db now dp with hs | ⟨vs, hs⟩ | ⟨e, hs⟩
    · rw [hs] at h
      injection h with h
      subst h
      exact ⟨rfl, rfl, rfl⟩
    · rw [hs] at h
      injection h with h
      subst h
      exact ⟨rfl, rfl, rfl⟩
    · rw [hs] at h
      exact absurd h (by simp)
  · intro r db cache now dp h
    cases db with
    | none => rfl
    | some xdb => simp only [addXeolEOLStatus, h, if_true]
  · intro r db cache now dp
    rcases addXeolEOLStatus_shape r db cache now dp with hs | ⟨vs, hs⟩ <;>
      rw [hs] <;> exact ⟨rfl, rfl, rfl⟩

/-- C10 (witness): a result already carrying an `eol` status passes through
both enrichers unchanged against concrete databases, and the xeol enricher
never touches the other fields. -/
theorem eol_enrichers_frame_witness :
    addEOLStatus
      ⟨[(jstr "cpe", [jstr "cpe:2.3:a:v:p:1.0:*:*:*:*:*:*:*"])], [], [],
        some ⟨jstr "eol", jstr "2.0", jstr "https://endoflife.date/p"⟩⟩
      (some ⟨[], [], [], [], [], [], [], true, false, []⟩) 0 (fun _ => none) =
      .ok ⟨[(jstr "cpe", [jstr "cpe:2.3:a:v:p:1.0:*:*:*:*:*:*:*"])], [], [],
        some ⟨jstr "eol", jstr "2.0", jstr "https://endoflife.date/p"⟩⟩ ∧
    (addXeolEOLStatus
      ⟨[(jstr "cpe", [jstr "cpe:2.3:a:v:p:1.0:*:*:*:*:*:*:*"])], [], [],
        some ⟨jstr "eol", jstr "2.0", jstr "https://endoflife.date/p"⟩⟩
      (some ⟨[], []⟩) [] 0 (fun _ => none)).2 =
      ⟨[(jstr "cpe", [jstr "cpe:2.3:a:v:p:1.0:*:*:*:*:*:*:*"])], [], [],
        some ⟨jstr "eol", jstr "2.0", jstr "https://endoflife.date/p"⟩⟩ :=
  ⟨eol_enrichers_frame.1 _ _ 0 (fun _ => none) rfl,
   eol_enrichers_frame.2.2.1 _ _ [] 0 (fun _ => none) rfl⟩

/-- C9 (counterexample): with a configuration whose product-database
section has no `NAME`, `searchVulns` opens the vulnerability database, then
throws while opening the product database — and returns with the
self-opened vulnerability connection left unclosed, contradicting "it
closes exactly those connections it opened itself". -/
theorem searchVulns_closes_opened_counterexample :
    searchVulns (jstr "CVE-2024-27286") none false false false false false false
      ⟨⟨none, some (jstr "vuln.db")⟩, ⟨none, none⟩, none, none⟩ false
      ⟨⟨[], [], [], [], [], [], [], true, false, []⟩, ⟨[], [], []⟩, some [], none, none,
        none, 0, fun _ => none⟩ =
    (.error (.jsError (jstr "Database NAME is required for SQLite")),
     ⟨true, false, false, false⟩) := by
  rfl

/-- C9 (amended): a supplied connection is never opened or closed by the
call in any outcome; on a normal return the call closes exactly the
connections it opened itself; when an error propagates, nothing is closed
(connections opened before the throw leak). -/
theorem searchVulns_connection_discipline (query : JStr)
    (kpi : Option (RecMap (List JStr))) (vc pc ipq ig isv ip : Bool)
    (cfg : ConfigM) (skip : Bool) (st : SysState)
    (out : Except JsErr SearchVulnsResult × ConnLedger)
    (hout : out = searchVulns query kpi vc pc ipq ig isv ip cfg skip st) :
    (vc = true → out.2.openedVuln = false ∧ out.2.closedVuln = false) ∧
    (pc = true → out.2.openedProduct = false ∧ out.2.closedProduct = false) ∧
    (∀ r, out.1 = .ok r → out.2.closedVuln = out.2.openedVuln ∧
      out.2.closedProduct = out.2.openedProduct) ∧
    (∀ e, out.1 = .error e → out.2.closedVuln = false ∧
      out.2.closedProduct = false) := by
  subst hout
  simp only [searchVulns]
  split
  · refine ⟨fun hv => ⟨rfl, rfl⟩, fun hp => ⟨rfl, rfl⟩, fun r hr => ?_,
      fun e he => ⟨rfl, rfl⟩⟩
    exact absurd hr (by simp)
  · split
    · refine ⟨fun hv => ⟨by simp [hv], rfl⟩, fun hp => ⟨rfl, rfl⟩,
        fun r hr => ?_, fun e he => ⟨rfl, rfl⟩⟩
      exact absurd hr (by simp)
    · split
      · refine ⟨fun hv => ⟨by simp [hv], rfl⟩, fun hp => ⟨by simp [hp], rfl⟩,
          fun r hr => ?_, fun e he => ⟨rfl, rfl⟩⟩
        exact absurd hr (by simp)
      · refine ⟨fun hv => ⟨by simp [hv], by simp [hv]⟩,
          fun hp => ⟨by simp [hp], by simp [hp]⟩,
          fun r hr => ⟨rfl, rfl⟩, fun e he => ?_⟩
        exact absurd he (by simp)

/-- C9 (witness): a call with both connections supplied and vulnerability
search skipped returns normally, opening and closing nothing. -/
theorem searchVulns_connection_discipline_witness :
    ((searchVulns (jstr "q") (some [(jstr "cpe", [])]) true true false false false
        false ⟨⟨none, none⟩, ⟨none, none⟩, none, none⟩ true
        ⟨⟨[], [], [], [], [], [], [], false, false, []⟩, ⟨[], [], []⟩, some [], none, none,
          none, 0, fun _ => none⟩).2.openedVuln = false ∧
     (searchVulns (jstr "q") (some [(jstr "cpe", [])]) true true false false false
        false ⟨⟨none, none⟩, ⟨none, none⟩, none, none⟩ true
        ⟨⟨[], [], [], [], [], [], [], false, false, []⟩, ⟨[], [], []⟩, some [], none, none,
          none, 0, fun _ => none⟩).2.closedVuln = false) ∧
    ((searchVulns (jstr "q") (some [(jstr "cpe", [])]) true true false false false
        false ⟨⟨none, none⟩, ⟨none, none⟩, none, none⟩ true
        ⟨⟨[], [], [], [], [], [], [], false, false, []⟩, ⟨[], [], []⟩, some [], none, none,
          none, 0, fun _ => none⟩).2.openedProduct = false ∧
     (searchVulns (jstr "q") (some [(jstr "cpe", [])]) true true false false false
        false ⟨⟨none, none⟩, ⟨none, none⟩, none, none⟩ true
        ⟨⟨[], [], [], [], [], [], [], false, false, []⟩, ⟨[], [], []⟩, some [], none, none,
          none, 0, fun _ => none⟩).2.closedProduct = false) :=
  ⟨(searchVulns_connection_discipline (jstr "q") (some [(jstr "cpe", [])]) true true
      false false false false ⟨⟨none, none⟩, ⟨none, none⟩, none, none⟩ true
      ⟨⟨[], [], [], [], [], [], [], false, false, []⟩, ⟨[], [], []⟩, some [], none, none,
        none, 0, fun _ => none⟩ _ rfl).1 rfl,
   (searchVulns_connection_discipline (jstr "q") (some [(jstr "cpe", [])]) true true
      false false false false ⟨⟨none, none⟩, ⟨none, none⟩, none, none⟩ true
      ⟨⟨[], [], [], [], [], [], [], false, false, []⟩, ⟨[], [], []⟩, some [], none, none,
        none, 0, fun _ => none⟩ _ rfl).2.1 rfl⟩

/-- Any guarded filter pipeline value has the `filterPatched ∘
filterVulnsByOptions` shape (with the empty list when the guard is off). -/
theorem filter_shape_aux (ip ig isv : Bool) (c : Prop) [Decidable c]
    (L : RecMap Vulnerability) :
    ∃ l, filterPatched ip (if c then filterVulnsByOptions ig isv L else []) =
      filterPatched ip (filterVulnsByOptions ig isv l) := by
  by_cases h : c
  · exact ⟨L, by rw [if_pos h]⟩
  · exact ⟨[], by rw [if_neg h]; rfl⟩

/-- The vulnerability map assembled by `searchVulnsCore` always factors
through the two post-search filters. -/
theorem searchVulnsCore_vulns_shape (q : JStr) (kpi : Option (RecMap (List JStr)))
    (ipq ig isv ip : Bool) (cfg : ConfigM) (skip hv : Bool) (st : SysState) :
    ∃ l, (searchVulnsCore q kpi ipq ig isv ip cfg skip hv st).vulns =
      filterPatched ip (filterVulnsByOptions ig isv l) :=
  filter_shape_aux ip ig isv _ _

/-- Membership in the patched-filter output implies membership in its
input. -/
theorem mem_filterPatched {ip : Bool} {l : RecMap Vulnerability}
    {kv : JStr × Vulnerability} (h : kv ∈ filterPatched ip l) : kv ∈ l := by
  unfold filterPatched at h
  split_ifs at h
  · exact h
  · exact (List.mem_filter.1 h).1

/-- With the suppress flag set, no record surviving `filterVulnsByOptions`
is classified `GENERAL_PRODUCT_UNCERTAIN`. -/
theorem filterVulnsByOptions_no_gpu {isv : Bool} {l : RecMap Vulnerability}
    {kv : JStr × Vulnerability} (h : kv ∈ filterVulnsByOptions true isv l) :
    kv.2.matchReason ≠ .generalProductUncertain := by
  intro hgpu
  have hf := (List.mem_filter.1 h).2
  simp only [decide_eq_true_eq] at hf
  exact hf.1 ⟨trivial, hgpu⟩

/-- C5: a concrete query version against a stored row with no version range
whose own CPE version is the unbounded wildcard is classified
`GENERAL_PRODUCT_UNCERTAIN`; and with the suppress flag
(`ignoreGeneralProductVulns`) set, no record of any successfully returned
result is classified `GENERAL_PRODUCT_UNCERTAIN`. -/
theorem general_product_uncertain_class_and_suppression :
    (∀ (queryVersion : JStr) (nc : NvdCpeRow),
      queryVersion ≠ [] → queryVersion ≠ jstr "*" →
      ¬ optStrTruthy nc.cpeVersionStart → ¬ optStrTruthy nc.cpeVersionEnd →
      getCpeVersion nc.cpe = jstr "*" →
      classifyNvdCpeRow queryVersion nc = some .generalProductUncertain) ∧
    (∀ (query : JStr) (kpi : Option (RecMap (List JStr))) (vc pc ipq isv ip : Bool)
      (cfg : ConfigM) (skip : Bool) (st : SysState) (r : SearchVulnsResult),
      (searchVulns query kpi vc pc ipq true isv ip cfg skip st).1 = .ok r →
      ∀ kv ∈ r.vulns, kv.2.matchReason ≠ .generalProductUncertain) := by
  constructor
  · intro queryVersion nc h1 h2 h3 h4 h5
    simp [classifyNvdCpeRow, h1, h2, h3, h4, h5]
  · intro query kpi vc pc ipq isv ip cfg skip st r hok kv hmem
    simp only [searchVulns] at hok
    split at hok
    · simp at hok
    · split at hok
      · simp at hok
      · split at hok
        · simp at hok
        · next result2 heq =>
          simp only [Prod.fst] at hok
          injection hok with hok
          subst hok
          rcases addEOLStatus_shape (searchVulnsCore query kpi ipq true isv ip cfg
              skip _ st) _ st.now st.dateParse with hs | ⟨vs, hs⟩ | ⟨e, hs⟩ <;>
            rw [hs] at heq
          · injection heq with heq
            subst heq
            obtain ⟨l, hl⟩ := searchVulnsCore_vulns_shape query kpi ipq true isv ip
              cfg skip _ st
            rw [hl] at hmem
            exact filterVulnsByOptions_no_gpu (mem_filterPatched hmem)
          · injection heq with heq
            subst heq
            obtain ⟨l, hl⟩ := searchVulnsCore_vulns_shape query kpi ipq true isv ip
              cfg skip _ st
            have hmem2 : kv ∈ filterPatched ip (filterVulnsByOptions true isv l) := by
              rw [← hl]
              exact hmem
            exact filterVulnsByOptions_no_gpu (mem_filterPatched hmem2)
          · exact absurd heq (by simp)

/-- C5 (witness): the classification at the concrete query version
`2.4.39` against a wildcard-versioned row without range bounds, and the
suppression guarantee applied to a concrete successful call. -/
theorem general_product_uncertain_class_and_suppression_witness :
    classifyNvdCpeRow (jstr "2.4.39")
      ⟨jstr "CVE-2000-0001", jstr "cpe:2.3:a:apache:http_server:*:*:*:*:*:*:*:*",
        none, none, none, none⟩ = some .generalProductUncertain ∧
    ∀ kv ∈ (⟨[(jstr "cpe", [])], [], [], none⟩ : SearchVulnsResult).vulns,
      kv.2.matchReason ≠ .generalProductUncertain :=
  ⟨general_product_uncertain_class_and_suppression.1 (jstr "2.4.39")
      ⟨jstr "CVE-2000-0001", jstr "cpe:2.3:a:apache:http_server:*:*:*:*:*:*:*:*",
        none, none, none, none⟩
      (by decide) (by decide) (by decide) (by decide) (by decide),
   general_product_uncertain_class_and_suppression.2 (jstr "q")
      (some [(jstr "cpe", [])]) true true false false false
      ⟨⟨none, none⟩, ⟨none, none⟩, none, none⟩ true
      ⟨⟨[], [], [], [], [], [], [], false, false, []⟩, ⟨[], [], []⟩, some [], none, none,
        none, 0, fun _ => none⟩
      ⟨[(jstr "cpe", [])], [], [], none⟩ rfl⟩

/-- A list is a `isPrefixOf`-prefix of itself extended. -/
theorem isPrefixOf_append_self : ∀ (p t : JStr), p.isPrefixOf (p ++ t) = true := by
  intro p t
  induction p with
  | nil => simp [List.isPrefixOf]
  | cons a p' ih => simp [List.isPrefixOf, ih]

/-- `takeWhile (· ≠ ':')` of a colon-free part followed by a colon is the
part itself. -/
theorem takeWhile_ne_colon (p : JStr) (rest : JStr) (h : ∀ ch ∈ p, ch ≠ ':') :
    (p ++ ':' :: rest).takeWhile (· ≠ ':') = p := by
  induction p with
  | nil => simp [List.takeWhile]
  | cons a p' ih =>
    have ha : a ≠ ':' := h a (List.mem_cons_self a p')
    simp only [List.cons_append, List.takeWhile]
    rw [show decide (a ≠ ':') = true by simp [ha]]
    show a :: List.takeWhile (fun x => decide (x ≠ ':')) (p' ++ ':' :: rest) = a :: p'
    rw [ih (fun ch hch => h ch (List.mem_cons_of_mem a hch))]

/-- Any list of length at least five splits off its first five elements. -/
theorem exists_five_cons {α : Type} :
    ∀ (l : List α), 5 ≤ l.length → ∃ a b c d e t, l = a :: b :: c :: d :: e :: t := by
  intro l hl
  match l with
  | [] => simp at hl
  | [_] => simp at hl
  | [_, _] => simp at hl
  | [_, _, _] => simp at hl
  | [_, _, _, _] => simp at hl
  | a :: b :: c :: d :: e :: t => exact ⟨a, b, c, d, e, t, rfl⟩

/-- Inversion of `splitOnPred`: a split with at least two parts exposes the
first separator. -/
theorem splitOnPred_cons_inv (p : Char → Bool) :
    ∀ (s f r : JStr) (rs : List JStr), splitOnPred p s = f :: r :: rs →
      ∃ c0 s', p c0 = true ∧ s = f ++ c0 :: s' ∧ splitOnPred p s' = r :: rs := by
  intro s
  induction s with
  | nil =>
    intro f r rs h
    simp [splitOnPred] at h
  | cons c cs ih =>
    intro f r rs h
    simp only [splitOnPred] at h
    by_cases hc : p c
    · rw [if_pos hc] at h
      injection h with h1 h2
      exact ⟨c, cs, hc, by rw [← h1]; rfl, h2⟩
    · rw [if_neg hc] at h
      cases hrest : splitOnPred p cs with
      | nil => exact absurd hrest (splitOnPred_ne_nil p cs)
      | cons r0 rs0 =>
        rw [hrest] at h
        injection h with h1 h2
        subst h1
        subst h2
        obtain ⟨c0, s', hc0, hcs, hsp⟩ := ih r0 r rs hrest
        exact ⟨c0, s', hc0, by rw [hcs]; rfl, hsp⟩

/-- Inversion of `splitOnPred`: a single-part split means no separator
occurred, so the part is the string itself. -/
theorem splitOnPred_single_inv (p : Char → Bool) :
    ∀ (s f : JStr), splitOnPred p s = [f] → s = f := by
  intro s
  induction s with
  | nil =>
    intro f h
    simp [splitOnPred] at h
    rw [h]
  | cons c cs ih =>
    intro f h
    simp only [splitOnPred] at h
    by_cases hc : p c
    · rw [if_pos hc] at h
      injection h with h1 h2
      exact absurd h2 (splitOnPred_ne_nil p cs)
    · rw [if_neg hc] at h
      cases hrest : splitOnPred p cs with
      | nil => exact absurd hrest (splitOnPred_ne_nil p cs)
      | cons r0 rs0 =>
        rw [hrest] at h
        injection h with h1 h2
        subst h2
        rw [← h1, ih r0 hrest]

/-- `cpe23At` accepts any string of the shape
`cpe:2.3:<aoh>:<part>:<char≠':'>...`. -/
theorem cpe23At_shape (c c4 : Char) (p3 J4 : JStr)
    (hc : c = 'a' ∨ c = 'o' ∨ c = 'h') (hp3 : p3 ≠ [])
    (hp3c : ∀ ch ∈ p3, ch ≠ ':') (hc4 : c4 ≠ ':') :
    cpe23At (jstr "cpe:2.3:" ++ c :: ':' :: (p3 ++ ':' :: (c4 :: J4))) = true := by
  unfold cpe23At
  rw [if_pos (isPrefixOf_append_self (jstr "cpe:2.3:") _)]
  have hdrop : (jstr "cpe:2.3:" ++ c :: ':' :: (p3 ++ ':' :: (c4 :: J4))).drop 8 =
      c :: ':' :: (p3 ++ ':' :: (c4 :: J4)) := rfl
  rw [hdrop]
  dsimp only
  have hg1 : cpe23Group (':' :: (p3 ++ ':' :: (c4 :: J4))) =
      some (':' :: (c4 :: J4)) := by
    simp only [cpe23Group]
    rw [takeWhile_ne_colon p3 _ hp3c]
    rw [if_neg hp3, List.drop_left]
  rw [hg1]
  dsimp only
  have hg2 : (cpe23Group (':' :: c4 :: J4)).isSome = true := by
    simp only [cpe23Group]
    rw [show (c4 :: J4).takeWhile (· ≠ ':') = c4 :: J4.takeWhile (· ≠ ':') from by
      simp [List.takeWhile, hc4]]
    rw [if_neg (by simp)]
    rfl
  rw [hg2, Bool.and_true]
  rcases hc with rfl | rfl | rfl <;> decide

/-- `MATCH_CPE_23_RE.test` succeeds on a string whose `cpe23At` check
succeeds at position zero under the `cpe:2.3:` prefix. -/
theorem testCpe23_of_head (X : JStr)
    (h : cpe23At (jstr "cpe:2.3:" ++ X) = true) :
    testCpe23 (jstr "cpe:2.3:" ++ X) = true := by
  show testCpe23 ('c' :: (jstr "pe:2.3:" ++ X)) = true
  rw [show testCpe23 ('c' :: (jstr "pe:2.3:" ++ X)) =
    (cpe23At ('c' :: (jstr "pe:2.3:" ++ X)) || testCpe23 (jstr "pe:2.3:" ++ X))
    from rfl]
  rw [show cpe23At ('c' :: (jstr "pe:2.3:" ++ X)) = true from h]
  simp

/-- A full-grammar structured CPE passes the unanchored
`MATCH_CPE_23_RE.test`. -/
theorem cpeFullMatch23_test (s : JStr) (h : cpeFullMatch23 s = true) :
    testCpe23 s = true := by
  simp only [cpeFullMatch23, decide_eq_true_eq] at h
  obtain ⟨h5, _h13, h0, h1, h2, hall⟩ := h
  obtain ⟨p0, p1, p2, p3, p4, rest, hp⟩ := exists_five_cons _ h5
  rw [hp] at h0 h1 h2 hall
  simp only [List.getD_cons_zero, List.getD_cons_succ] at h0 h1 h2
  subst h0
  subst h1
  have hall' : (p3 :: p4 :: rest).all (fun x => decide (x ≠ [])) = true := hall
  have hp3ne : p3 ≠ [] := by
    have := List.all_eq_true.mp hall' p3 (by simp)
    simpa using this
  have hp4ne : p4 ≠ [] := by
    have := List.all_eq_true.mp hall' p4 (by simp)
    simpa using this
  have hcleanAll : ∀ f ∈ jsSplitChar ':' s, ∀ ch ∈ f, ch ≠ ':' := by
    intro f hf ch hch
    have := splitOnPred_parts_clean (fun c => decide (c = ':')) s f hf ch hch
    simpa using this
  have hp3c : ∀ ch ∈ p3, ch ≠ ':' :=
    hcleanAll p3 (by rw [hp]; simp)
  have hp4c : ∀ ch ∈ p4, ch ≠ ':' :=
    hcleanAll p4 (by rw [hp]; simp)
  have hp' : splitOnPred (fun c => decide (c = ':')) s =
      jstr "cpe" :: jstr "2.3" :: p2 :: p3 :: p4 :: rest := hp
  obtain ⟨c1, s1, hc1, hs1, hsp1⟩ := splitOnPred_cons_inv _ s _ _ _ hp'
  obtain ⟨c2, s2, hc2, hs2, hsp2⟩ := splitOnPred_cons_inv _ s1 _ _ _ hsp1
  obtain ⟨c3, s3, hc3, hs3, hsp3⟩ := splitOnPred_cons_inv _ s2 _ _ _ hsp2
  obtain ⟨c4s, s4, hc4s, hs4, hsp4⟩ := splitOnPred_cons_inv _ s3 _ _ _ hsp3
  have hc1' : c1 = ':' := by simpa using hc1
  have hc2' : c2 = ':' := by simpa using hc2
  have hc3' : c3 = ':' := by simpa using hc3
  have hc4s' : c4s = ':' := by simpa using hc4s
  subst hc1'
  subst hc2'
  subst hc3'
  subst hc4s'
  obtain ⟨t, hs5⟩ : ∃ t, s4 = p4 ++ t := by
    cases rest with
    | nil => exact ⟨[], by rw [splitOnPred_single_inv _ s4 p4 hsp4]; simp⟩
    | cons r rs =>
      obtain ⟨c5, s5, hc5, hs5, _⟩ := splitOnPred_cons_inv _ s4 _ _ _ hsp4
      have hc5' : c5 = ':' := by simpa using hc5
      subst hc5'
      exact ⟨':' :: s5, hs5⟩
  obtain ⟨c4, p4', rfl⟩ := List.exists_cons_of_ne_nil hp4ne
  have hc4 : c4 ≠ ':' := hp4c c4 (by simp)
  rcases h2 with h2 | h2 | h2 <;> subst h2
  · have hs : s = jstr "cpe:2.3:" ++ 'a' :: ':' :: (p3 ++ ':' :: (c4 :: (p4' ++ t))) := by
      rw [hs1, hs2, hs3, hs4, hs5]
      rfl
    rw [hs]
    exact testCpe23_of_head _ (cpe23At_shape 'a' c4 p3 (p4' ++ t) (.inl rfl) hp3ne hp3c hc4)
  · have hs : s = jstr "cpe:2.3:" ++ 'o' :: ':' :: (p3 ++ ':' :: (c4 :: (p4' ++ t))) := by
      rw [hs1, hs2, hs3, hs4, hs5]
      rfl
    rw [hs]
    exact testCpe23_of_head _
      (cpe23At_shape 'o' c4 p3 (p4' ++ t) (.inr (.inl rfl)) hp3ne hp3c hc4)
  · have hs : s = jstr "cpe:2.3:" ++ 'h' :: ':' :: (p3 ++ ':' :: (c4 :: (p4' ++ t))) := by
      rw [hs1, hs2, hs3, hs4, hs5]
      rfl
    rw [hs]
    exact testCpe23_of_head _
      (cpe23At_shape 'h' c4 p3 (p4' ++ t) (.inr (.inr rfl)) hp3ne hp3c hc4)

/-- The first element of an equivalence expansion is always the input CPE
itself. -/
theorem getEquivalentCpes_head (cpe : JStr) (g : RecMap (List JStr)) :
    (getEquivalentCpes cpe g).head? = some cpe := by
  simp only [getEquivalentCpes]
  split_ifs <;> simp

/-- A successful `searchVulns` call returns the `searchVulnsCore` record of
its inputs (for the availability flag actually used), possibly with
`version_status` set by the EOL enrichment; all other fields agree with the
core record. -/
theorem searchVulns_ok_fields (query : JStr) (kpi : Option (RecMap (List JStr)))
    (vc pc ipq ig isv ip : Bool) (cfg : ConfigM) (skip : Bool) (st : SysState)
    (r : SearchVulnsResult)
    (hok : (searchVulns query kpi vc pc ipq ig isv ip cfg skip st).1 = .ok r) :
    ∃ hv : Bool,
      r.product_ids = (searchVulnsCore query kpi ipq ig isv ip cfg skip hv st).product_ids ∧
      r.pot_product_ids =
        (searchVulnsCore query kpi ipq ig isv ip cfg skip hv st).pot_product_ids ∧
      r.vulns = (searchVulnsCore query kpi ipq ig isv ip cfg skip hv st).vulns := by
  simp only [searchVulns] at hok
  split at hok
  · simp at hok
  · split at hok
    · simp at hok
    · split at hok
      · simp at hok
      · next result2 heq =>
        simp only [Prod.fst] at hok
        injection hok with hok
        subst hok
        refine ⟨decide (vc = true ∨ ¬skip = true ∧ ¬vc = true), ?_⟩
        rcases addEOLStatus_shape (searchVulnsCore query kpi ipq ig isv ip cfg
            skip (decide (vc = true ∨ ¬skip = true ∧ ¬vc = true)) st) _ st.now
            st.dateParse with hs | ⟨vs, hs⟩ | ⟨e, hs⟩ <;>
          rw [hs] at heq
        · injection heq with heq
          subst heq
          exact ⟨rfl, rfl, rfl⟩
        · injection heq with heq
          subst heq
          exact ⟨rfl, rfl, rfl⟩
        · exact absurd heq (by simp)

/-- In the structured-CPE branch (query already a CPE, no known product
ids), `searchVulnsCore` produces no potential product ids and sets the CPE
product-id list from the wildcard-padded query. -/
theorem searchVulnsCore_cpe_branch (query : JStr) (ipq ig isv ip : Bool)
    (cfg : ConfigM) (skip hv : Bool) (st : SysState)
    (htest : testCpe23 (jsTrim query) = true) :
    (searchVulnsCore query none ipq ig isv ip cfg skip hv st).pot_product_ids = [] ∧
    (searchVulnsCore query none ipq ig isv ip cfg skip hv st).product_ids =
      [(jstr "cpe",
        if ipq then
          [if (jsSplitChar ':' (jsTrim query)).length < 13 then
            jsTrim query ++ (List.replicate (13 - (jsSplitChar ':' (jsTrim query)).length)
              (jstr ":*")).flatten
           else jsTrim query]
        else getEquivalentCpes
          (if (jsSplitChar ':' (jsTrim query)).length < 13 then
            jsTrim query ++ (List.replicate (13 - (jsSplitChar ':' (jsTrim query)).length)
              (jstr ":*")).flatten
           else jsTrim query) st.equivGraph)] := by
  refine ⟨?_, ?_⟩ <;> simp [searchVulnsCore, htest, RecMap.set]

/-- C4: a query matching the full structured-CPE 2.3 grammar passes the
CPE-detection test, makes `search_cpes` return no candidates and no
potential candidates (retrieval scoring is skipped entirely), and makes
`searchVulns` accept the query itself — wildcard-padded to 13 fields — as
the first (and, for product-id queries, only) accepted candidate, with no
potential product ids recorded. -/
theorem structured_cpe_query_accepted :
    (∀ s : JStr, cpeFullMatch23 s = true → testCpe23 s = true) ∧
    (∀ (query : JStr) (db : ProductDb) (count : Option Int)
        (threshold : Option Frac) (cc : Option Int) (ct : Option Frac),
      cpeFullMatch23 (jsTrim query) = true →
      search_cpes query db count threshold cc ct = ⟨[], []⟩) ∧
    (∀ (query : JStr) (vc pc ipq ig isv ip : Bool) (cfg : ConfigM) (skip : Bool)
        (st : SysState) (r : SearchVulnsResult),
      cpeFullMatch23 (jsTrim query) = true →
      (searchVulns query none vc pc ipq ig isv ip cfg skip st).1 = .ok r →
      r.pot_product_ids = [] ∧
      ∃ ids, r.product_ids = [(jstr "cpe", ids)] ∧
        ids.head? = some (if (jsSplitChar ':' (jsTrim query)).length < 13 then
          jsTrim query ++ (List.replicate (13 - (jsSplitChar ':' (jsTrim query)).length)
            (jstr ":*")).flatten
          else jsTrim query)) := by
  refine ⟨cpeFullMatch23_test, ?_, ?_⟩
  · intro query db count threshold cc ct h
    by_cases hq : query = []
    · subst hq
      rfl
    · have htest := cpeFullMatch23_test _ h
      simp [search_cpes, hq, htest]
  · intro query vc pc ipq ig isv ip cfg skip st r h hok
    have htest := cpeFullMatch23_test _ h
    obtain ⟨hv, hpi, hpot, _⟩ := searchVulns_ok_fields query none vc pc ipq ig isv ip
      cfg skip st r hok
    obtain ⟨hcorePot, hcorePi⟩ := searchVulnsCore_cpe_branch query ipq ig isv ip cfg
      skip hv st htest
    refine ⟨by rw [hpot, hcorePot], ?_⟩
    refine ⟨_, by rw [hpi, hcorePi], ?_⟩
    by_cases hipq : ipq = true
    · simp [hipq]
    · simp [hipq, getEquivalentCpes_head]

/-- C4 (witness): the short CPE query `cpe:2.3:a:jquery:jquery:3.1.2`
matches the full grammar; `search_cpes` returns nothing for it, and a
successful product-id `searchVulns` call accepts exactly its 13-field
padding. -/
theorem structured_cpe_query_accepted_witness :
    search_cpes (jstr "cpe:2.3:a:jquery:jquery:3.1.2") ⟨[], [], []⟩ none none none
      none = ⟨[], []⟩ ∧
    ((⟨[(jstr "cpe", [jstr "cpe:2.3:a:jquery:jquery:3.1.2:*:*:*:*:*:*:*"])], [], [],
        none⟩ : SearchVulnsResult).pot_product_ids = [] ∧
      ∃ ids, (⟨[(jstr "cpe",
          [jstr "cpe:2.3:a:jquery:jquery:3.1.2:*:*:*:*:*:*:*"])], [], [],
          none⟩ : SearchVulnsResult).product_ids = [(jstr "cpe", ids)] ∧
        ids.head? = some (jstr "cpe:2.3:a:jquery:jquery:3.1.2:*:*:*:*:*:*:*")) :=
  ⟨structured_cpe_query_accepted.2.1 (jstr "cpe:2.3:a:jquery:jquery:3.1.2")
      ⟨[], [], []⟩ none none none none (by decide),
   structured_cpe_query_accepted.2.2 (jstr "cpe:2.3:a:jquery:jquery:3.1.2")
      true true true false false false ⟨⟨none, none⟩, ⟨none, none⟩, none, none⟩ true
      ⟨⟨[], [], [], [], [], [], [], false, false, []⟩, ⟨[], [], []⟩, some [], none, none,
        none, 0, fun _ => none⟩
      ⟨[(jstr "cpe", [jstr "cpe:2.3:a:jquery:jquery:3.1.2:*:*:*:*:*:*:*"])], [], [],
        none⟩ (by decide) rfl⟩

set_option maxRecDepth 1000000 in
/-- C3: `searchVulns` does NOT bypass product retrieval for a direct
vulnerability-identifier query.  Against a vulnerability database holding
`CVE-2024-27286` and a product database whose retrieval tables index a CPE
under the term `cve`, the query `CVE-2024-27286` is fed through the
TF-IDF retrieval (the identifier is not a structured CPE, so the CPE-search
branch runs), and the retrieval's potential candidates surface in
`pot_product_ids` — while, as claimed, the vulnerability map holds exactly
the one `VULN_ID` match, and an unknown identifier yields an empty map with
no error. -/
theorem cve_query_retrieval_not_bypassed :
    (∃ r, (searchVulns (jstr "CVE-2024-27286") none true true false false false
        false ⟨⟨none, none⟩, ⟨none, none⟩, none, none⟩ false
        ⟨⟨[⟨jstr "CVE-2024-27286", jstr "desc", jstr "2024-03-01",
            jstr "2024-03-02", jstr "3.1", some (jstr "6.1"), jstr "VEC", 0⟩],
          [], [], [], [], [], [], false, false, []⟩,
         ⟨[(jstr "cve", jstr "1")],
          [⟨1, jstr "cpe:2.3:a:cve:cve:*:*:*:*:*:*:*:*",
            [(jstr "cve", Frac.ofInt 1)], Frac.ofInt 2⟩], []⟩,
         some [], none, none, none, 0, fun _ => none⟩).1 = .ok r ∧
      r.pot_product_ids ≠ [] ∧
      RecMap.keys r.vulns = [jstr "CVE-2024-27286"] ∧
      (∀ kv ∈ r.vulns, kv.2.matchReason = .vulnId) ∧
      r.product_ids = [(jstr "cpe", [])]) ∧
    (∃ r2, (searchVulns (jstr "CVE-2024-99999") none true true false false false
        false ⟨⟨none, none⟩, ⟨none, none⟩, none, none⟩ false
        ⟨⟨[⟨jstr "CVE-2024-27286", jstr "desc", jstr "2024-03-01",
            jstr "2024-03-02", jstr "3.1", some (jstr "6.1"), jstr "VEC", 0⟩],
          [], [], [], [], [], [], false, false, []⟩,
         ⟨[(jstr "cve", jstr "1")],
          [⟨1, jstr "cpe:2.3:a:cve:cve:*:*:*:*:*:*:*:*",
            [(jstr "cve", Frac.ofInt 1)], Frac.ofInt 2⟩], []⟩,
         some [], none, none, none, 0, fun _ => none⟩).1 = .ok r2 ∧
      r2.vulns = [] ∧ r2.pot_product_ids ≠ []) := by
  refine ⟨⟨_, rfl, ?_, ?_, ?_, ?_⟩, ⟨_, rfl, ?_, ?_⟩⟩ <;> decide
